import Mathlib

/-!
Verification development for two FX-graph rewriting passes of the repository:

* `torch/onnx/_internal/fx/passes/type_promotion.py` — the explicit type
  promotion pass (rule table, promotion preview, argument/output cast
  insertion, node re-interpretation);
* `torch/_inductor/fx_passes/replace_random.py` — the random-op replacement
  driver and the per-device seed fusion pass.

The graphs, nodes and passes are shallowly embedded as executable Lean
functions translated from the Python source.  External collaborators (the
abstract fake-tensor interpreter, the operator dispatcher, the pattern
matcher registry, `torch.ops` operator resolution, and
`torch._prims_common.elementwise_dtypes`) are not part of the two source
files; they are either taken as explicit function parameters or modelled
from the specification, as noted at each definition.
-/

namespace PySpec

/-! ## Dtype model -/

/-- Torch scalar dtypes that participate in elementwise type promotion. -/
inductive Dtype
  | bool
  | uint8
  | int8
  | int16
  | int32
  | int64
  | float16
  | bfloat16
  | float32
  | float64
  | complex32
  | complex64
  | complex128
deriving DecidableEq, Repr

/-- Kind class rank: bool < int < float < complex. -/
def Dtype.kindRank : Dtype → Nat
  | .bool => 0
  | .uint8 | .int8 | .int16 | .int32 | .int64 => 1
  | .float16 | .bfloat16 | .float32 | .float64 => 2
  | .complex32 | .complex64 | .complex128 => 3

/-- Width rank inside a kind class. -/
def Dtype.widthRank : Dtype → Nat
  | .bool => 0
  | .uint8 => 0
  | .int8 => 1
  | .int16 => 2
  | .int32 => 3
  | .int64 => 4
  | .float16 => 0
  | .bfloat16 => 1
  | .float32 => 2
  | .float64 => 3
  | .complex32 => 0
  | .complex64 => 1
  | .complex128 => 2

/-- Linear code combining kind class and width, used for the lattice join. -/
def Dtype.code (d : Dtype) : Nat := d.kindRank * 16 + d.widthRank

/-- Join of two dtypes in the promotion lattice (larger code wins). -/
def joinDtype (a b : Dtype) : Dtype := if a.code < b.code then b else a

/-- The promotion-kind enum of `torch._prims_common.ELEMENTWISE_TYPE_PROMOTION_KIND`. -/
inductive PromotionKind
  | default
  | intToFloat
  | complexToFloat
  | boolToLong
  | alwaysBool
  | noOpmath
deriving DecidableEq, Repr

/-- Bool operands are promoted to a default integer width (int64). -/
def boolToLongMap (d : Dtype) : Dtype := if d = .bool then .int64 else d

/-- Corresponding real floating dtype of a complex dtype. -/
def corrRealOf : Dtype → Dtype
  | .complex32 => .float16
  | .complex64 => .float32
  | .complex128 => .float64
  | d => d

/-- Fold the lattice join over a list of dtypes. -/
def joinAll (d0 : Dtype) (rest : List Dtype) : Dtype := rest.foldl joinDtype d0

/-- Modelled from the spec: `torch._prims_common.elementwise_dtypes` is not
part of the two source files; §4.2 of the spec describes it as a total,
deterministic dtype-lattice join over the participating operand dtypes
(widen to the largest width within a kind class, cross-kind order
bool < int < float < complex), adjusted per promotion kind as in §3.
Returns `(computation_dtype, output_dtype)`; `none` models the failure on an
empty operand list. -/
def elementwise_dtypes (dtypes : List Dtype) (kind : PromotionKind) :
    Option (Dtype × Dtype) :=
  match dtypes with
  | [] => none
  | d0 :: rest =>
    match kind with
    | .default =>
      let c := joinAll d0 rest
      some (c, c)
    | .noOpmath =>
      let c := joinAll d0 rest
      some (c, c)
    | .intToFloat =>
      let c := joinAll d0 rest
      let c' := if c.kindRank ≤ 1 then Dtype.float32 else c
      some (c', c')
    | .complexToFloat =>
      let c := joinAll d0 rest
      some (c, corrRealOf c)
    | .boolToLong =>
      let c := joinAll (boolToLongMap d0) (rest.map boolToLongMap)
      some (c, c)
    | .alwaysBool =>
      let c := joinAll d0 rest
      some (c, Dtype.bool)

/-! ## Scalar kinds and abstract runtime values -/

/-- Python scalar literal kinds appearing as fx node arguments. -/
inductive ScalarKind
  | sBool
  | sInt
  | sFloat
  | sComplex
deriving DecidableEq, Repr

/-- `_SCALAR_TYPE_TENSOR_DTYPE_MAP` from the source: natural tensor dtype of a
Python scalar type. -/
def scalarEquivDtype : ScalarKind → Dtype
  | .sBool => .bool
  | .sInt => .int64
  | .sFloat => .float32
  | .sComplex => .complex32

/-- Abstract runtime values held by the interpretation environment and in
`node.meta["val"]`: fake tensors (carrying a dtype), scalars, dtype objects,
symbolic scalars, sequences, and Python `None`. -/
inductive RVal
  | tensor (d : Dtype)
  | scalar (k : ScalarKind)
  | dtypeV (d : Dtype)
  | symV
  | seqT (xs : List RVal)
  | noneV
deriving Repr

/-- Head-constructor test for the Python `None` value. -/
def isNoneV : RVal → Bool
  | .noneV => true
  | _ => false

theorem isNoneV_iff (v : RVal) : isNoneV v = true ↔ v = .noneV := by
  cases v <;> simp [isNoneV]

mutual

/-- Dtypes of the tensor/scalar leaves of an abstract value, in `tree_flatten`
order. -/
def leafDtypes : RVal → List Dtype
  | .tensor d => [d]
  | .scalar k => [scalarEquivDtype k]
  | .seqT xs => leafDtypesList xs
  | .dtypeV _ => []
  | .symV => []
  | .noneV => []

/-- Dtypes of the leaves of a list of abstract values. -/
def leafDtypesList : List RVal → List Dtype
  | [] => []
  | x :: xs => leafDtypes x ++ leafDtypesList xs

end

/-! ## Promotion rules, table and snapshot (`type_promotion.py`) -/

/-- `TypePromotionRule` from the source: how to promote
`torch.ops.{namespc}.{op_name}`. -/
structure TypePromotionRule where
  namespc : String
  op_name : String
  promote_args_positions : List Nat
  promote_kwargs_names : List String
  promotion_kind : PromotionKind
deriving DecidableEq, Repr

/-- Result of resolving `getattr(torch.ops.<ns>, <name>)`: an
`OpOverloadPacket`, some other attribute, or absent. -/
inductive ResolvedOp
  | packet
  | notPacket
  | absent
deriving DecidableEq, Repr

/-- The `torch.ops` operator registry is an external collaborator (spec §6);
it is passed in as a lookup function from namespace and op name. -/
def OpRegistry : Type := String → String → ResolvedOp

/-- `TypePromotionRule.is_valid` from the source: the op must resolve to an
`OpOverloadPacket` under `torch.ops.<namespace>`. -/
def is_valid (reg : OpRegistry) (r : TypePromotionRule) : Bool :=
  match reg r.namespc r.op_name with
  | .packet => true
  | _ => false

/-- Dictionary-style assignment on an association list: replace the first
binding of the key in place, or append a new binding. -/
def setKeyAssoc {κ β : Type} [DecidableEq κ] :
    List (κ × β) → κ → β → List (κ × β)
  | [], k, v => [(k, v)]
  | (k', v') :: rest, k, v =>
    if k' = k then (k, v) :: rest else (k', v') :: setKeyAssoc rest k v

/-- Errors surfaced by the modelled pass (assertion failures, raised
exceptions). -/
inductive PErr
  | invalidRule
  | overloadResolution
  | noFakeTensor
  | notImplementedArg
  | nodeNotFound
  | valNotSet
  | outTypeChanged
  | ruleMismatch
  | symNotSupported
  | seqNotSupported
  | unexpectedOutType
  | elementwiseFailed
  | missingFakeArgs
deriving DecidableEq, Repr

/-- Key under which a rule is stored: `f"{rule.namespace}.{rule.op_name}"`. -/
def ruleKey (r : TypePromotionRule) : String := r.namespc ++ "." ++ r.op_name

/-- `TypePromotionTable.add_rule` from the source: raise on an invalid rule,
otherwise insert/overwrite under the rule's key. -/
def add_rule (reg : OpRegistry) (tbl : List (String × TypePromotionRule))
    (r : TypePromotionRule) : Except PErr (List (String × TypePromotionRule)) :=
  if is_valid reg r then .ok (setKeyAssoc tbl (ruleKey r) r)
  else .error .invalidRule

/-- `TypePromotionTable.__init__` from the source: start from an empty table,
add every generated rule, then every manually curated extra rule. -/
def buildTypePromotionTable (reg : OpRegistry)
    (generated extra : List TypePromotionRule) :
    Except PErr (List (String × TypePromotionRule)) :=
  (generated ++ extra).foldlM (add_rule reg) []

/-- `TypePromotionTable.get_rule` from the source: lookup by the string name
of the op's overload packet; absence is not an error. -/
def get_rule (tbl : List (String × TypePromotionRule)) (packetName : String) :
    Option TypePromotionRule :=
  tbl.lookup packetName

/-- Deduplication worker carrying the elements already emitted. -/
def dedupSeen {α : Type} [DecidableEq α] (seen : List α) : List α → List α
  | [] => []
  | x :: xs =>
    if x ∈ seen then dedupSeen seen xs else x :: dedupSeen (x :: seen) xs

/-- Deduplicate a list keeping the first occurrence of each element
(Python `dict` key semantics for the comprehensions in
`preview_type_promotion`). -/
def dedupFirst {α : Type} [DecidableEq α] (l : List α) : List α :=
  dedupSeen [] l

/-- `TypePromotionSnapshot` from the source. -/
structure TypePromotionSnapshot where
  args_dtypes : List (Nat × Dtype)
  kwargs_dtypes : List (String × Dtype)
  out_dtype : Dtype
deriving DecidableEq, Repr

/-- Participating positional indices of `preview_type_promotion`: the rule's
positions that are in range and whose (env-fetched) value is not `None`. -/
def candidateArgIdxs (r : TypePromotionRule) (args : List RVal) : List Nat :=
  (dedupFirst r.promote_args_positions).filter
    (fun i => decide (i < args.length) && !(isNoneV (args.getD i .noneV)))

/-- Participating kwarg names of `preview_type_promotion`: the rule's names
that are present in the kwargs and whose value is not `None`. -/
def candidateKwargNames (r : TypePromotionRule) (kwargs : List (String × RVal)) :
    List String :=
  (dedupFirst r.promote_kwargs_names).filter
    (fun nm =>
      match kwargs.lookup nm with
      | some v => !(isNoneV v)
      | none => false)

/-- Flattened dtype leaves of all candidate args and kwargs, in the order
`preview_type_promotion` passes them to `elementwise_dtypes`. -/
def candidateLeaves (r : TypePromotionRule) (args : List RVal)
    (kwargs : List (String × RVal)) : List Dtype :=
  leafDtypesList ((candidateArgIdxs r args).map (fun i => args.getD i .noneV)) ++
    leafDtypesList
      ((candidateKwargNames r kwargs).map (fun nm => (kwargs.lookup nm).getD .noneV))

/-- `TypePromotionRule.preview_type_promotion` from the source: compute the
shared computation dtype and the result dtype over the surviving candidate
operands, and map every surviving position and name to the computation
dtype. -/
def preview_type_promotion (r : TypePromotionRule) (args : List RVal)
    (kwargs : List (String × RVal)) : Option TypePromotionSnapshot :=
  let idxs := candidateArgIdxs r args
  let names := candidateKwargNames r kwargs
  match elementwise_dtypes (candidateLeaves r args kwargs) r.promotion_kind with
  | none => none
  | some (c, res) =>
    some ⟨idxs.map (fun i => (i, c)), names.map (fun nm => (nm, c)), res⟩

end PySpec

namespace PySpec

/-! ## FX graph model for the explicit type promotion pass -/

/-- Operator identity of a call-function node: the overload packet name
(e.g. `"aten.add"`) and the overload tag (e.g. `"Tensor"`). -/
structure OpT where
  packet : String
  overload : String
deriving DecidableEq, Repr

/-- `torch.ops.prims.convert_element_type.default`. -/
def convertOp : OpT := ⟨"prims.convert_element_type", "default"⟩

/-- `getattr(torch.ops.aten.tensor, type(fx_arg).__name__)`. -/
def tensorCtorOp : ScalarKind → OpT
  | .sBool => ⟨"aten.tensor", "bool"⟩
  | .sInt => ⟨"aten.tensor", "int"⟩
  | .sFloat => ⟨"aten.tensor", "float"⟩
  | .sComplex => ⟨"aten.tensor", "complex"⟩

/-- An fx node argument: a reference to another node, a scalar literal,
a dtype literal, Python `None`, or a nested tuple/list of arguments. -/
inductive PArg
  | node (id : Nat)
  | scalar (k : ScalarKind) (payload : Int)
  | dtypeLit (d : Dtype)
  | noneA
  | tup (xs : List PArg)
  | lst (xs : List PArg)
deriving Repr

/-- An fx graph node: identity, op kind string, call target, positional and
named operands, and the `meta["val"]` abstract value. -/
structure PNode where
  id : Nat
  op : String
  target : OpT
  args : List PArg
  kwargs : List (String × PArg)
  meta_val : Option RVal
deriving Repr

/-- Pass state: the graph (node list in graph order), the interpreter
environment mapping node ids to abstract values, and the next fresh node
id. -/
structure PState where
  graph : List PNode
  env : List (Nat × RVal)
  fresh : Nat
deriving Repr

/-- The external collaborators of the pass (spec §6): the abstract
fake-tensor interpreter (`interpret one node, return abstract value`) and the
host dispatcher that records which concrete overloads an overload-packet
invocation resolves to (`_OpTraceDispatchMode`). -/
structure Host where
  evalOp : OpT → List RVal → List (String × RVal) → RVal
  dispatch : String → List RVal → List (String × RVal) → List OpT

/-- Find the node with the given id. -/
def findNode (g : List PNode) (nid : Nat) : Option PNode :=
  g.find? (fun n => n.id == nid)

/-- Value of a node id in the interpretation environment. -/
def PState.envVal (st : PState) (nid : Nat) : RVal :=
  (st.env.lookup nid).getD .noneV

mutual

/-- `fetch_args_kwargs_from_env` applied to one argument: node references are
replaced by their environment values. -/
def argVal (st : PState) : PArg → RVal
  | .node i => st.envVal i
  | .scalar k _ => .scalar k
  | .dtypeLit d => .dtypeV d
  | .noneA => .noneV
  | .tup xs => .seqT (argValList st xs)
  | .lst xs => .seqT (argValList st xs)

/-- Environment values of a list of arguments. -/
def argValList (st : PState) : List PArg → List RVal
  | [] => []
  | x :: xs => argVal st x :: argValList st xs

end

/-- Environment values of the kwargs of a node. -/
def kwargVals (st : PState) (kwargs : List (String × PArg)) :
    List (String × RVal) :=
  kwargs.map (fun p => (p.1, argVal st p.2))

/-- `_get_fake_tensor_val(node).dtype`: the node's `meta["val"]` must be a
fake tensor, else `RuntimeError`. -/
def fakeTensorDtype (g : List PNode) (nid : Nat) : Except PErr Dtype :=
  match findNode g nid with
  | some n =>
    match n.meta_val with
    | some (.tensor d) => .ok d
    | _ => .error .noFakeTensor
  | none => .error .noFakeTensor

/-- Insertion point of `_create_node`. -/
inductive InsPt
  | before (nid : Nat)
  | after (nid : Nat)
deriving DecidableEq, Repr

/-- Insert a node immediately before the (first) node with the given id. -/
def insertBeforeP : List PNode → Nat → PNode → List PNode
  | [], _, n => [n]
  | m :: rest, r, n =>
    if m.id == r then n :: m :: rest else m :: insertBeforeP rest r n

/-- Insert a node immediately after the (first) node with the given id. -/
def insertAfterP : List PNode → Nat → PNode → List PNode
  | [], _, n => [n]
  | m :: rest, r, n =>
    if m.id == r then m :: n :: rest else m :: insertAfterP rest r n

/-- Apply an insertion point. -/
def insertAtP (g : List PNode) : InsPt → PNode → List PNode
  | .before r, n => insertBeforeP g r n
  | .after r, n => insertAfterP g r n

/-- Rewrite the node with the given id by a function, leaving the rest of the
graph untouched. -/
def mapNodeP (g : List PNode) (nid : Nat) (f : PNode → PNode) : List PNode :=
  g.map (fun n => if n.id == nid then f n else n)

/-- `_create_node` from the source: build a call-function node at the given
insertion point, run it through the interpreter
(`_run_node_and_update_meta_val`) to set its environment value and
`meta["val"]`, and return the new node's id. -/
def _create_node (H : Host) (st : PState) (ins : InsPt) (t : OpT)
    (args : List PArg) (kwargs : List (String × PArg)) : PState × Nat :=
  let nid := st.fresh
  let out := H.evalOp t (argValList st args) (kwargVals st kwargs)
  let node : PNode := ⟨nid, "call_function", t, args, kwargs, some out⟩
  (⟨insertAtP st.graph ins node, setKeyAssoc st.env nid out, st.fresh + 1⟩, nid)

mutual

/-- `ExplicitTypePromotionPass._explicit_type_promote_arg` from the source:
promote a single operand towards the snapshot's target dtype (`none` means
the operand does not participate). -/
def _explicit_type_promote_arg (H : Host) (nid : Nat) (st : PState) :
    PArg → Option Dtype → Except PErr (PState × PArg)
  | a, none => .ok (st, a)
  | .node m, some dt =>
    (match fakeTensorDtype st.graph m with
    | .error e => .error e
    | .ok old =>
      if old ≠ dt then
        let r := _create_node H st (.before nid) convertOp [.node m]
          [("dtype", .dtypeLit dt)]
        .ok (r.1, .node r.2)
      else .ok (st, .node m))
  | .scalar k v, some dt =>
    if scalarEquivDtype k ≠ dt then
      let r := _create_node H st (.before nid) (tensorCtorOp k) [.scalar k v]
        [("dtype", .dtypeLit dt)]
      .ok (r.1, .node r.2)
    else .ok (st, .scalar k v)
  | .tup xs, some dt =>
    (match promoteArgList H nid st xs dt with
    | .ok r => .ok (r.1, .tup r.2)
    | .error e => .error e)
  | .lst xs, some dt =>
    (match promoteArgList H nid st xs dt with
    | .ok r => .ok (r.1, .lst r.2)
    | .error e => .error e)
  | .dtypeLit _, some _ => .error .notImplementedArg
  | .noneA, some _ => .error .notImplementedArg

/-- Element-wise recursion of `_explicit_type_promote_arg` over a
tuple/list operand, threading the pass state. -/
def promoteArgList (H : Host) (nid : Nat) (st : PState) :
    List PArg → Dtype → Except PErr (PState × List PArg)
  | [], _ => .ok (st, [])
  | x :: xs, dt =>
    match _explicit_type_promote_arg H nid st x (some dt) with
    | .error e => .error e
    | .ok r =>
      match promoteArgList H nid r.1 xs dt with
      | .error e => .error e
      | .ok r' => .ok (r'.1, r.2 :: r'.2)

end

/-- Same head constructor test, modelling
`isinstance(new_node_val, type(node_val))`. -/
def sameHead : RVal → RVal → Bool
  | .tensor _, .tensor _ => true
  | .scalar _, .scalar _ => true
  | .dtypeV _, .dtypeV _ => true
  | .symV, .symV => true
  | .seqT _, .seqT _ => true
  | .noneV, .noneV => true
  | _, _ => false

/-- `find_compatible_op_overload` from the source: concretely invoke the
node's overload packet under `_OpTraceDispatchMode` (the host records the
dispatched overloads) and require exactly one recorded resolution. -/
def find_compatible_op_overload (H : Host) (target : OpT) (args : List RVal)
    (kwargs : List (String × RVal)) : Except PErr OpT :=
  match H.dispatch target.packet args kwargs with
  | [o] => .ok o
  | _ => .error .overloadResolution

/-- Set a node's call target. -/
def setTarget (st : PState) (nid : Nat) (t : OpT) : PState :=
  ⟨mapNodeP st.graph nid (fun n => ⟨n.id, n.op, t, n.args, n.kwargs, n.meta_val⟩),
    st.env, st.fresh⟩

/-- `_run_node_and_update_meta_val`'s bookkeeping: store the freshly computed
value in the environment and in the node's `meta["val"]`. -/
def setValEnv (st : PState) (nid : Nat) (v : RVal) : PState :=
  ⟨mapNodeP st.graph nid (fun n => ⟨n.id, n.op, n.target, n.args, n.kwargs, some v⟩),
    setKeyAssoc st.env nid v, st.fresh⟩

mutual

/-- Recursively redirect references to node `old` to node `new`
(`torch.fx`'s `map_arg` in `replace_all_uses_with`). -/
def replaceRef (old new : Nat) : PArg → PArg
  | .node m => if m == old then .node new else .node m
  | .scalar k v => .scalar k v
  | .dtypeLit d => .dtypeLit d
  | .noneA => .noneA
  | .tup xs => .tup (replaceRefList old new xs)
  | .lst xs => .lst (replaceRefList old new xs)

/-- `replaceRef` over a list of arguments. -/
def replaceRefList (old new : Nat) : List PArg → List PArg
  | [] => []
  | x :: xs => replaceRef old new x :: replaceRefList old new xs

end

/-- `node.replace_all_uses_with(new)`: rewrite every argument reference in
the graph. -/
def replace_all_uses_with (g : List PNode) (old new : Nat) : List PNode :=
  g.map (fun n =>
    ⟨n.id, n.op, n.target, replaceRefList old new n.args,
      n.kwargs.map (fun p => (p.1, replaceRef old new p.2)), n.meta_val⟩)

/-- Set the positional args of the node with the given id. -/
def setArgsOnly (g : List PNode) (nid : Nat) (args : List PArg) : List PNode :=
  mapNodeP g nid (fun n => ⟨n.id, n.op, n.target, args, n.kwargs, n.meta_val⟩)

/-- `ExplicitTypePromotionPass._rerun_node_after_explicit_type_promotion`
from the source: re-resolve the node's overload against the rewritten
operands, re-run it through the interpreter, check the recorded pre-rewrite
dtype against the rule's output dtype, and insert an output-narrowing cast
when the freshly computed dtype differs from the rule's output dtype. -/
def _rerun_node_after_explicit_type_promotion (H : Host) (st : PState)
    (nid : Nat) (expected : Dtype) : Except PErr PState :=
  match findNode st.graph nid with
  | none => .error .nodeNotFound
  | some node =>
    match node.meta_val with
    | none => .error .valNotSet
    | some nodeVal =>
      let argVs := argValList st node.args
      let kwargVs := kwargVals st node.kwargs
      match find_compatible_op_overload H node.target argVs kwargVs with
      | .error e => .error e
      | .ok newTarget =>
        let st1 := setTarget st nid newTarget
        let newVal := H.evalOp newTarget argVs kwargVs
        let st2 := setValEnv st1 nid newVal
        if sameHead newVal nodeVal = false then .error .outTypeChanged
        else
          match nodeVal with
          | .tensor prevD =>
            if prevD ≠ expected then .error .ruleMismatch
            else
              match newVal with
              | .tensor newD =>
                if newD ≠ expected then
                  let r := _create_node H st2 (.after nid) convertOp [.node nid]
                    [("dtype", .dtypeLit expected)]
                  let g4 := replace_all_uses_with r.1.graph nid r.2
                  let g5 := setArgsOnly g4 r.2 [.node nid]
                  .ok ⟨g5, r.1.env, r.1.fresh⟩
                else .ok st2
              | _ => .error .outTypeChanged
          | .symV => .error .symNotSupported
          | .seqT _ => .error .seqNotSupported
          | _ => .error .unexpectedOutType

/-- Promote the positional args of a node one by one, position `i` receiving
the snapshot entry `args_dtypes.get(i, None)`. -/
def promoteIndexed (H : Host) (nid : Nat) (st : PState) :
    List PArg → List (Nat × Dtype) → Nat → Except PErr (PState × List PArg)
  | [], _, _ => .ok (st, [])
  | a :: rest, snap, i =>
    match _explicit_type_promote_arg H nid st a (snap.lookup i) with
    | .error e => .error e
    | .ok r =>
      match promoteIndexed H nid r.1 rest snap (i + 1) with
      | .error e => .error e
      | .ok r' => .ok (r'.1, r.2 :: r'.2)

/-- Promote the kwargs of a node, name `nm` receiving the snapshot entry
`kwargs_dtypes.get(nm, None)`. -/
def promoteKwargs (H : Host) (nid : Nat) (st : PState) :
    List (String × PArg) → List (String × Dtype) →
    Except PErr (PState × List (String × PArg))
  | [], _ => .ok (st, [])
  | (nm, a) :: rest, snap =>
    match _explicit_type_promote_arg H nid st a (snap.lookup nm) with
    | .error e => .error e
    | .ok r =>
      match promoteKwargs H nid r.1 rest snap with
      | .error e => .error e
      | .ok r' => .ok (r'.1, (nm, r.2) :: r'.2)

/-- Set the operand lists of the node with the given id. -/
def setArgsKwargs (st : PState) (nid : Nat) (args : List PArg)
    (kwargs : List (String × PArg)) : PState :=
  ⟨mapNodeP st.graph nid (fun n => ⟨n.id, n.op, n.target, args, kwargs, n.meta_val⟩),
    st.env, st.fresh⟩

/-- `ExplicitTypePromotionPass._insert_explicit_type_promotion` from the
source: preview the promotion over the env-fetched operand values, rewrite
every operand, update the node, and re-run it. -/
def _insert_explicit_type_promotion (H : Host) (st : PState) (nid : Nat)
    (rule : TypePromotionRule) : Except PErr PState :=
  match findNode st.graph nid with
  | none => .error .nodeNotFound
  | some node =>
    match preview_type_promotion rule (argValList st node.args)
        (kwargVals st node.kwargs) with
    | none => .error .elementwiseFailed
    | some info =>
      match promoteIndexed H nid st node.args info.args_dtypes 0 with
      | .error e => .error e
      | .ok r =>
        match promoteKwargs H nid r.1 node.kwargs info.kwargs_dtypes with
        | .error e => .error e
        | .ok r' =>
          let st3 := setArgsKwargs r'.1 nid r.2 r'.2
          _rerun_node_after_explicit_type_promotion H st3 nid info.out_dtype

end PySpec

namespace PySpec

/-! ## Placeholder fake-arg collection (`_fetch_fake_args`) -/

mutual

/-- Does an argument reference the node with the given id (recursing into
nested tuples/lists, as `torch.fx` use tracking does)? -/
def argRefs (nid : Nat) : PArg → Bool
  | .node m => m == nid
  | .scalar _ _ => false
  | .dtypeLit _ => false
  | .noneA => false
  | .tup xs => argRefsList nid xs
  | .lst xs => argRefsList nid xs

/-- Does any argument in the list reference the node with the given id? -/
def argRefsList (nid : Nat) : List PArg → Bool
  | [] => false
  | x :: xs => argRefs nid x || argRefsList nid xs

end

/-- Does the node use the node with id `nid` as an operand? -/
def nodeUses (n : PNode) (nid : Nat) : Bool :=
  argRefsList nid n.args || n.kwargs.any (fun p => argRefs nid p.2)

/-- The users of a node: every node of the graph that uses it
(`node.users`). -/
def usersOf (g : List PNode) (nid : Nat) : List PNode :=
  g.filter (fun n => nodeUses n nid)

/-- Recoverability of a placeholder's abstract value
(`_get_fake_tensor_val` succeeds exactly on fake tensors). -/
def recoverableVal : Option RVal → Bool
  | some (.tensor _) => true
  | _ => false

/-- One step of `_fetch_fake_args` over the node list: placeholders with a
recoverable fake tensor pass it through; an unrecoverable placeholder is
tolerated as `None` when it has no users and is fatal otherwise. -/
def fetchFakeArgsGo (g : List PNode) : List PNode → Except PErr (List (Option RVal))
  | [] => .ok []
  | n :: rest =>
    if n.op = "placeholder" then
      match n.meta_val with
      | some (.tensor d) =>
        match fetchFakeArgsGo g rest with
        | .error e => .error e
        | .ok l => .ok (some (.tensor d) :: l)
      | _ =>
        if (usersOf g n.id).length = 0 then
          match fetchFakeArgsGo g rest with
          | .error e => .error e
          | .ok l => .ok (none :: l)
        else .error .missingFakeArgs
    else fetchFakeArgsGo g rest

/-- `ExplicitTypePromotionPass._fetch_fake_args` from the source. -/
def _fetch_fake_args (g : List PNode) : Except PErr (List (Option RVal)) :=
  fetchFakeArgsGo g g

end PySpec

namespace RRand

/-! ## Graph model for `replace_random.py` -/

open PySpec

/-- Dtype of an inductor fake-tensor value (only int64 matters here). -/
inductive DtypeR
  | int64
  | otherD (n : Nat)
deriving DecidableEq, Repr

/-- Call targets relevant to the seed fusion pass. -/
inductive RTarget
  | seed
  | seeds
  | lookupSeed
  | otherT (k : Nat)
deriving DecidableEq, Repr

/-- Node op kinds. -/
inductive ROp
  | callFunction
  | placeholder
  | output
  | otherOp (k : Nat)
deriving DecidableEq, Repr

/-- Node arguments: node references, plain literals, and device literals. -/
inductive RArg
  | node (id : Nat)
  | lit (n : Nat)
  | dev (d : Nat)
deriving DecidableEq, Repr

/-- A fake tensor recorded in `meta["val"]`. -/
structure FakeT where
  dtype : DtypeR
  shape : List Nat
  device : RArg
deriving DecidableEq, Repr

/-- Metadata values. -/
inductive MVal
  | fake (t : FakeT)
  | plain (n : Nat)
deriving DecidableEq, Repr

/-- A graph node of the inductor fx graph. -/
structure RNode where
  id : Nat
  op : ROp
  target : RTarget
  args : List RArg
  meta : List (String × MVal)
deriving DecidableEq, Repr

/-- The graph, in graph order. -/
abbrev RGraph := List RNode

/-- `CallFunctionVarArgs(inductor_prims.seed).match(node)`. -/
def matchSeed (n : RNode) : Bool :=
  n.op == .callFunction && n.target == .seed

/-- Append a seed node to its device group, preserving first-seen key order
(`collections.defaultdict(list)` insertion semantics). -/
def addToGroup : List (RArg × List RNode) → RArg → RNode →
    List (RArg × List RNode)
  | [], k, n => [(k, [n])]
  | (k', ns) :: rest, k, n =>
    if k' = k then (k', ns ++ [n]) :: rest else (k', ns) :: addToGroup rest k n

/-- The `device_seeds` multimap of `fuse_seed_creation_pass`: one linear scan
grouping seed nodes by their first argument (the device). -/
def collectSeedGroups (g : RGraph) : List (RArg × List RNode) :=
  g.foldl
    (fun acc n => if matchSeed n then addToGroup acc (n.args.headD (.lit 0)) n else acc)
    []

/-- Redirect a single argument from node `old` to node `new`. -/
def replaceArgR (old new : Nat) : RArg → RArg
  | .node m => if m == old then .node new else .node m
  | a => a

/-- `seed.replace_all_uses_with(new_seed)`: rewrite every reference in the
graph. -/
def replaceAllUsesR (g : RGraph) (old new : Nat) : RGraph :=
  g.map (fun n => ⟨n.id, n.op, n.target, n.args.map (replaceArgR old new), n.meta⟩)

/-- Insert a node immediately before the (first) node with the given id. -/
def insertBeforeR : RGraph → Nat → RNode → RGraph
  | [], _, n => [n]
  | m :: rest, r, n =>
    if m.id == r then n :: m :: rest else m :: insertBeforeR rest r n

/-- `graph.erase_node`: drop the node with the given id (the pass only erases
nodes whose uses were just rewired away). -/
def eraseNodeR (g : RGraph) (nid : Nat) : RGraph :=
  g.filter (fun n => n.id != nid)

/-- `dst.update(src)` on metadata dictionaries. -/
def updateMeta (dst src : List (String × MVal)) : List (String × MVal) :=
  src.foldl (fun d p => setKeyAssoc d p.1 p.2) dst

/-- Rewrite the node with the given id. -/
def mapNodeR (g : RGraph) (nid : Nat) (f : RNode → RNode) : RGraph :=
  g.map (fun n => if n.id == nid then f n else n)

/-- Pass state of the seed fusion fold: current graph plus next fresh node
id (modelling fx's allocation of fresh node objects). -/
structure FuseState where
  graph : RGraph
  fresh : Nat
deriving DecidableEq, Repr

/-- The abstract value given to a batched-seed node:
`torch.empty([len(seeds)], device=device, dtype=torch.int64)`. -/
def seedVal (len : Nat) (device : RArg) : MVal :=
  .fake ⟨.int64, [len], device⟩

/-- Body of the inner loop of `fuse_seed_creation_pass`: insert a
lookup-seed node before the original seed, rewire the seed's uses to it,
copy the seed's metadata onto it, and erase the seed. -/
def processSeed (cid : Nat) (st : FuseState) (p : Nat × RNode) : FuseState :=
  let lid := st.fresh
  let lookup : RNode := ⟨lid, .callFunction, .lookupSeed, [.node cid, .lit p.1], []⟩
  let g1 := insertBeforeR st.graph p.2.id lookup
  let g2 := replaceAllUsesR g1 p.2.id lid
  let g3 := mapNodeR g2 lid (fun n => ⟨n.id, n.op, n.target, n.args, updateMeta n.meta p.2.meta⟩)
  let g4 := eraseNodeR g3 p.2.id
  ⟨g4, lid + 1⟩

/-- Index-value pairs of a list, starting at `n` (Python `enumerate`). -/
def enumFromR {α : Type} (n : Nat) : List α → List (Nat × α)
  | [] => []
  | x :: xs => (n, x) :: enumFromR (n + 1) xs

/-- Body of the outer loop of `fuse_seed_creation_pass`: insert one
batched-seed node before the group's first seed node (with its 1-D int64
abstract value), then process every seed of the group in order. -/
def processGroup (st : FuseState) (grp : RArg × List RNode) : FuseState :=
  match grp.2 with
  | [] => st
  | s0 :: _ =>
    let cid := st.fresh
    let combined : RNode :=
      ⟨cid, .callFunction, .seeds, [.lit grp.2.length, grp.1],
        [("val", seedVal grp.2.length grp.1)]⟩
    let g1 := insertBeforeR st.graph s0.id combined
    (enumFromR 0 grp.2).foldl (processSeed cid) ⟨g1, cid + 1⟩

/-- First id strictly greater than every node id of the graph. -/
def freshIdR (g : RGraph) : Nat :=
  (g.map (fun n => n.id)).foldr max 0 + 1

/-- `fuse_seed_creation_pass` from the source. -/
def fuse_seed_creation_pass (g : RGraph) : RGraph :=
  ((collectSeedGroups g).foldl processGroup ⟨g, freshIdR g⟩).graph

/-! ## `replace_random_passes` driver -/

/-- Externally observable calls made by `replace_random_passes`. -/
inductive RREvent
  | lazyInitEv
  | applyEv
  | fuseEv
deriving DecidableEq, Repr

/-- The configuration surface read by the driver. -/
structure RRConfig where
  fallback_random : Bool
deriving DecidableEq, Repr

/-- `replace_random_passes` from the source: bail out returning 0 when
`config.fallback_random` is set; otherwise register patterns lazily, apply
them (the pattern matcher is an external collaborator passed as a function
returning the replacement count and the mutated graph), and run seed fusion
only when the count is non-zero.  The event list records which collaborators
were invoked, in order. -/
def replace_random_passes (cfg : RRConfig) (applyPatterns : RGraph → Nat × RGraph)
    (g : RGraph) : Nat × RGraph × List RREvent :=
  if cfg.fallback_random then (0, g, [])
  else
    let r := applyPatterns g
    if r.1 ≠ 0 then
      (r.1, fuse_seed_creation_pass r.2, [.lazyInitEv, .applyEv, .fuseEv])
    else (r.1, r.2, [.lazyInitEv, .applyEv])

end RRand

namespace PySpec

/-! ## Association list and dedup lemmas -/

theorem lookup_setKeyAssoc {κ β : Type} [DecidableEq κ] [BEq κ] [LawfulBEq κ]
    (l : List (κ × β)) (k : κ) (v : β) (k' : κ) :
    (setKeyAssoc l k v).lookup k' = if k' = k then some v else l.lookup k' := by
  induction l with
  | nil =>
    cases hbk : (k' == k)
    · have hne : ¬ k' = k := fun h => by subst h; simp at hbk
      simp [setKeyAssoc, List.lookup, hbk, hne]
    · have hk : k' = k := eq_of_beq hbk
      simp [setKeyAssoc, List.lookup, hbk, hk]
  | cons p rest ih =>
    obtain ⟨a, b⟩ := p
    by_cases hak : a = k
    · subst hak
      cases hbk : (k' == a)
      · have hne : ¬ k' = a := fun h => by subst h; simp at hbk
        simp [setKeyAssoc, List.lookup, hbk, hne]
      · have hk : k' = a := eq_of_beq hbk
        simp [setKeyAssoc, List.lookup, hbk, hk]
    · cases hbk : (k' == a)
      · simp [setKeyAssoc, hak, List.lookup, hbk, ih]
      · have hk : k' = a := eq_of_beq hbk
        subst hk
        simp [setKeyAssoc, hak, List.lookup, hbk, Ne.symm hak]

theorem setKeyAssoc_idem {κ β : Type} [DecidableEq κ]
    (l : List (κ × β)) (k : κ) (v : β) :
    setKeyAssoc (setKeyAssoc l k v) k v = setKeyAssoc l k v := by
  induction l with
  | nil => simp [setKeyAssoc]
  | cons p rest ih =>
    obtain ⟨a, b⟩ := p
    by_cases hak : a = k
    · subst hak
      simp [setKeyAssoc]
    · simp [setKeyAssoc, hak, ih]

theorem mem_dedupSeen {α : Type} [DecidableEq α] (a : α) :
    ∀ (l seen : List α), a ∈ dedupSeen seen l ↔ a ∈ l ∧ a ∉ seen := by
  intro l
  induction l with
  | nil => intro seen; simp [dedupSeen]
  | cons x xs ih =>
    intro seen
    rw [dedupSeen]
    by_cases hx : x ∈ seen
    · rw [if_pos hx, ih]
      by_cases hax : a = x
      · subst hax; simp [hx]
      · simp [hax]
    · rw [if_neg hx]
      by_cases hax : a = x
      · subst hax; simp [hx]
      · simp [hax, ih]

theorem mem_dedupFirst {α : Type} [DecidableEq α] (l : List α) (a : α) :
    a ∈ dedupFirst l ↔ a ∈ l := by
  rw [dedupFirst, mem_dedupSeen]
  simp

/-! ## C8: `replace_random_passes` bypass and fusion gating -/

/-- Claim C8: with `fallback_random` set, `replace_random_passes` returns 0,
leaves the graph unchanged, and invokes no collaborator (no registration, no
pattern application, no seed fusion); and the seed fusion pass runs exactly
when the flag is unset and the pattern application count is non-zero. -/
theorem claim_C8 :
    (∀ (ap : RRand.RGraph → Nat × RRand.RGraph) (g : RRand.RGraph),
      RRand.replace_random_passes ⟨true⟩ ap g = (0, g, [])) ∧
    (∀ (cfg : RRand.RRConfig) (ap : RRand.RGraph → Nat × RRand.RGraph)
        (g : RRand.RGraph),
      RRand.RREvent.fuseEv ∈ (RRand.replace_random_passes cfg ap g).2.2 ↔
        cfg.fallback_random = false ∧ (ap g).1 ≠ 0) := by
  constructor
  · intro ap g
    rfl
  · intro cfg ap g
    obtain ⟨fb⟩ := cfg
    cases fb
    · by_cases h : (ap g).1 ≠ 0 <;>
        simp [RRand.replace_random_passes, h]
    · simp [RRand.replace_random_passes]

/-! ## C6: `find_compatible_op_overload` -/

/-- Claim C6: the post-rewrite overload re-resolution succeeds iff the host
dispatch recorded exactly one concrete overload while invoking the overload
packet on the rewritten arguments, and then returns that overload; zero or
several recorded overloads are a fatal error. -/
theorem claim_C6 (H : Host) (t : OpT) (args : List RVal)
    (kwargs : List (String × RVal)) :
    (∀ o, find_compatible_op_overload H t args kwargs = .ok o ↔
      H.dispatch t.packet args kwargs = [o]) ∧
    ((H.dispatch t.packet args kwargs).length ≠ 1 →
      find_compatible_op_overload H t args kwargs = .error .overloadResolution) := by
  constructor
  · intro o
    unfold find_compatible_op_overload
    rcases hd : H.dispatch t.packet args kwargs with _ | ⟨a, _ | ⟨b, l⟩⟩ <;> simp
  · intro hlen
    unfold find_compatible_op_overload
    rcases hd : H.dispatch t.packet args kwargs with _ | ⟨a, _ | ⟨b, l⟩⟩ <;>
      first
        | rfl
        | (exfalso; apply hlen; rw [hd]; rfl)

/-- Witness for C6 at a concrete host whose dispatcher records two
overloads. -/
theorem claim_C6_witness :
    find_compatible_op_overload
      ⟨fun _ _ _ => .noneV, fun _ _ _ => [⟨"aten.add", "Tensor"⟩, ⟨"aten.add", "Scalar"⟩]⟩
      ⟨"aten.add", "Tensor"⟩ [] [] = .error .overloadResolution :=
  (claim_C6 ⟨fun _ _ _ => .noneV,
      fun _ _ _ => [⟨"aten.add", "Tensor"⟩, ⟨"aten.add", "Scalar"⟩]⟩
    ⟨"aten.add", "Tensor"⟩ [] []).2 (by decide)

end PySpec

namespace PySpec

/-! ## C5: rule table construction -/

/-- The last rule of a list whose key matches (later additions overwrite
earlier ones). -/
def lastWith : List TypePromotionRule → String → Option TypePromotionRule
  | [], _ => none
  | r :: rest, k =>
    match lastWith rest k with
    | some r' => some r'
    | none => if ruleKey r = k then some r else none

theorem lastWith_mem (l : List TypePromotionRule) (k : String)
    (r : TypePromotionRule) (h : lastWith l k = some r) :
    r ∈ l ∧ ruleKey r = k := by
  induction l with
  | nil => simp [lastWith] at h
  | cons x rest ih =>
    rw [lastWith] at h
    cases hrest : lastWith rest k with
    | some r' =>
      rw [hrest] at h
      obtain rfl : r' = r := by injection h
      obtain ⟨hm, hk⟩ := ih hrest
      exact ⟨List.mem_cons_of_mem _ hm, hk⟩
    | none =>
      rw [hrest] at h
      by_cases hxk : ruleKey x = k
      · rw [if_pos hxk] at h
        obtain rfl : x = r := by injection h
        exact ⟨List.mem_cons_self _ _, hxk⟩
      · rw [if_neg hxk] at h
        cases h

theorem lastWith_isSome_of_mem (l : List TypePromotionRule) (r : TypePromotionRule)
    (hm : r ∈ l) : (lastWith l (ruleKey r)).isSome = true := by
  induction l with
  | nil => cases hm
  | cons x rest ih =>
    rw [lastWith]
    cases hrest : lastWith rest (ruleKey r) with
    | some r' => simp
    | none =>
      rcases List.mem_cons.mp hm with rfl | hm'
      · simp
      · have := ih hm'
        rw [hrest] at this
        simp at this

theorem lastWith_append (l1 l2 : List TypePromotionRule) (k : String) :
    lastWith (l1 ++ l2) k =
      match lastWith l2 k with
      | some r' => some r'
      | none => lastWith l1 k := by
  induction l1 with
  | nil =>
    cases h : lastWith l2 k <;> simp [lastWith, h]
  | cons x rest ih =>
    rw [List.cons_append, lastWith, ih, lastWith]
    cases h : lastWith l2 k <;> cases h2 : lastWith rest k <;> simp

theorem foldlM_add_rule_lookup (reg : OpRegistry) :
    ∀ (rules : List TypePromotionRule) (tbl0 tbl : List (String × TypePromotionRule)),
      List.foldlM (add_rule reg) tbl0 rules = .ok tbl →
      ∀ k, tbl.lookup k =
        match lastWith rules k with
        | some r => some r
        | none => tbl0.lookup k := by
  intro rules
  induction rules with
  | nil =>
    intro tbl0 tbl h k
    simp only [List.foldlM_nil] at h
    obtain rfl : tbl0 = tbl := by injection h
    simp [lastWith]
  | cons r rest ih =>
    intro tbl0 tbl h k
    rw [List.foldlM_cons] at h
    unfold add_rule at h
    by_cases hv : is_valid reg r = true
    · rw [if_pos hv] at h
      have h2 : List.foldlM (add_rule reg) (setKeyAssoc tbl0 (ruleKey r) r) rest =
          .ok tbl := h
      have := ih (setKeyAssoc tbl0 (ruleKey r) r) tbl h2 k
      rw [this, lastWith]
      cases hrest : lastWith rest k with
      | some r' => simp
      | none =>
        simp only
        rw [lookup_setKeyAssoc]
        by_cases hk : ruleKey r = k
        · subst hk
          simp
        · rw [if_neg hk, if_neg (fun hh => hk hh.symm)]
    · rw [if_neg hv] at h
      have h2 : (Except.error PErr.invalidRule :
          Except PErr (List (String × TypePromotionRule))) = .ok tbl := h
      cases h2

/-- Claim C5: `add_rule` rejects exactly the rules whose operator does not
resolve to an overload packet, otherwise inserts keyed by
`namespace.op_name` with overwrite semantics; and because the table
constructor folds the generated rule set before the extra rule set, an extra
rule always wins for its key. -/
theorem claim_C5 :
    (∀ (reg : OpRegistry) (tbl : List (String × TypePromotionRule))
        (r : TypePromotionRule),
      is_valid reg r = false → add_rule reg tbl r = .error .invalidRule) ∧
    (∀ (reg : OpRegistry) (tbl : List (String × TypePromotionRule))
        (r : TypePromotionRule),
      is_valid reg r = true →
        add_rule reg tbl r = .ok (setKeyAssoc tbl (ruleKey r) r) ∧
        ∀ k, (setKeyAssoc tbl (ruleKey r) r).lookup k =
          if k = ruleKey r then some r else tbl.lookup k) ∧
    (∀ (reg : OpRegistry) (generated extra : List TypePromotionRule)
        (tbl : List (String × TypePromotionRule)) (r : TypePromotionRule),
      buildTypePromotionTable reg generated extra = .ok tbl →
      r ∈ extra →
      (∀ r' ∈ extra, ruleKey r' = ruleKey r → r' = r) →
      get_rule tbl (ruleKey r) = some r) := by
  refine ⟨?_, ?_, ?_⟩
  · intro reg tbl r hv
    unfold add_rule
    rw [hv]
    rfl
  · intro reg tbl r hv
    refine ⟨?_, ?_⟩
    · unfold add_rule
      rw [if_pos hv]
    · intro k
      exact lookup_setKeyAssoc tbl (ruleKey r) r k
  · intro reg generated extra tbl r hbuild hmem huniq
    unfold buildTypePromotionTable at hbuild
    have hchar := foldlM_add_rule_lookup reg (generated ++ extra) [] tbl hbuild
      (ruleKey r)
    have hlast : lastWith extra (ruleKey r) = some r := by
      cases hl : lastWith extra (ruleKey r) with
      | some r'' =>
        obtain ⟨hm'', hk''⟩ := lastWith_mem extra (ruleKey r) r'' hl
        rw [huniq r'' hm'' hk'']
      | none =>
        have := lastWith_isSome_of_mem extra r hmem
        rw [hl] at this
        simp at this
    rw [lastWith_append, hlast] at hchar
    unfold get_rule
    rw [hchar]

/-- A registry resolving every op, and two rules sharing a key, for the C5
witness. -/
def wReg : OpRegistry := fun _ _ => .packet

/-- Generated-set rule for the C5 witness. -/
def wRuleG : TypePromotionRule := ⟨"aten", "add", [0, 1], [], .default⟩

/-- Extra-set rule with the same key for the C5 witness. -/
def wRuleE : TypePromotionRule := ⟨"aten", "add", [0, 1], [], .intToFloat⟩

/-- Witness for C5: building the table from one generated rule and one extra
rule with the same key retrieves the extra rule. -/
theorem claim_C5_witness :
    buildTypePromotionTable wReg [wRuleG] [wRuleE] = .ok [("aten.add", wRuleE)] ∧
    get_rule [("aten.add", wRuleE)] (ruleKey wRuleE) = some wRuleE := by
  refine ⟨by rfl, ?_⟩
  exact claim_C5.2.2 wReg [wRuleG] [wRuleE] [("aten.add", wRuleE)] wRuleE (by rfl)
    (by simp) (fun r' h _ => by simpa using h)

/-! ## C3: `preview_type_promotion` -/

theorem isNoneV_false_iff (v : RVal) : isNoneV v = false ↔ v ≠ .noneV := by
  cases v <;> simp [isNoneV]

theorem mem_candidateArgIdxs (r : TypePromotionRule) (args : List RVal) (i : Nat) :
    i ∈ candidateArgIdxs r args ↔
      i ∈ r.promote_args_positions ∧ i < args.length ∧
        args.getD i .noneV ≠ .noneV := by
  unfold candidateArgIdxs
  rw [List.mem_filter, mem_dedupFirst]
  rw [Bool.and_eq_true, decide_eq_true_iff, Bool.not_eq_true', isNoneV_false_iff]

theorem mem_candidateKwargNames (r : TypePromotionRule)
    (kwargs : List (String × RVal)) (nm : String) :
    nm ∈ candidateKwargNames r kwargs ↔
      nm ∈ r.promote_kwargs_names ∧
        ∃ v, kwargs.lookup nm = some v ∧ v ≠ .noneV := by
  unfold candidateKwargNames
  rw [List.mem_filter, mem_dedupFirst]
  cases hl : kwargs.lookup nm with
  | none => simp
  | some v =>
    rw [Bool.not_eq_true', isNoneV_false_iff]
    simp

/-- Claim C3: the promotion snapshot considers exactly the rule's
participating positions that are in range with non-`None` values and the
participating kwarg names present with non-`None` values; every surviving
entry is mapped to the one shared computation dtype, while `out_dtype` is
the (possibly different) result dtype. -/
theorem claim_C3 :
    (∀ (r : TypePromotionRule) (args : List RVal) (kwargs : List (String × RVal))
        (snap : TypePromotionSnapshot),
      preview_type_promotion r args kwargs = some snap →
      ∃ c, elementwise_dtypes (candidateLeaves r args kwargs) r.promotion_kind =
            some (c, snap.out_dtype) ∧
        (∀ i dt, (i, dt) ∈ snap.args_dtypes ↔
          (i ∈ r.promote_args_positions ∧ i < args.length ∧
            args.getD i .noneV ≠ .noneV ∧ dt = c)) ∧
        (∀ nm dt, (nm, dt) ∈ snap.kwargs_dtypes ↔
          (nm ∈ r.promote_kwargs_names ∧
            (∃ v, kwargs.lookup nm = some v ∧ v ≠ .noneV) ∧ dt = c))) ∧
    (∃ (r : TypePromotionRule) (args : List RVal) (snap : TypePromotionSnapshot),
      preview_type_promotion r args [] = some snap ∧
      (0, Dtype.int64) ∈ snap.args_dtypes ∧ snap.out_dtype = Dtype.bool ∧
      Dtype.int64 ≠ Dtype.bool) := by
  constructor
  · intro r args kwargs snap h
    simp only [preview_type_promotion] at h
    cases he : elementwise_dtypes (candidateLeaves r args kwargs) r.promotion_kind with
    | none => rw [he] at h; cases h
    | some p =>
      obtain ⟨c, res⟩ := p
      rw [he] at h
      simp only [Option.some.injEq] at h
      subst h
      refine ⟨c, by simp, ?_, ?_⟩
      · intro i dt
        simp only [List.mem_map, Prod.mk.injEq]
        constructor
        · rintro ⟨j, hj, rfl, rfl⟩
          have := (mem_candidateArgIdxs r args j).mp hj
          exact ⟨this.1, this.2.1, this.2.2, rfl⟩
        · rintro ⟨h1, h2, h3, rfl⟩
          exact ⟨i, (mem_candidateArgIdxs r args i).mpr ⟨h1, h2, h3⟩, rfl, rfl⟩
      · intro nm dt
        simp only [List.mem_map, Prod.mk.injEq]
        constructor
        · rintro ⟨nm', hnm', rfl, rfl⟩
          have := (mem_candidateKwargNames r kwargs nm').mp hnm'
          exact ⟨this.1, this.2, rfl⟩
        · rintro ⟨h1, h2, rfl⟩
          exact ⟨nm, (mem_candidateKwargNames r kwargs nm).mpr ⟨h1, h2⟩, rfl, rfl⟩
  · refine ⟨⟨"aten", "lt", [0, 1], [], .alwaysBool⟩, [.tensor .int64],
      ⟨[(0, .int64)], [], .bool⟩, by rfl, by simp, rfl, by decide⟩

/-- Witness for C3 at a concrete rule and argument list (an int64 tensor and
a skipped `None` operand under an `ALWAYS_BOOL` rule). -/
theorem claim_C3_witness :
    ∃ c, elementwise_dtypes
        (candidateLeaves ⟨"aten", "lt", [0, 1], [], .alwaysBool⟩
          [.tensor .int64, .noneV] []) PromotionKind.alwaysBool =
          some (c, TypePromotionSnapshot.out_dtype ⟨[(0, .int64)], [], .bool⟩) ∧
      (∀ i dt, (i, dt) ∈ TypePromotionSnapshot.args_dtypes ⟨[(0, .int64)], [], .bool⟩ ↔
        (i ∈ [0, 1] ∧ i < 2 ∧
          List.getD [RVal.tensor .int64, RVal.noneV] i .noneV ≠ .noneV ∧ dt = c)) ∧
      (∀ nm dt, (nm, dt) ∈ TypePromotionSnapshot.kwargs_dtypes ⟨[(0, .int64)], [], .bool⟩ ↔
        (nm ∈ ([] : List String) ∧
          (∃ v, List.lookup nm ([] : List (String × RVal)) = some v ∧ v ≠ .noneV) ∧
          dt = c)) :=
  claim_C3.1 ⟨"aten", "lt", [0, 1], [], .alwaysBool⟩ [.tensor .int64, .noneV] []
    ⟨[(0, .int64)], [], .bool⟩ (by rfl)

end PySpec

namespace PySpec

/-! ## C9: `_fetch_fake_args` -/

/-- The entry `_fetch_fake_args` produces for one placeholder: the fake
tensor when recoverable, the explicit `None` marker otherwise. -/
def phVal : Option RVal → Option RVal
  | some (.tensor d) => some (.tensor d)
  | _ => none

theorem fetchGo_ok (g : List PNode) :
    ∀ sub : List PNode,
      (∀ n ∈ sub, n.op = "placeholder" →
        recoverableVal n.meta_val = true ∨ (usersOf g n.id).length = 0) →
      fetchFakeArgsGo g sub =
        .ok ((sub.filter (fun n => n.op == "placeholder")).map
          (fun n => phVal n.meta_val)) := by
  intro sub
  induction sub with
  | nil => intro _; rfl
  | cons n rest ih =>
    intro h
    have hrest := ih (fun m hm => h m (List.mem_cons_of_mem _ hm))
    by_cases hop : n.op = "placeholder"
    · have hbeq : (n.op == "placeholder") = true := beq_iff_eq.mpr hop
      rw [fetchFakeArgsGo, if_pos hop, List.filter_cons, if_pos hbeq, List.map_cons]
      cases hv : n.meta_val with
      | some v =>
        cases v with
        | tensor d => rw [hrest]; simp [phVal]
        | scalar k =>
          have := h n (List.mem_cons_self _ _) hop
          rw [hv] at this
          simp only [recoverableVal] at this
          rcases this with h' | h'
          · cases h'
          · rw [if_pos h', hrest]; simp [phVal]
        | dtypeV d =>
          have := h n (List.mem_cons_self _ _) hop
          rw [hv] at this
          simp only [recoverableVal] at this
          rcases this with h' | h'
          · cases h'
          · rw [if_pos h', hrest]; simp [phVal]
        | symV =>
          have := h n (List.mem_cons_self _ _) hop
          rw [hv] at this
          simp only [recoverableVal] at this
          rcases this with h' | h'
          · cases h'
          · rw [if_pos h', hrest]; simp [phVal]
        | seqT xs =>
          have := h n (List.mem_cons_self _ _) hop
          rw [hv] at this
          simp only [recoverableVal] at this
          rcases this with h' | h'
          · cases h'
          · rw [if_pos h', hrest]; simp [phVal]
        | noneV =>
          have := h n (List.mem_cons_self _ _) hop
          rw [hv] at this
          simp only [recoverableVal] at this
          rcases this with h' | h'
          · cases h'
          · rw [if_pos h', hrest]; simp [phVal]
      | none =>
        have := h n (List.mem_cons_self _ _) hop
        rw [hv] at this
        simp only [recoverableVal] at this
        rcases this with h' | h'
        · cases h'
        · rw [if_pos h', hrest]; simp [phVal]
    · have hbeq : (n.op == "placeholder") = false := by
        simp [hop]
      rw [fetchFakeArgsGo, if_neg hop, List.filter_cons, if_neg (by simp [hbeq])]
      exact hrest

theorem fetchGo_err (g : List PNode) :
    ∀ sub : List PNode,
      (∃ n ∈ sub, n.op = "placeholder" ∧ recoverableVal n.meta_val = false ∧
        (usersOf g n.id).length ≠ 0) →
      fetchFakeArgsGo g sub = .error .missingFakeArgs := by
  intro sub
  induction sub with
  | nil => rintro ⟨n, hn, _⟩; cases hn
  | cons n rest ih =>
    rintro ⟨m, hm, hop, hrec, husers⟩
    rcases List.mem_cons.mp hm with rfl | hm'
    · rw [fetchFakeArgsGo, if_pos hop]
      cases hv : m.meta_val with
      | some v =>
        cases v with
        | tensor d => rw [hv] at hrec; simp [recoverableVal] at hrec
        | scalar k => rw [if_neg husers]
        | dtypeV d => rw [if_neg husers]
        | symV => rw [if_neg husers]
        | seqT xs => rw [if_neg husers]
        | noneV => rw [if_neg husers]
      | none => rw [if_neg husers]
    · have hrest := ih ⟨m, hm', hop, hrec, husers⟩
      by_cases hop2 : n.op = "placeholder"
      · rw [fetchFakeArgsGo, if_pos hop2]
        cases hv : n.meta_val with
        | some v =>
          cases v with
          | tensor d => rw [hrest]
          | scalar k => by_cases hu : (usersOf g n.id).length = 0
                        · rw [if_pos hu, hrest]
                        · rw [if_neg hu]
          | dtypeV d => by_cases hu : (usersOf g n.id).length = 0
                        · rw [if_pos hu, hrest]
                        · rw [if_neg hu]
          | symV => by_cases hu : (usersOf g n.id).length = 0
                    · rw [if_pos hu, hrest]
                    · rw [if_neg hu]
          | seqT xs => by_cases hu : (usersOf g n.id).length = 0
                       · rw [if_pos hu, hrest]
                       · rw [if_neg hu]
          | noneV => by_cases hu : (usersOf g n.id).length = 0
                     · rw [if_pos hu, hrest]
                     · rw [if_neg hu]
        | none => by_cases hu : (usersOf g n.id).length = 0
                  · rw [if_pos hu, hrest]
                  · rw [if_neg hu]
      · rw [fetchFakeArgsGo, if_neg hop2]
        exact hrest

/-- Claim C9: collecting the placeholder abstract values tolerates an
unrecoverable placeholder exactly when it has no users (substituting the
`None` marker) and fails fatally when a used placeholder's value cannot be
recovered; recoverable placeholders pass through in graph order. -/
theorem claim_C9 (g : List PNode) :
    ((∀ n ∈ g, n.op = "placeholder" →
        recoverableVal n.meta_val = true ∨ (usersOf g n.id).length = 0) →
      _fetch_fake_args g =
        .ok ((g.filter (fun n => n.op == "placeholder")).map
          (fun n => phVal n.meta_val))) ∧
    ((∃ n ∈ g, n.op = "placeholder" ∧ recoverableVal n.meta_val = false ∧
        (usersOf g n.id).length ≠ 0) →
      _fetch_fake_args g = .error .missingFakeArgs) :=
  ⟨fun h => fetchGo_ok g g h, fun h => fetchGo_err g g h⟩

/-- Concrete three-node graph for the C9 witness: a used recoverable
placeholder, an unused unrecoverable placeholder, and a consumer node. -/
def wC9Graph : List PNode :=
  [⟨0, "placeholder", ⟨"", ""⟩, [], [], some (.tensor .float32)⟩,
   ⟨1, "placeholder", ⟨"", ""⟩, [], [], none⟩,
   ⟨2, "call_function", ⟨"aten.relu", "default"⟩, [.node 0], [], some (.tensor .float32)⟩]

/-- Witness for C9: the recoverable placeholder passes through and the
unused unrecoverable one becomes the `None` marker. -/
theorem claim_C9_witness :
    _fetch_fake_args wC9Graph = .ok [some (.tensor .float32), none] :=
  (claim_C9 wC9Graph).1 (by decide)

end PySpec

namespace PySpec

/-! ## C4: `_explicit_type_promote_arg` -/

theorem promoteArgList_length (H : Host) (nid : Nat) :
    ∀ (xs : List PArg) (st0 st2 : PState) (dt : Dtype) (ys : List PArg),
      promoteArgList H nid st0 xs dt = .ok (st2, ys) → ys.length = xs.length := by
  intro xs
  induction xs with
  | nil =>
    intro st0 st2 dt ys h
    rw [promoteArgList] at h
    simp only [Except.ok.injEq, Prod.mk.injEq] at h
    rw [← h.2]
  | cons x rest ih =>
    intro st0 st2 dt ys h
    rw [promoteArgList] at h
    cases h1 : _explicit_type_promote_arg H nid st0 x (some dt) with
    | error e =>
      rw [h1] at h
      have h' : (Except.error e : Except PErr (PState × List PArg)) =
          .ok (st2, ys) := h
      cases h'
    | ok r =>
      rw [h1] at h
      have h' : (match promoteArgList H nid r.1 rest dt with
          | .error e => (.error e : Except PErr (PState × List PArg))
          | .ok r' => .ok (r'.1, r.2 :: r'.2)) = .ok (st2, ys) := h
      cases h2 : promoteArgList H nid r.1 rest dt with
      | error e =>
        rw [h2] at h'
        have h'' : (Except.error e : Except PErr (PState × List PArg)) =
            .ok (st2, ys) := h'
        cases h''
      | ok r' =>
        rw [h2] at h'
        simp only [Except.ok.injEq, Prod.mk.injEq] at h'
        rw [← h'.2, List.length_cons, ih r.1 r'.1 dt r'.2 h2, List.length_cons]

/-- Claim C4: operand promotion behaviour per operand shape — non-assigned
operands pass through unchanged; node operands at a different abstract dtype
get a conversion node inserted before the current node with the reference
redirected to it; scalar literals at a different natural dtype get a
scalar-to-tensor construction node of the target dtype; tuples and lists
recurse element-wise preserving the container kind (and element count); and
already-matching operands are returned unchanged. -/
theorem claim_C4 (H : Host) (nid : Nat) (st : PState) :
    (∀ a, _explicit_type_promote_arg H nid st a none = .ok (st, a)) ∧
    (∀ m dt d0, fakeTensorDtype st.graph m = .ok d0 →
      (d0 ≠ dt →
        _explicit_type_promote_arg H nid st (.node m) (some dt) =
          .ok ((_create_node H st (.before nid) convertOp [.node m]
            [("dtype", .dtypeLit dt)]).1, .node st.fresh)) ∧
      (d0 = dt →
        _explicit_type_promote_arg H nid st (.node m) (some dt) =
          .ok (st, .node m))) ∧
    (∀ k v dt,
      (scalarEquivDtype k ≠ dt →
        _explicit_type_promote_arg H nid st (.scalar k v) (some dt) =
          .ok ((_create_node H st (.before nid) (tensorCtorOp k) [.scalar k v]
            [("dtype", .dtypeLit dt)]).1, .node st.fresh)) ∧
      (scalarEquivDtype k = dt →
        _explicit_type_promote_arg H nid st (.scalar k v) (some dt) =
          .ok (st, .scalar k v))) ∧
    (∀ t args kwargs,
      ((_create_node H st (.before nid) t args kwargs).1).graph =
        insertBeforeP st.graph nid
          ⟨st.fresh, "call_function", t, args, kwargs,
            some (H.evalOp t (argValList st args) (kwargVals st kwargs))⟩ ∧
      (_create_node H st (.before nid) t args kwargs).2 = st.fresh) ∧
    (∀ xs dt,
      _explicit_type_promote_arg H nid st (.tup xs) (some dt) =
        (match promoteArgList H nid st xs dt with
         | .ok r => .ok (r.1, .tup r.2)
         | .error e => .error e) ∧
      _explicit_type_promote_arg H nid st (.lst xs) (some dt) =
        (match promoteArgList H nid st xs dt with
         | .ok r => .ok (r.1, .lst r.2)
         | .error e => .error e)) ∧
    (∀ (xs : List PArg) (st0 st2 : PState) (dt : Dtype) (ys : List PArg),
      promoteArgList H nid st0 xs dt = .ok (st2, ys) →
        ys.length = xs.length) := by
  refine ⟨?_, ?_, ?_, ?_, ?_, ?_⟩
  · intro a
    cases a <;> rfl
  · intro m dt d0 h
    constructor
    · intro hne
      rw [_explicit_type_promote_arg, h]
      simp only [if_pos hne]
      rfl
    · intro heq
      subst heq
      rw [_explicit_type_promote_arg, h]
      simp
  · intro k v dt
    constructor
    · intro hne
      rw [_explicit_type_promote_arg]
      simp only [if_pos hne]
      rfl
    · intro heq
      rw [_explicit_type_promote_arg]
      simp [heq]
  · intro t args kwargs
    exact ⟨rfl, rfl⟩
  · intro xs dt
    exact ⟨rfl, rfl⟩
  · exact promoteArgList_length H nid

/-- Concrete host and state for the C4 witness. -/
def wC4Host : Host := ⟨fun _ _ _ => .tensor .float32, fun _ _ _ => []⟩

/-- Concrete state for the C4 witness: one int32 placeholder. -/
def wC4St : PState :=
  ⟨[⟨0, "placeholder", ⟨"", ""⟩, [], [], some (.tensor .int32)⟩],
    [(0, .tensor .int32)], 1⟩

/-- Witness for C4: promoting an int32 node operand towards float32 inserts
a conversion node and redirects the operand to it. -/
theorem claim_C4_witness :
    _explicit_type_promote_arg wC4Host 0 wC4St (.node 0) (some .float32) =
      .ok ((_create_node wC4Host wC4St (.before 0) convertOp [.node 0]
        [("dtype", .dtypeLit .float32)]).1, .node wC4St.fresh) :=
  ((claim_C4 wC4Host 0 wC4St).2.1 0 .float32 .int32 (by rfl)).1 (by decide)

end PySpec

namespace PySpec

/-! ## Structural lemmas for the rerun step (C1, C10) -/

theorem findNode_decomp (g : List PNode) (nid : Nat) (node : PNode)
    (h : findNode g nid = some node) :
    node.id = nid ∧ ∃ A B, g = A ++ node :: B ∧ ∀ m ∈ A, m.id ≠ nid := by
  induction g with
  | nil => cases h
  | cons x rest ih =>
    rw [findNode, List.find?] at h
    cases hx : (x.id == nid) with
    | true =>
      rw [hx] at h
      obtain rfl : x = node := by injection h
      exact ⟨eq_of_beq hx, [], rest, rfl, by intro m hm; cases hm⟩
    | false =>
      rw [hx] at h
      obtain ⟨hid, A, B, hg, hA⟩ := ih h
      refine ⟨hid, x :: A, B, by rw [hg]; rfl, ?_⟩
      intro m hm
      rcases List.mem_cons.mp hm with rfl | hm'
      · intro hc; rw [hc] at hx; simp at hx
      · exact hA m hm'

theorem insertAfterP_decomp (A B : List PNode) (x n : PNode) (r : Nat)
    (hA : ∀ m ∈ A, m.id ≠ r) (hx : x.id = r) :
    insertAfterP (A ++ x :: B) r n = A ++ x :: n :: B := by
  induction A with
  | nil =>
    rw [List.nil_append, insertAfterP]
    have : (x.id == r) = true := beq_iff_eq.mpr hx
    rw [this]
    rfl
  | cons a A' ih =>
    rw [List.cons_append, insertAfterP]
    have : (a.id == r) = false := by
      have := hA a (List.mem_cons_self _ _)
      simp [this]
    rw [this, ih (fun m hm => hA m (List.mem_cons_of_mem _ hm))]
    rfl

theorem insertBeforeP_decomp (A B : List PNode) (x n : PNode) (r : Nat)
    (hA : ∀ m ∈ A, m.id ≠ r) (hx : x.id = r) :
    insertBeforeP (A ++ x :: B) r n = A ++ n :: x :: B := by
  induction A with
  | nil =>
    rw [List.nil_append, insertBeforeP]
    have : (x.id == r) = true := beq_iff_eq.mpr hx
    rw [this]
    rfl
  | cons a A' ih =>
    rw [List.cons_append, insertBeforeP]
    have : (a.id == r) = false := by
      have := hA a (List.mem_cons_self _ _)
      simp [this]
    rw [this, ih (fun m hm => hA m (List.mem_cons_of_mem _ hm))]
    rfl

/-- The per-node rewrite performed by `replace_all_uses_with`. -/
def substNodeC (old new : Nat) (n : PNode) : PNode :=
  ⟨n.id, n.op, n.target, replaceRefList old new n.args,
    n.kwargs.map (fun p => (p.1, replaceRef old new p.2)), n.meta_val⟩

theorem replace_all_uses_eq_map (g : List PNode) (old new : Nat) :
    replace_all_uses_with g old new = g.map (substNodeC old new) := rfl

mutual

theorem argRefs_replaceRef (old new : Nat) (hne : new ≠ old) :
    ∀ a : PArg, argRefs old (replaceRef old new a) = false
  | .node m => by
    rw [replaceRef]
    cases hm : (m == old) with
    | true => simp [argRefs, hne]
    | false => simp [argRefs, hm]
  | .scalar k v => rfl
  | .dtypeLit d => rfl
  | .noneA => rfl
  | .tup xs => by
    rw [replaceRef, argRefs]
    exact argRefsList_replaceRefList old new hne xs
  | .lst xs => by
    rw [replaceRef, argRefs]
    exact argRefsList_replaceRefList old new hne xs

theorem argRefsList_replaceRefList (old new : Nat) (hne : new ≠ old) :
    ∀ xs : List PArg, argRefsList old (replaceRefList old new xs) = false
  | [] => rfl
  | x :: xs => by
    rw [replaceRefList, argRefsList, argRefs_replaceRef old new hne x,
      argRefsList_replaceRefList old new hne xs]
    rfl

end

theorem nodeUses_substNodeC (old new : Nat) (hne : new ≠ old) (n : PNode) :
    nodeUses (substNodeC old new n) old = false := by
  rw [substNodeC, nodeUses]
  simp only
  rw [argRefsList_replaceRefList old new hne]
  simp only [Bool.false_or, List.any_map]
  rw [List.any_eq_false]
  intro p _
  simp only [Function.comp]
  rw [argRefs_replaceRef old new hne p.2]
  exact Bool.false_ne_true

theorem mapNodeP_skip (g : List PNode) (nid : Nat) (f : PNode → PNode)
    (h : ∀ m ∈ g, m.id ≠ nid) : mapNodeP g nid f = g := by
  rw [mapNodeP]
  have : ∀ m ∈ g, (fun n => if (n.id == nid) = true then f n else n) m = id m := by
    intro m hm
    have hb : (m.id == nid) = false := by simp [h m hm]
    simp [hb]
  rw [List.map_congr_left this, List.map_id]

end PySpec


namespace PySpec

theorem substNodeC_id (old new : Nat) (n : PNode) :
    (substNodeC old new n).id = n.id := rfl

theorem mapNodeP_decomp (A B : List PNode) (x : PNode) (nid : Nat)
    (f : PNode → PNode) (hA : ∀ m ∈ A, m.id ≠ nid) (hx : x.id = nid) :
    mapNodeP (A ++ x :: B) nid f = A ++ f x :: mapNodeP B nid f := by
  rw [mapNodeP, List.map_append, List.map_cons]
  have hskip := mapNodeP_skip A nid f hA
  rw [mapNodeP] at hskip
  rw [hskip]
  have hxb : (x.id == nid) = true := beq_iff_eq.mpr hx
  rw [hxb]
  rfl

theorem mapNodeP_mem_id (g : List PNode) (nid : Nat) (f : PNode → PNode)
    (hf : ∀ n, (f n).id = n.id) (m : PNode) (hm : m ∈ mapNodeP g nid f) :
    ∃ x ∈ g, m.id = x.id := by
  rw [mapNodeP] at hm
  obtain ⟨x, hx, hxm⟩ := List.mem_map.mp hm
  refine ⟨x, hx, ?_⟩
  by_cases hb : ((x.id == nid) = true)
  · rw [if_pos hb] at hxm
    rw [← hxm, hf]
  · rw [if_neg hb] at hxm
    rw [← hxm]

/-- After `replace_all_uses_with old new` followed by resetting the args of
the node with id `new`, every node other than that one has no use of
`old` left. -/
theorem users_after_redirect (G1 : List PNode) (old new : Nat) (hne : new ≠ old)
    (newArgs : List PArg) :
    ∀ m ∈ setArgsOnly (replace_all_uses_with G1 old new) new newArgs,
      m.id ≠ new → nodeUses m old = false := by
  intro m hm hmne
  rw [setArgsOnly, mapNodeP] at hm
  obtain ⟨y, hy, rfl⟩ := List.mem_map.mp hm
  rw [replace_all_uses_eq_map] at hy
  obtain ⟨x, hx, rfl⟩ := List.mem_map.mp hy
  by_cases hb : (((substNodeC old new x).id == new) = true)
  · exfalso
    apply hmne
    rw [if_pos hb]
    exact eq_of_beq hb
  · rw [if_neg hb]
    exact nodeUses_substNodeC old new hne x

theorem rerun_cast_result (H : Host) (st : PState) (nid : Nat) (node : PNode)
    (expected newD : Dtype) (t' : OpT)
    (hfresh : ∀ m ∈ st.graph, m.id < st.fresh)
    (hfind : findNode st.graph nid = some node)
    (hmeta : node.meta_val = some (.tensor expected))
    (hdisp : H.dispatch node.target.packet (argValList st node.args)
      (kwargVals st node.kwargs) = [t'])
    (heval : H.evalOp t' (argValList st node.args) (kwargVals st node.kwargs) =
      .tensor newD)
    (hnew : newD ≠ expected) :
    ∃ st' A3 B3 nd3 castVal,
      _rerun_node_after_explicit_type_promotion H st nid expected = .ok st' ∧
      (∀ m ∈ A3, m.id ≠ nid) ∧
      (∀ m ∈ A3, m.id ≠ st.fresh) ∧
      nd3.id = nid ∧
      st'.graph = A3 ++ nd3 ::
        (⟨st.fresh, "call_function", convertOp, [.node nid],
          [("dtype", .dtypeLit expected)], some castVal⟩ : PNode) :: B3 ∧
      (∀ m ∈ st'.graph, m.id ≠ st.fresh → nodeUses m nid = false) ∧
      (∀ m ∈ st'.graph, nodeUses m nid = true → m.id = st.fresh) ∧
      st'.fresh = st.fresh + 1 := by
  obtain ⟨hid, A, B, hg, hA⟩ := findNode_decomp st.graph nid node hfind
  have hnodemem : node ∈ st.graph := by
    rw [hg]; exact List.mem_append_right A (List.mem_cons_self _ _)
  have hnidlt : nid < st.fresh := hid ▸ hfresh node hnodemem
  have hcidne : st.fresh ≠ nid := Nat.ne_of_gt hnidlt
  have hrun : _rerun_node_after_explicit_type_promotion H st nid expected =
      .ok ⟨setArgsOnly
            (replace_all_uses_with
              (insertAfterP (setValEnv (setTarget st nid t') nid (.tensor newD)).graph
                nid
                ⟨st.fresh, "call_function", convertOp, [.node nid],
                  [("dtype", .dtypeLit expected)],
                  some (H.evalOp convertOp
                    (argValList (setValEnv (setTarget st nid t') nid (.tensor newD))
                      [.node nid])
                    (kwargVals (setValEnv (setTarget st nid t') nid (.tensor newD))
                      [("dtype", .dtypeLit expected)]))⟩)
              nid st.fresh)
            st.fresh [.node nid],
          setKeyAssoc (setValEnv (setTarget st nid t') nid (.tensor newD)).env
            st.fresh
            (H.evalOp convertOp
              (argValList (setValEnv (setTarget st nid t') nid (.tensor newD))
                [.node nid])
              (kwargVals (setValEnv (setTarget st nid t') nid (.tensor newD))
                [("dtype", .dtypeLit expected)])),
          st.fresh + 1⟩ := by
    simp only [_rerun_node_after_explicit_type_promotion, hfind, hmeta,
      find_compatible_op_overload, hdisp, heval]
    simp [sameHead, hnew, _create_node, insertAtP]
    exact ⟨rfl, rfl, rfl⟩
  have hgV : (setValEnv (setTarget st nid t') nid (.tensor newD)).graph =
      A ++ (⟨node.id, node.op, t', node.args, node.kwargs,
          some (.tensor newD)⟩ : PNode) ::
        mapNodeP (mapNodeP B nid (fun n => ⟨n.id, n.op, t', n.args, n.kwargs, n.meta_val⟩))
          nid (fun n => ⟨n.id, n.op, n.target, n.args, n.kwargs, some (.tensor newD)⟩) := by
    have hgT : (setTarget st nid t').graph =
        A ++ (⟨node.id, node.op, t', node.args, node.kwargs, node.meta_val⟩ : PNode) ::
          mapNodeP B nid (fun n => ⟨n.id, n.op, t', n.args, n.kwargs, n.meta_val⟩) := by
      rw [setTarget]
      simp only [hg]
      exact mapNodeP_decomp A B node nid _ hA hid
    rw [setValEnv]
    simp only [hgT]
    exact mapNodeP_decomp A _ _ nid _ hA hid
  refine ⟨_, A.map (substNodeC nid st.fresh),
    (mapNodeP (mapNodeP B nid (fun n => ⟨n.id, n.op, t', n.args, n.kwargs, n.meta_val⟩))
      nid (fun n => ⟨n.id, n.op, n.target, n.args, n.kwargs,
        some (.tensor newD)⟩)).map (substNodeC nid st.fresh),
    substNodeC nid st.fresh
      ⟨node.id, node.op, t', node.args, node.kwargs, some (.tensor newD)⟩,
    H.evalOp convertOp
      (argValList (setValEnv (setTarget st nid t') nid (.tensor newD)) [.node nid])
      (kwargVals (setValEnv (setTarget st nid t') nid (.tensor newD))
        [("dtype", .dtypeLit expected)]),
    hrun, ?_, ?_, hid, ?_, ?_, ?_, rfl⟩
  · intro m hm
    obtain ⟨x, hx, rfl⟩ := List.mem_map.mp hm
    rw [substNodeC_id]
    exact hA x hx
  · intro m hm
    obtain ⟨x, hx, rfl⟩ := List.mem_map.mp hm
    rw [substNodeC_id]
    have hxg : x ∈ st.graph := by rw [hg]; exact List.mem_append_left _ hx
    exact Nat.ne_of_lt (hfresh x hxg)
  · dsimp only
    rw [hgV]
    rw [insertAfterP_decomp A _
      ⟨node.id, node.op, t', node.args, node.kwargs, some (.tensor newD)⟩ _ nid hA hid]
    rw [replace_all_uses_eq_map]
    rw [List.map_append, List.map_cons, List.map_cons]
    rw [setArgsOnly]
    have hAid : ∀ m ∈ (A.map (substNodeC nid st.fresh)) ++
        [substNodeC nid st.fresh
          ⟨node.id, node.op, t', node.args, node.kwargs, some (.tensor newD)⟩],
        m.id ≠ st.fresh := by
      intro m hm
      rcases List.mem_append.mp hm with hm' | hm'
      · obtain ⟨x, hx, rfl⟩ := List.mem_map.mp hm'
        rw [substNodeC_id]
        have : x ∈ st.graph := by rw [hg]; exact List.mem_append_left _ hx
        exact Nat.ne_of_lt (hfresh x this)
      · rcases List.mem_cons.mp hm' with rfl | hm''
        · rw [substNodeC_id]
          simp only
          rw [hid]
          exact Nat.ne_of_lt hnidlt
        · cases hm''
    have hdec := mapNodeP_decomp
      (A.map (substNodeC nid st.fresh) ++
        [substNodeC nid st.fresh
          ⟨node.id, node.op, t', node.args, node.kwargs, some (.tensor newD)⟩])
      ((mapNodeP (mapNodeP B nid (fun n => ⟨n.id, n.op, t', n.args, n.kwargs, n.meta_val⟩))
          nid (fun n => ⟨n.id, n.op, n.target, n.args, n.kwargs,
            some (.tensor newD)⟩)).map (substNodeC nid st.fresh))
      (substNodeC nid st.fresh
        ⟨st.fresh, "call_function", convertOp, [.node nid],
          [("dtype", .dtypeLit expected)],
          some (H.evalOp convertOp
            (argValList (setValEnv (setTarget st nid t') nid (.tensor newD))
              [.node nid])
            (kwargVals (setValEnv (setTarget st nid t') nid (.tensor newD))
              [("dtype", .dtypeLit expected)]))⟩)
      st.fresh
      (fun n => ⟨n.id, n.op, n.target, [.node nid], n.kwargs, n.meta_val⟩)
      hAid rfl
    rw [List.append_assoc] at hdec
    simp only [List.cons_append, List.nil_append] at hdec
    rw [hdec]
    simp only [List.append_assoc, List.cons_append, List.nil_append]
    simp [substNodeC, replaceRef, replaceRefList]
    apply mapNodeP_skip
    intro m hm
    obtain ⟨x, hx, rfl⟩ := List.mem_map.mp hm
    rw [substNodeC_id]
    obtain ⟨x1, hx1, hidx⟩ := mapNodeP_mem_id _ nid
      (fun n => ⟨n.id, n.op, n.target, n.args, n.kwargs, some (.tensor newD)⟩)
      (fun n => rfl) x hx
    obtain ⟨x2, hx2, hidx2⟩ := mapNodeP_mem_id B nid
      (fun n => ⟨n.id, n.op, t', n.args, n.kwargs, n.meta_val⟩)
      (fun n => rfl) x1 hx1
    rw [hidx, hidx2]
    have hx2g : x2 ∈ st.graph := by
      rw [hg]; exact List.mem_append_right _ (List.mem_cons_of_mem _ hx2)
    exact Nat.ne_of_lt (hfresh x2 hx2g)
  · intro m hm hmne
    exact users_after_redirect _ nid st.fresh hcidne [.node nid] m hm hmne
  · intro m hm huses
    by_contra hmne
    have := users_after_redirect _ nid st.fresh hcidne [.node nid] m hm hmne
    rw [this] at huses
    cases huses

end PySpec

namespace PySpec

theorem rerun_nocast (H : Host) (st : PState) (nid : Nat) (node : PNode)
    (expected : Dtype) (t' : OpT)
    (hfind : findNode st.graph nid = some node)
    (hmeta : node.meta_val = some (.tensor expected))
    (hdisp : H.dispatch node.target.packet (argValList st node.args)
      (kwargVals st node.kwargs) = [t'])
    (heval : H.evalOp t' (argValList st node.args) (kwargVals st node.kwargs) =
      .tensor expected) :
    _rerun_node_after_explicit_type_promotion H st nid expected =
      .ok (setValEnv (setTarget st nid t') nid (.tensor expected)) := by
  simp only [_rerun_node_after_explicit_type_promotion, hfind, hmeta,
    find_compatible_op_overload, hdisp, heval]
  simp [sameHead]

theorem rerun_prev_mismatch (H : Host) (st : PState) (nid : Nat) (node : PNode)
    (expected prevD : Dtype) (t' : OpT)
    (hfind : findNode st.graph nid = some node)
    (hmeta : node.meta_val = some (.tensor prevD))
    (hdisp : H.dispatch node.target.packet (argValList st node.args)
      (kwargVals st node.kwargs) = [t'])
    (hsame : sameHead (H.evalOp t' (argValList st node.args)
      (kwargVals st node.kwargs)) (.tensor prevD) = true)
    (hne : prevD ≠ expected) :
    _rerun_node_after_explicit_type_promotion H st nid expected =
      .error .ruleMismatch := by
  simp only [_rerun_node_after_explicit_type_promotion, hfind, hmeta,
    find_compatible_op_overload, hdisp, hsame]
  simp [hne]

theorem findNode_append (A B : List PNode) (x : PNode) (r : Nat)
    (hA : ∀ m ∈ A, m.id ≠ r) (hx : x.id = r) :
    findNode (A ++ x :: B) r = some x := by
  induction A with
  | nil =>
    rw [List.nil_append, findNode, List.find?]
    rw [beq_iff_eq.mpr hx]
  | cons a A' ih =>
    rw [List.cons_append, findNode, List.find?]
    have : (a.id == r) = false := by simp [hA a (List.mem_cons_self _ _)]
    rw [this]
    exact ih (fun m hm => hA m (List.mem_cons_of_mem _ hm))

end PySpec

namespace PySpec

/-! ## C1 (corrected) and C10: the rerun step -/

/-- Claim C1 (amended): for a rewritten node whose pre-rewrite result is a
tensor, the fatal consistency check compares the node's previously recorded
(pre-rewrite) output dtype against the rule's predicted output dtype — not
the freshly computed one; when the freshly computed post-rewrite dtype
differs from the rule's declared output dtype, an output-narrowing cast node
of exactly the declared output dtype is inserted immediately after the node
and all downstream uses of the original node are redirected to it. -/
theorem claim_C1 (H : Host) (st : PState) (nid : Nat) (node : PNode)
    (expected prevD : Dtype) (t' : OpT)
    (hfresh : ∀ m ∈ st.graph, m.id < st.fresh)
    (hfind : findNode st.graph nid = some node)
    (hmeta : node.meta_val = some (.tensor prevD))
    (hdisp : H.dispatch node.target.packet (argValList st node.args)
      (kwargVals st node.kwargs) = [t']) :
    (prevD ≠ expected →
      sameHead (H.evalOp t' (argValList st node.args) (kwargVals st node.kwargs))
        (.tensor prevD) = true →
      _rerun_node_after_explicit_type_promotion H st nid expected =
        .error .ruleMismatch) ∧
    (∀ newD, H.evalOp t' (argValList st node.args) (kwargVals st node.kwargs) =
        .tensor newD → prevD = expected →
      (newD = expected →
        _rerun_node_after_explicit_type_promotion H st nid expected =
          .ok (setValEnv (setTarget st nid t') nid (.tensor newD))) ∧
      (newD ≠ expected →
        ∃ st' pre post ndA castVal,
          _rerun_node_after_explicit_type_promotion H st nid expected = .ok st' ∧
          st'.graph = pre ++ ndA ::
            (⟨st.fresh, "call_function", convertOp, [.node nid],
              [("dtype", .dtypeLit expected)], some castVal⟩ : PNode) :: post ∧
          ndA.id = nid ∧
          (∀ m ∈ st'.graph, m.id ≠ st.fresh → nodeUses m nid = false))) := by
  constructor
  · intro hne hsame
    exact rerun_prev_mismatch H st nid node expected prevD t' hfind hmeta hdisp
      hsame hne
  · intro newD heval hprev
    constructor
    · intro hsameD
      rw [hprev] at hmeta
      rw [hsameD] at heval ⊢
      exact rerun_nocast H st nid node expected t' hfind hmeta hdisp heval
    · intro hne
      rw [hprev] at hmeta
      obtain ⟨st', A3, B3, nd3, cv, hr, hA3, _, hnd3, hshape, husers, _, _⟩ :=
        rerun_cast_result H st nid node expected newD t' hfresh hfind hmeta hdisp
          heval hne
      exact ⟨st', A3, B3, nd3, cv, hr, hshape, hnd3, husers⟩

/-- Concrete host for the C1 counterexample: re-running the node computes an
int64 tensor. -/
def cexHost : Host :=
  ⟨fun _ _ _ => .tensor .int64, fun _ _ _ => [⟨"aten.add", "Tensor"⟩]⟩

/-- Concrete node for the C1 counterexample: its recorded pre-rewrite value
is a bool tensor (matching the rule's declared output dtype). -/
def cexNode : PNode :=
  ⟨0, "call_function", ⟨"aten.add", "Tensor"⟩, [], [], some (.tensor .bool)⟩

/-- Concrete state for the C1 counterexample. -/
def cexSt : PState := ⟨[cexNode], [], 1⟩

/-- Is the modelled pass step successful (no raised exception)? -/
def exceptOk : Except PErr PState → Bool
  | .ok _ => true
  | .error _ => false

/-- Node count of the resulting graph of a successful pass step. -/
def resultGraphLen : Except PErr PState → Nat
  | .ok st => st.graph.length
  | .error _ => 0

/-- Counterexample to C1 as stated: at this input the freshly computed
output dtype (int64) differs from the rule's predicted output dtype (bool),
yet the rerun does not fail — it succeeds and inserts a cast node (the graph
grows from one node to two). -/
theorem claim_C1_counterexample :
    cexHost.evalOp ⟨"aten.add", "Tensor"⟩ (argValList cexSt cexNode.args)
        (kwargVals cexSt cexNode.kwargs) = .tensor .int64 ∧
    Dtype.int64 ≠ Dtype.bool ∧
    cexNode.meta_val = some (.tensor .bool) ∧
    exceptOk (_rerun_node_after_explicit_type_promotion cexHost cexSt 0 .bool) =
      true ∧
    resultGraphLen (_rerun_node_after_explicit_type_promotion cexHost cexSt 0 .bool) =
      2 :=
  ⟨rfl, by decide, rfl, rfl, rfl⟩

/-- Witness for C1 (amended) at a concrete input: the no-cast branch when
the freshly computed dtype agrees with the declared output dtype. -/
theorem claim_C1_witness :
    _rerun_node_after_explicit_type_promotion
      ⟨fun _ _ _ => .tensor .bool, fun _ _ _ => [⟨"aten.mul", "Tensor"⟩]⟩
      ⟨[⟨0, "call_function", ⟨"aten.mul", "Tensor"⟩, [], [], some (.tensor .bool)⟩], [], 1⟩
      0 .bool =
      .ok (setValEnv (setTarget
        ⟨[⟨0, "call_function", ⟨"aten.mul", "Tensor"⟩, [], [], some (.tensor .bool)⟩], [], 1⟩
        0 ⟨"aten.mul", "Tensor"⟩) 0 (.tensor .bool)) :=
  ((claim_C1
      ⟨fun _ _ _ => .tensor .bool, fun _ _ _ => [⟨"aten.mul", "Tensor"⟩]⟩
      ⟨[⟨0, "call_function", ⟨"aten.mul", "Tensor"⟩, [], [], some (.tensor .bool)⟩], [], 1⟩
      0 ⟨0, "call_function", ⟨"aten.mul", "Tensor"⟩, [], [], some (.tensor .bool)⟩
      .bool .bool ⟨"aten.mul", "Tensor"⟩
      (by intro m hm; simp at hm; subst hm; decide) rfl rfl rfl).2
    .bool rfl rfl).1 rfl

/-- Claim C10 (implicit): when the output-narrowing cast is inserted, the
rewrite first redirects every use of the original node to the cast node and
then restores the cast node's argument tuple to exactly the original node —
so the cast node never consumes itself and the original node's only
remaining user is the cast node. -/
theorem claim_C10 (H : Host) (st : PState) (nid : Nat) (node : PNode)
    (expected newD : Dtype) (t' : OpT)
    (hfresh : ∀ m ∈ st.graph, m.id < st.fresh)
    (hfind : findNode st.graph nid = some node)
    (hmeta : node.meta_val = some (.tensor expected))
    (hdisp : H.dispatch node.target.packet (argValList st node.args)
      (kwargVals st node.kwargs) = [t'])
    (heval : H.evalOp t' (argValList st node.args) (kwargVals st node.kwargs) =
      .tensor newD)
    (hnew : newD ≠ expected) :
    ∃ st' cast,
      _rerun_node_after_explicit_type_promotion H st nid expected = .ok st' ∧
      findNode st'.graph st.fresh = some cast ∧
      cast.args = [.node nid] ∧
      nodeUses cast cast.id = false ∧
      nodeUses cast nid = true ∧
      ∀ m ∈ st'.graph, nodeUses m nid = true → m.id = st.fresh := by
  obtain ⟨st', A3, B3, nd3, cv, hr, hA3nid, hA3f, hnd3, hshape, _, husers, _⟩ :=
    rerun_cast_result H st nid node expected newD t' hfresh hfind hmeta hdisp
      heval hnew
  obtain ⟨hid, A, B, hg, hA⟩ := findNode_decomp st.graph nid node hfind
  have hnidlt : nid < st.fresh :=
    hid ▸ hfresh node (by rw [hg]; exact List.mem_append_right A (List.mem_cons_self _ _))
  have hnidne : (nid == st.fresh) = false := by
    simp [Nat.ne_of_lt hnidlt]
  refine ⟨st', ⟨st.fresh, "call_function", convertOp, [.node nid],
    [("dtype", .dtypeLit expected)], some cv⟩, hr, ?_, rfl, ?_, ?_, husers⟩
  · rw [hshape]
    have hApre : ∀ m ∈ A3 ++ [nd3], m.id ≠ st.fresh := by
      intro m hm
      rcases List.mem_append.mp hm with hm' | hm'
      · exact hA3f m hm'
      · rcases List.mem_cons.mp hm' with rfl | hm''
        · rw [hnd3]; exact Nat.ne_of_lt hnidlt
        · cases hm''
    have := findNode_append (A3 ++ [nd3]) B3
      ⟨st.fresh, "call_function", convertOp, [.node nid],
        [("dtype", .dtypeLit expected)], some cv⟩ st.fresh hApre rfl
    rw [List.append_assoc] at this
    simp only [List.cons_append, List.nil_append] at this
    exact this
  · simp [nodeUses, argRefsList, argRefs, hnidne]
  · simp [nodeUses, argRefsList, argRefs]

/-- Witness for C10 at a concrete input: an op-math node whose fresh dtype is
int64 while the declared output dtype is bool. -/
theorem claim_C10_witness :
    ∃ st' cast,
      _rerun_node_after_explicit_type_promotion
        ⟨fun _ _ _ => .tensor .int64, fun _ _ _ => [⟨"aten.lt", "Scalar"⟩]⟩
        ⟨[⟨0, "call_function", ⟨"aten.lt", "Tensor"⟩, [], [], some (.tensor .bool)⟩], [], 1⟩
        0 .bool = .ok st' ∧
      findNode st'.graph 1 = some cast ∧
      cast.args = [.node 0] ∧
      nodeUses cast cast.id = false ∧
      nodeUses cast 0 = true ∧
      ∀ m ∈ st'.graph, nodeUses m 0 = true → m.id = 1 :=
  claim_C10
    ⟨fun _ _ _ => .tensor .int64, fun _ _ _ => [⟨"aten.lt", "Scalar"⟩]⟩
    ⟨[⟨0, "call_function", ⟨"aten.lt", "Tensor"⟩, [], [], some (.tensor .bool)⟩], [], 1⟩
    0 ⟨0, "call_function", ⟨"aten.lt", "Tensor"⟩, [], [], some (.tensor .bool)⟩
    .bool .int64 ⟨"aten.lt", "Scalar"⟩
    (by intro m hm; simp at hm; subst hm; decide) rfl rfl rfl rfl (by decide)

end PySpec

namespace PySpec

/-! ## C7: homogeneous DEFAULT promotion inserts nothing and is idempotent -/

mutual

/-- Is the operand already entirely at dtype `d` (graph operands by their
recorded fake-tensor dtype, scalars by their natural dtype, containers
element-wise)? -/
def argAtDtype (st : PState) (d : Dtype) : PArg → Bool
  | .node m =>
    match fakeTensorDtype st.graph m with
    | .ok d0 => d0 == d
    | .error _ => false
  | .scalar k _ => scalarEquivDtype k == d
  | .dtypeLit _ => false
  | .noneA => false
  | .tup xs => argAtDtypeList st d xs
  | .lst xs => argAtDtypeList st d xs

/-- `argAtDtype` over a list of operands. -/
def argAtDtypeList (st : PState) (d : Dtype) : List PArg → Bool
  | [] => true
  | x :: xs => argAtDtype st d x && argAtDtypeList st d xs

end

mutual

theorem promoteArg_id (H : Host) (nid : Nat) (st : PState) (d : Dtype) :
    ∀ a : PArg, argAtDtype st d a = true →
      _explicit_type_promote_arg H nid st a (some d) = .ok (st, a)
  | .node m, h => by
    rw [argAtDtype] at h
    cases hf : fakeTensorDtype st.graph m with
    | error e =>
      rw [hf] at h
      exact absurd h (by simp)
    | ok d0 =>
      rw [hf] at h
      have hd : (d0 == d) = true := h
      rw [_explicit_type_promote_arg, hf]
      simp [eq_of_beq hd]
  | .scalar k v, h => by
    rw [argAtDtype] at h
    rw [_explicit_type_promote_arg]
    simp [eq_of_beq h]
  | .dtypeLit d0, h => by
    rw [argAtDtype] at h
    cases h
  | .noneA, h => by
    rw [argAtDtype] at h
    cases h
  | .tup xs, h => by
    rw [argAtDtype] at h
    rw [_explicit_type_promote_arg, promoteArgList_id H nid st d xs h]
  | .lst xs, h => by
    rw [argAtDtype] at h
    rw [_explicit_type_promote_arg, promoteArgList_id H nid st d xs h]

theorem promoteArgList_id (H : Host) (nid : Nat) (st : PState) (d : Dtype) :
    ∀ xs : List PArg, argAtDtypeList st d xs = true →
      promoteArgList H nid st xs d = .ok (st, xs)
  | [], _ => rfl
  | x :: xs, h => by
    rw [argAtDtypeList, Bool.and_eq_true] at h
    simp only [promoteArgList, promoteArg_id H nid st d x h.1,
      promoteArgList_id H nid st d xs h.2]

end

theorem promoteIndexed_id (H : Host) (nid : Nat) (st : PState) :
    ∀ (args : List PArg) (snap : List (Nat × Dtype)) (i : Nat),
      (∀ j, j < args.length →
        (∀ dt, snap.lookup (i + j) = some dt →
          argAtDtype st dt (args.getD j .noneA) = true)) →
      promoteIndexed H nid st args snap i = .ok (st, args) := by
  intro args
  induction args with
  | nil => intro snap i _; rfl
  | cons a rest ih =>
    intro snap i h
    have h0 := h 0 (Nat.succ_pos _)
    rw [Nat.add_zero] at h0
    have hrest := ih snap (i + 1) (fun j hj dt' hdt => by
      have heq : i + 1 + j = i + (j + 1) := by omega
      rw [heq] at hdt
      have := h (j + 1) (Nat.succ_lt_succ hj) dt' hdt
      simpa using this)
    cases hl : snap.lookup i with
    | none =>
      simp only [promoteIndexed, hl, _explicit_type_promote_arg, hrest]
    | some dt =>
      have ha := h0 dt hl
      simp only [List.getD_cons_zero] at ha
      simp only [promoteIndexed, hl, promoteArg_id H nid st dt a ha, hrest]

theorem promoteKwargs_id (H : Host) (nid : Nat) (st : PState) :
    ∀ (kwargs : List (String × PArg)) (snap : List (String × Dtype)),
      (∀ p ∈ kwargs, ∀ dt, snap.lookup p.1 = some dt →
        argAtDtype st dt p.2 = true) →
      promoteKwargs H nid st kwargs snap = .ok (st, kwargs) := by
  intro kwargs
  induction kwargs with
  | nil => intro snap _; rfl
  | cons p rest ih =>
    intro snap h
    obtain ⟨nm, a⟩ := p
    have hrest := ih snap (fun q hq dt hdt => h q (List.mem_cons_of_mem _ hq) dt hdt)
    cases hl : snap.lookup nm with
    | none =>
      simp only [promoteKwargs, hl, _explicit_type_promote_arg, hrest]
    | some dt =>
      have ha := h (nm, a) (List.mem_cons_self _ _) dt hl
      simp only [promoteKwargs, hl, promoteArg_id H nid st dt a ha, hrest]

theorem joinDtype_self (d : Dtype) : joinDtype d d = d := by
  simp [joinDtype]

theorem joinAll_replicate (d : Dtype) : ∀ k, joinAll d (List.replicate k d) = d := by
  intro k
  induction k with
  | zero => rfl
  | succ k ih =>
    rw [List.replicate_succ, joinAll, List.foldl_cons, joinDtype_self]
    exact ih

theorem elementwise_replicate_default (d : Dtype) (m : Nat) (hm : m ≠ 0) :
    elementwise_dtypes (List.replicate m d) .default = some (d, d) := by
  obtain ⟨k, rfl⟩ := Nat.exists_eq_succ_of_ne_zero hm
  rw [List.replicate_succ, elementwise_dtypes]
  rw [joinAll_replicate d k]

theorem lookup_map_const_nat (idxs : List Nat) (c : Dtype) (i : Nat) :
    (idxs.map (fun j => (j, c))).lookup i = if i ∈ idxs then some c else none := by
  induction idxs with
  | nil => simp [List.lookup]
  | cons j rest ih =>
    rw [List.map_cons, List.lookup]
    cases hb : (i == j)
    · have hne : i ≠ j := fun hh => by subst hh; simp at hb
      rw [ih]
      by_cases hmem : i ∈ rest <;> simp [hmem, hne]
    · have : i = j := eq_of_beq hb
      subst this
      simp

theorem lookup_map_const_str (names : List String) (c : Dtype) (nm : String) :
    (names.map (fun j => (j, c))).lookup nm = if nm ∈ names then some c else none := by
  induction names with
  | nil => simp [List.lookup]
  | cons j rest ih =>
    rw [List.map_cons, List.lookup]
    cases hb : (nm == j)
    · have hne : nm ≠ j := fun hh => by subst hh; simp at hb
      rw [ih]
      by_cases hmem : nm ∈ rest <;> simp [hmem, hne]
    · have : nm = j := eq_of_beq hb
      subst this
      simp

end PySpec

namespace PySpec

theorem findNode_mapNodeP_ne (g : List PNode) (nid : Nat) (f : PNode → PNode)
    (hf : ∀ n, (f n).id = n.id) (m : Nat) (hne : m ≠ nid) :
    findNode (mapNodeP g nid f) m = findNode g m := by
  induction g with
  | nil => rfl
  | cons x rest ih =>
    rw [mapNodeP, List.map_cons, findNode, List.find?]
    have hid : (if (x.id == nid) = true then f x else x).id = x.id := by
      by_cases hb : ((x.id == nid) = true)
      · rw [if_pos hb, hf]
      · rw [if_neg hb]
    cases hbm : (x.id == m) with
    | true =>
      have hxm : x.id = m := eq_of_beq hbm
      have hxn : (x.id == nid) = false := by
        simp [hxm, hne]
      rw [if_neg (by simp [hxn])]
      rw [findNode, List.find?, hbm]
    | false =>
      rw [show ((if (x.id == nid) = true then f x else x).id == m) = false by
        rw [hid]; exact hbm]
      rw [findNode, List.find?, hbm] at *
      have := ih
      rw [mapNodeP] at this
      exact this

theorem findNode_mapNodeP_self (g : List PNode) (nid : Nat) (f : PNode → PNode)
    (hf : ∀ n, (f n).id = n.id) :
    findNode (mapNodeP g nid f) nid = (findNode g nid).map f := by
  induction g with
  | nil => rfl
  | cons x rest ih =>
    rw [mapNodeP, List.map_cons, findNode, List.find?]
    cases hb : (x.id == nid) with
    | true =>
      rw [if_pos rfl]
      rw [show ((f x).id == nid) = true by rw [hf]; exact hb]
      rw [findNode, List.find?, hb, Option.map_some']
    | false =>
      rw [if_neg (by simp)]
      rw [hb]
      rw [findNode, List.find?, hb]
      have := ih
      rw [mapNodeP] at this
      exact this

theorem fakeTensorDtype_congr (g1 g2 : List PNode) (m : Nat)
    (h : findNode g1 m = findNode g2 m) :
    fakeTensorDtype g1 m = fakeTensorDtype g2 m := by
  rw [fakeTensorDtype, fakeTensorDtype, h]

theorem unique_by_id (g : List PNode) (nid : Nat) (node : PNode)
    (hfind : findNode g nid = some node) (hnodup : (g.map PNode.id).Nodup) :
    ∀ m ∈ g, m.id = nid → m = node := by
  obtain ⟨hid, A, B, hg, hA⟩ := findNode_decomp g nid node hfind
  intro m hm hmid
  rw [hg] at hm
  rcases List.mem_append.mp hm with hm' | hm'
  · exact absurd hmid (hA m hm')
  · rcases List.mem_cons.mp hm' with rfl | hm''
    · rfl
    · exfalso
      rw [hg, List.map_append, List.map_cons] at hnodup
      have hnodup2 : (node.id :: B.map PNode.id).Nodup :=
        hnodup.sublist (List.sublist_append_right _ _)
      have hnot : node.id ∉ B.map PNode.id := (List.nodup_cons.mp hnodup2).1
      exact hnot (List.mem_map.mpr ⟨m, hm'', hmid.trans hid.symm⟩)

theorem mapNodeP_map_id (g : List PNode) (nid : Nat) (f : PNode → PNode)
    (hf : ∀ n, (f n).id = n.id) :
    (mapNodeP g nid f).map PNode.id = g.map PNode.id := by
  rw [mapNodeP, List.map_map]
  apply List.map_congr_left
  intro m _
  by_cases hb : ((m.id == nid) = true)
  · have hb' : m.id = nid := eq_of_beq hb
    simp [hb', hf]
  · have hb' : ¬ m.id = nid := by simpa using hb
    simp [hb']

theorem mapNodeP_self_of (g : List PNode) (nid : Nat) (node : PNode)
    (f : PNode → PNode)
    (hfind : findNode g nid = some node) (hnodup : (g.map PNode.id).Nodup)
    (hfn : f node = node) :
    mapNodeP g nid f = g := by
  rw [mapNodeP]
  have : ∀ m ∈ g, (fun n => if (n.id == nid) = true then f n else n) m = id m := by
    intro m hm
    show (if (m.id == nid) = true then f m else m) = id m
    by_cases hb : ((m.id == nid) = true)
    · have hmn : m = node := unique_by_id g nid node hfind hnodup m hm (eq_of_beq hb)
      subst hmn
      rw [if_pos hb, hfn]
      rfl
    · rw [if_neg hb]
      rfl
  rw [List.map_congr_left this, List.map_id]

theorem setArgsKwargs_self (st : PState) (nid : Nat) (node : PNode)
    (hfind : findNode st.graph nid = some node)
    (hnodup : (st.graph.map PNode.id).Nodup) :
    setArgsKwargs st nid node.args node.kwargs = st := by
  obtain ⟨g, e, fr⟩ := st
  rw [setArgsKwargs]
  simp only
  rw [mapNodeP_self_of g nid node _ hfind hnodup rfl]

theorem setTarget_self (st : PState) (nid : Nat) (node : PNode)
    (hfind : findNode st.graph nid = some node)
    (hnodup : (st.graph.map PNode.id).Nodup) :
    setTarget st nid node.target = st := by
  obtain ⟨g, e, fr⟩ := st
  rw [setTarget]
  simp only
  rw [mapNodeP_self_of g nid node _ hfind hnodup rfl]

mutual

theorem argVal_congr (st1 st2 : PState) (nid : Nat)
    (henv : ∀ x, x ≠ nid → st1.envVal x = st2.envVal x) :
    ∀ a, argRefs nid a = false → argVal st1 a = argVal st2 a
  | .node m, h => by
    rw [argRefs] at h
    have hm : m ≠ nid := fun hh => by subst hh; simp at h
    rw [argVal, argVal]
    exact henv m hm
  | .scalar k v, _ => rfl
  | .dtypeLit d, _ => rfl
  | .noneA, _ => rfl
  | .tup xs, h => by
    rw [argRefs] at h
    rw [argVal, argVal, argValList_congr st1 st2 nid henv xs h]
  | .lst xs, h => by
    rw [argRefs] at h
    rw [argVal, argVal, argValList_congr st1 st2 nid henv xs h]

theorem argValList_congr (st1 st2 : PState) (nid : Nat)
    (henv : ∀ x, x ≠ nid → st1.envVal x = st2.envVal x) :
    ∀ xs, argRefsList nid xs = false → argValList st1 xs = argValList st2 xs
  | [], _ => rfl
  | x :: xs, h => by
    rw [argRefsList, Bool.or_eq_false_iff] at h
    rw [argValList, argValList, argVal_congr st1 st2 nid henv x h.1,
      argValList_congr st1 st2 nid henv xs h.2]

end

mutual

theorem argAtDtype_congr (st1 st2 : PState) (nid : Nat) (d : Dtype)
    (hgr : ∀ m, m ≠ nid → fakeTensorDtype st1.graph m = fakeTensorDtype st2.graph m) :
    ∀ a, argRefs nid a = false → argAtDtype st1 d a = argAtDtype st2 d a
  | .node m, h => by
    rw [argRefs] at h
    have hm : m ≠ nid := fun hh => by subst hh; simp at h
    rw [argAtDtype, argAtDtype, hgr m hm]
  | .scalar k v, _ => rfl
  | .dtypeLit d0, _ => rfl
  | .noneA, _ => rfl
  | .tup xs, h => by
    rw [argRefs] at h
    rw [argAtDtype, argAtDtype, argAtDtypeList_congr st1 st2 nid d hgr xs h]
  | .lst xs, h => by
    rw [argRefs] at h
    rw [argAtDtype, argAtDtype, argAtDtypeList_congr st1 st2 nid d hgr xs h]

theorem argAtDtypeList_congr (st1 st2 : PState) (nid : Nat) (d : Dtype)
    (hgr : ∀ m, m ≠ nid → fakeTensorDtype st1.graph m = fakeTensorDtype st2.graph m) :
    ∀ xs, argRefsList nid xs = false → argAtDtypeList st1 d xs = argAtDtypeList st2 d xs
  | [], _ => rfl
  | x :: xs, h => by
    rw [argRefsList, Bool.or_eq_false_iff] at h
    rw [argAtDtypeList, argAtDtypeList, argAtDtype_congr st1 st2 nid d hgr x h.1,
      argAtDtypeList_congr st1 st2 nid d hgr xs h.2]

end

theorem argRefsList_false_mem (nid : Nat) :
    ∀ xs : List PArg, argRefsList nid xs = false → ∀ x ∈ xs, argRefs nid x = false := by
  intro xs
  induction xs with
  | nil => intro _ x hx; cases hx
  | cons y ys ih =>
    intro h x hx
    rw [argRefsList, Bool.or_eq_false_iff] at h
    rcases List.mem_cons.mp hx with rfl | hx'
    · exact h.1
    · exact ih h.2 x hx'

theorem argRefs_getD_false (nid : Nat) (xs : List PArg)
    (h : argRefsList nid xs = false) (i : Nat) :
    argRefs nid (xs.getD i .noneA) = false := by
  by_cases hi : i < xs.length
  · have hmem : xs.getD i .noneA ∈ xs := by
      rw [List.getD_eq_getElem xs .noneA hi]
      exact List.getElem_mem _
    exact argRefsList_false_mem nid xs h _ hmem
  · rw [List.getD_eq_default xs .noneA (Nat.le_of_not_lt hi)]
    rfl

end PySpec

namespace PySpec

/-- Claim C7: processing a node with a DEFAULT-kind rule whose participating
operands all already share one dtype inserts no argument-cast node and no
output-cast node — the graph keeps its node count, only the node's overload
target and refreshed metadata change — and applying the per-node promotion a
second time to the resulting state changes nothing. -/
theorem claim_C7 (H : Host) (st : PState) (nid : Nat) (node : PNode)
    (rule : TypePromotionRule) (d : Dtype) (t' : OpT) (m : Nat)
    (hnodup : (st.graph.map PNode.id).Nodup)
    (hfind : findNode st.graph nid = some node)
    (hkind : rule.promotion_kind = .default)
    (hleaves : candidateLeaves rule (argValList st node.args)
      (kwargVals st node.kwargs) = List.replicate m d)
    (hm : m ≠ 0)
    (hargs : ∀ i ∈ candidateArgIdxs rule (argValList st node.args),
      argAtDtype st d (node.args.getD i .noneA) = true)
    (hkw : ∀ p ∈ node.kwargs,
      p.1 ∈ candidateKwargNames rule (kwargVals st node.kwargs) →
      argAtDtype st d p.2 = true)
    (hmeta : node.meta_val = some (.tensor d))
    (hdisp : H.dispatch node.target.packet (argValList st node.args)
      (kwargVals st node.kwargs) = [t'])
    (hpacket : t'.packet = node.target.packet)
    (heval : H.evalOp t' (argValList st node.args) (kwargVals st node.kwargs) =
      .tensor d)
    (hnouse : nodeUses node nid = false) :
    _insert_explicit_type_promotion H st nid rule =
      .ok (setValEnv (setTarget st nid t') nid (.tensor d)) ∧
    (setValEnv (setTarget st nid t') nid (.tensor d)).graph.length =
      st.graph.length ∧
    _insert_explicit_type_promotion H
        (setValEnv (setTarget st nid t') nid (.tensor d)) nid rule =
      .ok (setValEnv (setTarget st nid t') nid (.tensor d)) := by
  have hreA : argRefsList nid node.args = false := by
    rw [nodeUses, Bool.or_eq_false_iff] at hnouse
    exact hnouse.1
  have hreK : ∀ p ∈ node.kwargs, argRefs nid p.2 = false := by
    rw [nodeUses, Bool.or_eq_false_iff] at hnouse
    have h2 := hnouse.2
    rw [List.any_eq_false] at h2
    intro p hp
    have := h2 p hp
    simpa using this
  have hsnap : preview_type_promotion rule (argValList st node.args)
      (kwargVals st node.kwargs) =
      some ⟨(candidateArgIdxs rule (argValList st node.args)).map (fun i => (i, d)),
        (candidateKwargNames rule (kwargVals st node.kwargs)).map (fun nm => (nm, d)),
        d⟩ := by
    simp only [preview_type_promotion, hleaves, hkind,
      elementwise_replicate_default d m hm]
  have hpromA : promoteIndexed H nid st node.args
      ((candidateArgIdxs rule (argValList st node.args)).map (fun i => (i, d))) 0 =
      .ok (st, node.args) := by
    apply promoteIndexed_id
    intro j hj dt hdt
    rw [Nat.zero_add, lookup_map_const_nat] at hdt
    by_cases hmem : j ∈ candidateArgIdxs rule (argValList st node.args)
    · rw [if_pos hmem] at hdt
      obtain rfl : d = dt := by injection hdt
      exact hargs j hmem
    · rw [if_neg hmem] at hdt
      cases hdt
  have hpromK : promoteKwargs H nid st node.kwargs
      ((candidateKwargNames rule (kwargVals st node.kwargs)).map (fun nm => (nm, d))) =
      .ok (st, node.kwargs) := by
    apply promoteKwargs_id
    intro p hp dt hdt
    rw [lookup_map_const_str] at hdt
    by_cases hmem : p.1 ∈ candidateKwargNames rule (kwargVals st node.kwargs)
    · rw [if_pos hmem] at hdt
      obtain rfl : d = dt := by injection hdt
      exact hkw p hp hmem
    · rw [if_neg hmem] at hdt
      cases hdt
  have hset := setArgsKwargs_self st nid node hfind hnodup
  have hrr := rerun_nocast H st nid node d t' hfind hmeta hdisp heval
  have hfirst : _insert_explicit_type_promotion H st nid rule =
      .ok (setValEnv (setTarget st nid t') nid (.tensor d)) := by
    simp only [_insert_explicit_type_promotion, hfind, hsnap, hpromA, hpromK,
      hset, hrr]
  have hfind' : findNode (setValEnv (setTarget st nid t') nid (.tensor d)).graph nid =
      some ⟨node.id, node.op, t', node.args, node.kwargs, some (.tensor d)⟩ := by
    dsimp only [setValEnv, setTarget]
    rw [findNode_mapNodeP_self _ nid
        (fun n => ⟨n.id, n.op, n.target, n.args, n.kwargs, some (.tensor d)⟩)
        (fun n => rfl),
      findNode_mapNodeP_self _ nid
        (fun n => ⟨n.id, n.op, t', n.args, n.kwargs, n.meta_val⟩)
        (fun n => rfl), hfind]
    rfl
  have hids' : (setValEnv (setTarget st nid t') nid (.tensor d)).graph.map PNode.id =
      st.graph.map PNode.id := by
    dsimp only [setValEnv, setTarget]
    rw [mapNodeP_map_id _ _
        (fun n => ⟨n.id, n.op, n.target, n.args, n.kwargs, some (.tensor d)⟩)
        (fun n => rfl),
      mapNodeP_map_id _ _
        (fun n => ⟨n.id, n.op, t', n.args, n.kwargs, n.meta_val⟩)
        (fun n => rfl)]
  have hnodup' : ((setValEnv (setTarget st nid t') nid (.tensor d)).graph.map
      PNode.id).Nodup := by
    rw [hids']
    exact hnodup
  have henv' : ∀ x, x ≠ nid →
      (setValEnv (setTarget st nid t') nid (.tensor d)).envVal x = st.envVal x := by
    intro x hx
    dsimp only [PState.envVal, setValEnv, setTarget]
    rw [lookup_setKeyAssoc, if_neg hx]
  have hgr' : ∀ mm, mm ≠ nid →
      fakeTensorDtype (setValEnv (setTarget st nid t') nid (.tensor d)).graph mm =
        fakeTensorDtype st.graph mm := by
    intro mm hmm
    apply fakeTensorDtype_congr
    dsimp only [setValEnv, setTarget]
    rw [findNode_mapNodeP_ne _ nid
        (fun n => ⟨n.id, n.op, n.target, n.args, n.kwargs, some (.tensor d)⟩)
        (fun n => rfl) mm hmm,
      findNode_mapNodeP_ne _ nid
        (fun n => ⟨n.id, n.op, t', n.args, n.kwargs, n.meta_val⟩)
        (fun n => rfl) mm hmm]
  have hargval : argValList (setValEnv (setTarget st nid t') nid (.tensor d))
      node.args = argValList st node.args :=
    argValList_congr _ st nid henv' node.args hreA
  have hkwval : kwargVals (setValEnv (setTarget st nid t') nid (.tensor d))
      node.kwargs = kwargVals st node.kwargs := by
    rw [kwargVals, kwargVals]
    apply List.map_congr_left
    intro p hp
    rw [argVal_congr _ st nid henv' p.2 (hreK p hp)]
  have hsnap' : preview_type_promotion rule
      (argValList (setValEnv (setTarget st nid t') nid (.tensor d)) node.args)
      (kwargVals (setValEnv (setTarget st nid t') nid (.tensor d)) node.kwargs) =
      some ⟨(candidateArgIdxs rule (argValList st node.args)).map (fun i => (i, d)),
        (candidateKwargNames rule (kwargVals st node.kwargs)).map (fun nm => (nm, d)),
        d⟩ := by
    rw [hargval, hkwval]
    exact hsnap
  have hsnapidx : candidateArgIdxs rule
      (argValList (setValEnv (setTarget st nid t') nid (.tensor d)) node.args) =
      candidateArgIdxs rule (argValList st node.args) := by
    rw [hargval]
  have hsnapnm : candidateKwargNames rule
      (kwargVals (setValEnv (setTarget st nid t') nid (.tensor d)) node.kwargs) =
      candidateKwargNames rule (kwargVals st node.kwargs) := by
    rw [hkwval]
  have hpromA' : promoteIndexed H nid (setValEnv (setTarget st nid t') nid (.tensor d))
      node.args
      ((candidateArgIdxs rule (argValList st node.args)).map (fun i => (i, d))) 0 =
      .ok ((setValEnv (setTarget st nid t') nid (.tensor d)), node.args) := by
    apply promoteIndexed_id
    intro j hj dt hdt
    rw [Nat.zero_add, lookup_map_const_nat] at hdt
    by_cases hmem : j ∈ candidateArgIdxs rule (argValList st node.args)
    · rw [if_pos hmem] at hdt
      obtain rfl : d = dt := by injection hdt
      rw [argAtDtype_congr _ st nid d hgr' _ (argRefs_getD_false nid node.args hreA j)]
      exact hargs j hmem
    · rw [if_neg hmem] at hdt
      cases hdt
  have hpromK' : promoteKwargs H nid (setValEnv (setTarget st nid t') nid (.tensor d))
      node.kwargs
      ((candidateKwargNames rule (kwargVals st node.kwargs)).map (fun nm => (nm, d))) =
      .ok ((setValEnv (setTarget st nid t') nid (.tensor d)), node.kwargs) := by
    apply promoteKwargs_id
    intro p hp dt hdt
    rw [lookup_map_const_str] at hdt
    by_cases hmem : p.1 ∈ candidateKwargNames rule (kwargVals st node.kwargs)
    · rw [if_pos hmem] at hdt
      obtain rfl : d = dt := by injection hdt
      rw [argAtDtype_congr _ st nid d hgr' p.2 (hreK p hp)]
      exact hkw p hp hmem
    · rw [if_neg hmem] at hdt
      cases hdt
  have hset' : setArgsKwargs (setValEnv (setTarget st nid t') nid (.tensor d)) nid
      node.args node.kwargs = setValEnv (setTarget st nid t') nid (.tensor d) :=
    setArgsKwargs_self _ nid
      ⟨node.id, node.op, t', node.args, node.kwargs, some (.tensor d)⟩ hfind' hnodup'
  have hdisp' : H.dispatch t'.packet
      (argValList (setValEnv (setTarget st nid t') nid (.tensor d)) node.args)
      (kwargVals (setValEnv (setTarget st nid t') nid (.tensor d)) node.kwargs) =
      [t'] := by
    rw [hargval, hkwval, hpacket]
    exact hdisp
  have heval' : H.evalOp t'
      (argValList (setValEnv (setTarget st nid t') nid (.tensor d)) node.args)
      (kwargVals (setValEnv (setTarget st nid t') nid (.tensor d)) node.kwargs) =
      .tensor d := by
    rw [hargval, hkwval]
    exact heval
  have hrr' : _rerun_node_after_explicit_type_promotion H
      (setValEnv (setTarget st nid t') nid (.tensor d)) nid d =
      .ok (setValEnv (setTarget (setValEnv (setTarget st nid t') nid (.tensor d))
        nid t') nid (.tensor d)) :=
    rerun_nocast H _ nid
      ⟨node.id, node.op, t', node.args, node.kwargs, some (.tensor d)⟩ d t'
      hfind' rfl hdisp' heval'
  have hfix : setValEnv (setTarget (setValEnv (setTarget st nid t') nid (.tensor d))
      nid t') nid (.tensor d) = setValEnv (setTarget st nid t') nid (.tensor d) := by
    have hT : setTarget (setValEnv (setTarget st nid t') nid (.tensor d)) nid t' =
        setValEnv (setTarget st nid t') nid (.tensor d) :=
      setTarget_self _ nid
        ⟨node.id, node.op, t', node.args, node.kwargs, some (.tensor d)⟩ hfind' hnodup'
    rw [hT]
    have hG : mapNodeP (setValEnv (setTarget st nid t') nid (.tensor d)).graph nid
        (fun n => ⟨n.id, n.op, n.target, n.args, n.kwargs, some (.tensor d)⟩) =
        (setValEnv (setTarget st nid t') nid (.tensor d)).graph :=
      mapNodeP_self_of _ nid
        ⟨node.id, node.op, t', node.args, node.kwargs, some (.tensor d)⟩ _
        hfind' hnodup' rfl
    have hE : setKeyAssoc (setValEnv (setTarget st nid t') nid (.tensor d)).env nid
        (RVal.tensor d) = (setValEnv (setTarget st nid t') nid (.tensor d)).env := by
      dsimp only [setValEnv, setTarget]
      exact setKeyAssoc_idem st.env nid (.tensor d)
    rw [setValEnv, hG, hE]
  have hsecond : _insert_explicit_type_promotion H
      (setValEnv (setTarget st nid t') nid (.tensor d)) nid rule =
      .ok (setValEnv (setTarget st nid t') nid (.tensor d)) := by
    simp only [_insert_explicit_type_promotion, hfind', hsnap', hpromA', hpromK',
      hset', hrr', hfix]
  refine ⟨hfirst, ?_, hsecond⟩
  dsimp only [setValEnv, setTarget, mapNodeP]
  simp [List.length_map]

end PySpec

namespace PySpec

/-- Concrete host for the C7 witness. -/
def wC7Host : Host :=
  ⟨fun _ _ _ => .tensor .float32, fun _ _ _ => [⟨"aten.add", "Tensor"⟩]⟩

/-- Concrete homogeneous-dtype add node for the C7 witness. -/
def wC7Node : PNode :=
  ⟨1, "call_function", ⟨"aten.add", "Tensor"⟩, [.node 0, .node 0], [],
    some (.tensor .float32)⟩

/-- Concrete state for the C7 witness. -/
def wC7St : PState :=
  ⟨[⟨0, "placeholder", ⟨"", ""⟩, [], [], some (.tensor .float32)⟩, wC7Node],
    [(0, .tensor .float32), (1, .tensor .float32)], 2⟩

/-- Concrete DEFAULT rule for the C7 witness. -/
def wC7Rule : TypePromotionRule := ⟨"aten", "add", [0, 1], [], .default⟩

/-- Witness for C7: a float32+float32 add under the DEFAULT rule inserts no
cast and a second application of the per-node promotion is a no-op. -/
theorem claim_C7_witness :
    _insert_explicit_type_promotion wC7Host wC7St 1 wC7Rule =
      .ok (setValEnv (setTarget wC7St 1 ⟨"aten.add", "Tensor"⟩) 1
        (.tensor .float32)) ∧
    (setValEnv (setTarget wC7St 1 ⟨"aten.add", "Tensor"⟩) 1
      (.tensor .float32)).graph.length = wC7St.graph.length ∧
    _insert_explicit_type_promotion wC7Host
        (setValEnv (setTarget wC7St 1 ⟨"aten.add", "Tensor"⟩) 1
          (.tensor .float32)) 1 wC7Rule =
      .ok (setValEnv (setTarget wC7St 1 ⟨"aten.add", "Tensor"⟩) 1
        (.tensor .float32)) :=
  claim_C7 wC7Host wC7St 1 wC7Node wC7Rule .float32 ⟨"aten.add", "Tensor"⟩ 2
    (by decide) rfl rfl rfl (by decide)
    (by intro i hi; fin_cases hi <;> rfl)
    (by intro p hp; cases hp)
    rfl rfl rfl rfl rfl

end PySpec

namespace RRand

open PySpec

/-! ## C2: seed fusion — replacement descriptors and expansion -/

/-- Description of one fused seed: the original seed node id, the assigned
lookup node id, the group's batched-seed node id, the seed's first-seen
position in its device group, whether it is the group's first seed, the
group's device key, the group size, and the original seed's metadata. -/
structure SeedRepl where
  sid : Nat
  lid : Nat
  cid : Nat
  idx : Nat
  isFirst : Bool
  dev : RArg
  gsize : Nat
  smeta : List (String × MVal)
deriving DecidableEq, Repr

/-- The batched-seed node a replacement's group inserts. -/
def combinedNodeOf (r : SeedRepl) : RNode :=
  ⟨r.cid, .callFunction, .seeds, [.lit r.gsize, r.dev],
    [("val", seedVal r.gsize r.dev)]⟩

/-- The lookup node inserted for a replacement. -/
def lookupNodeOf (r : SeedRepl) : RNode :=
  ⟨r.lid, .callFunction, .lookupSeed, [.node r.cid, .lit r.idx],
    updateMeta [] r.smeta⟩

/-- The replacement recorded for an original node id, if any. -/
def findRepl (R : List SeedRepl) (nid : Nat) : Option SeedRepl :=
  R.find? (fun r => r.sid == nid)

/-- Argument substitution induced by a replacement list: references to
original seeds are redirected to their lookup nodes. -/
def substA (R : List SeedRepl) : RArg → RArg
  | .node m =>
    match findRepl R m with
    | some r => .node r.lid
    | none => .node m
  | a => a

/-- Node-level substitution: rewrite all argument references. -/
def substN (R : List SeedRepl) (n : RNode) : RNode :=
  ⟨n.id, n.op, n.target, n.args.map (substA R), n.meta⟩

/-- Expansion of one original node under a replacement list: a replaced seed
becomes its lookup node (preceded by its group's batched-seed node when it
is the group's first seed); any other node survives with substituted
arguments.  `pend` marks a batched-seed node already inserted before a seed
whose own replacement is still pending. -/
def expandRP (R : List SeedRepl) (pend : Option (Nat × RNode)) (n : RNode) :
    List RNode :=
  match findRepl R n.id with
  | some r => (if r.isFirst then [combinedNodeOf r] else []) ++ [lookupNodeOf r]
  | none =>
    match pend with
    | some p => if n.id == p.1 then [p.2, substN R n] else [substN R n]
    | none => [substN R n]

/-- Expansion of a whole graph. -/
def expandAll (R : List SeedRepl) (pend : Option (Nat × RNode)) : RGraph → RGraph
  | [] => []
  | n :: rest => expandRP R pend n ++ expandAll R pend rest

theorem expandAll_append (R : List SeedRepl) (pend : Option (Nat × RNode))
    (g1 g2 : RGraph) :
    expandAll R pend (g1 ++ g2) = expandAll R pend g1 ++ expandAll R pend g2 := by
  induction g1 with
  | nil => rfl
  | cons n rest ih =>
    rw [List.cons_append, expandAll, ih, expandAll, List.append_assoc]

theorem findRepl_append (R1 R2 : List SeedRepl) (nid : Nat) :
    findRepl (R1 ++ R2) nid =
      match findRepl R1 nid with
      | some r => some r
      | none => findRepl R2 nid := by
  induction R1 with
  | nil => rfl
  | cons r R1' ih =>
    rw [List.cons_append, findRepl, List.find?]
    cases hb : (r.sid == nid) with
    | true =>
      rw [findRepl, List.find?, hb]
    | false =>
      rw [findRepl, List.find?, hb]
      exact ih

theorem substA_nil (a : RArg) : substA [] a = a := by
  cases a <;> rfl

theorem substN_nil (n : RNode) : substN [] n = n := by
  obtain ⟨i, o, t, args, meta⟩ := n
  rw [substN]
  simp only
  congr 1
  have : ∀ a ∈ args, substA [] a = id a := fun a _ => substA_nil a
  rw [List.map_congr_left this, List.map_id]

theorem expandAll_nil_repl (g : RGraph) : expandAll [] none g = g := by
  induction g with
  | nil => rfl
  | cons n rest ih =>
    rw [expandAll, expandRP]
    simp only [findRepl, List.find?_nil]
    rw [substN_nil, ih]
    rfl

theorem mem_nodup_decomp (g : RGraph) (s : RNode) (hs : s ∈ g)
    (hnodup : (g.map RNode.id).Nodup) :
    ∃ U V, g = U ++ s :: V ∧ (∀ m ∈ U, m.id ≠ s.id) ∧ ∀ m ∈ V, m.id ≠ s.id := by
  obtain ⟨U, V, rfl⟩ := List.append_of_mem hs
  refine ⟨U, V, rfl, ?_, ?_⟩
  · intro m hm hc
    rw [List.map_append, List.map_cons] at hnodup
    obtain ⟨_, _, hdisj⟩ := List.nodup_append.mp hnodup
    exact hdisj (List.mem_map.mpr ⟨m, hm, rfl⟩) (by rw [hc]; exact List.mem_cons_self _ _)
  · intro m hm hc
    rw [List.map_append, List.map_cons] at hnodup
    obtain ⟨_, h2, _⟩ := List.nodup_append.mp hnodup
    exact (List.nodup_cons.mp h2).1 (by rw [← hc]; exact List.mem_map.mpr ⟨m, hm, rfl⟩)

theorem insertBeforeR_append_no (A B : RGraph) (r : Nat) (n : RNode)
    (hA : ∀ m ∈ A, m.id ≠ r) :
    insertBeforeR (A ++ B) r n = A ++ insertBeforeR B r n := by
  induction A with
  | nil => rfl
  | cons a A' ih =>
    rw [List.cons_append, insertBeforeR]
    have : (a.id == r) = false := by simp [hA a (List.mem_cons_self _ _)]
    rw [this]
    simp only [Bool.false_eq_true, if_false]
    rw [ih (fun m hm => hA m (List.mem_cons_of_mem _ hm))]
    rfl

theorem eraseNodeR_skip (g : RGraph) (nid : Nat) (h : ∀ m ∈ g, m.id ≠ nid) :
    eraseNodeR g nid = g := by
  rw [eraseNodeR]
  apply List.filter_eq_self.mpr
  intro m hm
  simp [h m hm]

theorem mapNodeR_skip (g : RGraph) (nid : Nat) (f : RNode → RNode)
    (h : ∀ m ∈ g, m.id ≠ nid) : mapNodeR g nid f = g := by
  rw [mapNodeR]
  have : ∀ m ∈ g, (fun n => if n.id == nid then f n else n) m = id m := by
    intro m hm
    show (if m.id == nid then f m else m) = id m
    have hb : (m.id == nid) = false := by simp [h m hm]
    rw [hb]
    simp
  rw [List.map_congr_left this, List.map_id]

end RRand

namespace RRand

theorem findRepl_mem_sid (R : List SeedRepl) (nid : Nat) (r : SeedRepl)
    (h : findRepl R nid = some r) : r ∈ R ∧ r.sid = nid := by
  induction R with
  | nil => cases h
  | cons x xs ih =>
    rw [findRepl, List.find?] at h
    cases hb : (x.sid == nid) with
    | true =>
      rw [hb] at h
      cases h
      exact ⟨List.mem_cons_self _ _, eq_of_beq hb⟩
    | false =>
      rw [hb] at h
      obtain ⟨h1, h2⟩ := ih h
      exact ⟨List.mem_cons_of_mem _ h1, h2⟩

theorem substA_snoc (R : List SeedRepl) (ρ : SeedRepl)
    (hlid : ∀ r ∈ R, r.lid ≠ ρ.sid) (a : RArg) :
    substA (R ++ [ρ]) a = replaceArgR ρ.sid ρ.lid (substA R a) := by
  cases a with
  | node m =>
    simp only [substA, findRepl_append]
    cases hf : findRepl R m with
    | some r =>
      simp only
      obtain ⟨hrR, _⟩ := findRepl_mem_sid R m r hf
      have hb : (r.lid == ρ.sid) = false := by simp [hlid r hrR]
      simp [replaceArgR, hb]
    | none =>
      simp only
      show (match findRepl [ρ] m with
        | some r => RArg.node r.lid
        | none => RArg.node m) = replaceArgR ρ.sid ρ.lid (.node m)
      rw [findRepl, List.find?]
      cases hb : (ρ.sid == m) with
      | true =>
        have h := eq_of_beq hb
        have : (m == ρ.sid) = true := by simp [h]
        simp [replaceArgR, this]
      | false =>
        have : (m == ρ.sid) = false := by
          by_cases h : m = ρ.sid
          · rw [h] at hb
            simp at hb
          · simp [h]
        simp [replaceArgR, this, findRepl]
  | lit n => rfl
  | dev d => rfl

/-- The per-node rewrite performed by `replaceAllUsesR`. -/
def replFn (old new : Nat) (n : RNode) : RNode :=
  ⟨n.id, n.op, n.target, n.args.map (replaceArgR old new), n.meta⟩

theorem replaceAllUsesR_eq_map (g : RGraph) (old new : Nat) :
    replaceAllUsesR g old new = g.map (replFn old new) := rfl

theorem substN_snoc (R : List SeedRepl) (ρ : SeedRepl)
    (hlid : ∀ r ∈ R, r.lid ≠ ρ.sid) (n : RNode) :
    substN (R ++ [ρ]) n = replFn ρ.sid ρ.lid (substN R n) := by
  rw [substN, substN, replFn]
  simp only
  rw [List.map_map]
  congr 1
  exact List.map_congr_left (fun a _ => substA_snoc R ρ hlid a)

theorem replFn_expandRP (fresh0 : Nat) (R : List SeedRepl) (ρ : SeedRepl)
    (n : RNode)
    (hsid : ρ.sid < fresh0)
    (hcid : ∀ r ∈ R, fresh0 ≤ r.cid)
    (hlid : ∀ r ∈ R, fresh0 ≤ r.lid)
    (hdev : ∀ r ∈ R, ∀ k, r.dev ≠ RArg.node k)
    (hnid : n.id ≠ ρ.sid) :
    (expandRP R none n).map (replFn ρ.sid ρ.lid) = expandRP (R ++ [ρ]) none n := by
  cases hf : findRepl R n.id with
  | some r =>
    obtain ⟨hrR, _⟩ := findRepl_mem_sid R n.id r hf
    have hf' : findRepl (R ++ [ρ]) n.id = some r := by
      rw [findRepl_append, hf]
    simp only [expandRP, hf, hf', List.map_append]
    have hcn : replFn ρ.sid ρ.lid (combinedNodeOf r) = combinedNodeOf r := by
      rw [replFn, combinedNodeOf]
      simp only [List.map_cons, List.map_nil]
      have hd : replaceArgR ρ.sid ρ.lid r.dev = r.dev := by
        cases hd : r.dev with
        | node k => exact absurd hd (hdev r hrR k)
        | lit m => rfl
        | dev d => rfl
      have hl : replaceArgR ρ.sid ρ.lid (RArg.lit r.gsize) = RArg.lit r.gsize := rfl
      rw [hl, hd]
    have hlk : replFn ρ.sid ρ.lid (lookupNodeOf r) = lookupNodeOf r := by
      rw [replFn, lookupNodeOf]
      simp only [List.map_cons, List.map_nil]
      have hd : replaceArgR ρ.sid ρ.lid (.node r.cid) = .node r.cid := by
        rw [replaceArgR]
        have hb : (r.cid == ρ.sid) = false := by
          have h1 : ρ.sid < r.cid := Nat.lt_of_lt_of_le hsid (hcid r hrR)
          simp [Nat.ne_of_gt h1]
        rw [hb]
        simp
      have hl : replaceArgR ρ.sid ρ.lid (RArg.lit r.idx) = RArg.lit r.idx := rfl
      rw [hd, hl]
    cases r.isFirst with
    | true => simp [hcn, hlk]
    | false => simp [hlk]
  | none =>
    have hf' : findRepl (R ++ [ρ]) n.id = none := by
      rw [findRepl_append, hf]
      simp only
      rw [findRepl, List.find?]
      have : (ρ.sid == n.id) = false := by
        simp only [beq_eq_false_iff_ne, ne_eq]
        intro h
        exact hnid h.symm
      rw [this]
      rfl
    simp only [expandRP, hf, hf', List.map_cons, List.map_nil]
    rw [← substN_snoc R ρ (fun r hr => Nat.ne_of_gt (Nat.lt_of_lt_of_le hsid (hlid r hr)))]

theorem replFn_expandAll (fresh0 : Nat) (R : List SeedRepl) (ρ : SeedRepl)
    (g' : RGraph)
    (hsid : ρ.sid < fresh0)
    (hcid : ∀ r ∈ R, fresh0 ≤ r.cid)
    (hlid : ∀ r ∈ R, fresh0 ≤ r.lid)
    (hdev : ∀ r ∈ R, ∀ k, r.dev ≠ RArg.node k)
    (hids : ∀ n ∈ g', n.id ≠ ρ.sid) :
    (expandAll R none g').map (replFn ρ.sid ρ.lid) = expandAll (R ++ [ρ]) none g' := by
  induction g' with
  | nil => rfl
  | cons n rest ih =>
    rw [expandAll, List.map_append,
      replFn_expandRP fresh0 R ρ n hsid hcid hlid hdev (hids n (List.mem_cons_self _ _)),
      expandAll, ih (fun m hm => hids m (List.mem_cons_of_mem _ hm))]

theorem expandAll_ids_ne (R : List SeedRepl) (g' : RGraph) (t : Nat)
    (hg : ∀ n ∈ g', n.id ≠ t)
    (hR : ∀ n ∈ g', ∀ r, findRepl R n.id = some r → r.cid ≠ t ∧ r.lid ≠ t) :
    ∀ m ∈ expandAll R none g', m.id ≠ t := by
  induction g' with
  | nil => intro m hm; cases hm
  | cons n rest ih =>
    intro m hm
    rw [expandAll] at hm
    rcases List.mem_append.mp hm with hm1 | hm2
    · cases hf : findRepl R n.id with
      | some r =>
        simp only [expandRP, hf] at hm1
        obtain ⟨hc, hl⟩ := hR n (List.mem_cons_self _ _) r hf
        rcases List.mem_append.mp hm1 with hma | hmb
        · cases hfl : r.isFirst with
          | true =>
            rw [hfl] at hma
            simp only [if_pos rfl] at hma
            rcases List.mem_singleton.mp hma with rfl
            exact hc
          | false =>
            rw [hfl] at hma
            simp at hma
        · rcases List.mem_singleton.mp hmb with rfl
          exact hl
      | none =>
        simp only [expandRP, hf] at hm1
        rcases List.mem_singleton.mp hm1 with rfl
        exact hg n (List.mem_cons_self _ _)
    · exact ih (fun x hx => hg x (List.mem_cons_of_mem _ hx))
        (fun x hx => hR x (List.mem_cons_of_mem _ hx)) m hm2

theorem expandAll_pend_irrel (R : List SeedRepl) (p : Nat × RNode) (g' : RGraph)
    (h : ∀ n ∈ g', n.id ≠ p.1) :
    expandAll R (some p) g' = expandAll R none g' := by
  induction g' with
  | nil => rfl
  | cons n rest ih =>
    rw [expandAll, expandAll, ih (fun m hm => h m (List.mem_cons_of_mem _ hm))]
    congr 1
    cases hf : findRepl R n.id with
    | some r => simp only [expandRP, hf]
    | none =>
      have hb : (n.id == p.1) = false := by simp [h n (List.mem_cons_self _ _)]
      simp only [expandRP, hf, hb]
      simp

end RRand

namespace RRand

/-- Invariants tying a replacement list to the base graph ids (all below
`fresh0`) and to the current fresh id `f`. -/
structure ReplWF (fresh0 f : Nat) (R : List SeedRepl) : Prop where
  sid_lt : ∀ r ∈ R, r.sid < fresh0
  cid_ge : ∀ r ∈ R, fresh0 ≤ r.cid
  cid_lt : ∀ r ∈ R, r.cid < f
  lid_ge : ∀ r ∈ R, fresh0 ≤ r.lid
  lid_lt : ∀ r ∈ R, r.lid < f
  dev_ok : ∀ r ∈ R, ∀ k, r.dev ≠ RArg.node k
  le_f : fresh0 ≤ f

theorem insertBeforeR_cons_hit (m : RNode) (rest : RGraph) (r : Nat) (n : RNode)
    (h : (m.id == r) = true) : insertBeforeR (m :: rest) r n = n :: m :: rest := by
  rw [insertBeforeR, if_pos h]

theorem processSeed_step (G0 : RGraph) (fresh0 : Nat) (R : List SeedRepl)
    (cid f idx : Nat) (dv : RArg) (gs : Nat) (s : RNode) (first : Bool)
    (hbase : ∀ n ∈ G0, n.id < fresh0)
    (hnodup : (G0.map RNode.id).Nodup)
    (hwf : ReplWF fresh0 f R)
    (hcid1 : fresh0 ≤ cid) (hcid2 : cid < f)
    (hs : s ∈ G0) (hsR : findRepl R s.id = none)
    (hdv : ∀ k, dv ≠ RArg.node k) :
    processSeed cid
      ⟨expandAll R
        (if first then
          some (s.id, combinedNodeOf ⟨s.id, f, cid, idx, first, dv, gs, s.meta⟩)
         else none) G0, f⟩
      (idx, s) =
    ⟨expandAll (R ++ [⟨s.id, f, cid, idx, first, dv, gs, s.meta⟩]) none G0,
      f + 1⟩ := by
  obtain ⟨U, V, hG, hU, hV⟩ := mem_nodup_decomp G0 s hs hnodup
  have hsid_lt : s.id < fresh0 := hbase s hs
  have hUbase : ∀ n ∈ U, n.id < fresh0 := by
    intro n hn
    exact hbase n (by rw [hG]; exact List.mem_append_left _ hn)
  have hVbase : ∀ n ∈ V, n.id < fresh0 := by
    intro n hn
    exact hbase n (by rw [hG]; exact List.mem_append_right _ (List.mem_cons_of_mem _ hn))
  set ρ : SeedRepl := ⟨s.id, f, cid, idx, first, dv, gs, s.meta⟩ with hρ
  set pend : Option (Nat × RNode) :=
    (if first then some (s.id, combinedNodeOf ρ) else none) with hpend
  set pfx : List RNode := (if first then [combinedNodeOf ρ] else []) with hpfx
  -- the pending combined node plays no role on U and V
  have hpU : expandAll R pend U = expandAll R none U := by
    cases first with
    | true =>
      rw [hpend]
      simp only [if_pos rfl]
      exact expandAll_pend_irrel R _ U (fun n hn => hU n hn)
    | false =>
      rw [hpend]
      simp
  have hpV : expandAll R pend V = expandAll R none V := by
    cases first with
    | true =>
      rw [hpend]
      simp only [if_pos rfl]
      exact expandAll_pend_irrel R _ V (fun n hn => hV n hn)
    | false =>
      rw [hpend]
      simp
  have hpS : expandRP R pend s = pfx ++ [substN R s] := by
    cases first with
    | true =>
      rw [hpend, hpfx]
      simp only [if_pos rfl]
      simp only [expandRP, hsR]
      simp
    | false =>
      rw [hpend, hpfx]
      simp only [Bool.false_eq_true, if_false]
      simp only [expandRP, hsR]
      rfl
  have hGx : expandAll R pend G0 =
      expandAll R none U ++ (pfx ++ [substN R s]) ++ expandAll R none V := by
    rw [hG]
    rw [expandAll_append]
    rw [show (s :: V : RGraph) = [s] ++ V from rfl]
    rw [expandAll_append]
    rw [show expandAll R pend [s] = expandRP R pend s ++ expandAll R pend [] from rfl]
    rw [show expandAll R pend ([] : RGraph) = [] from rfl]
    rw [List.append_nil, hpU, hpV, hpS]
    simp [List.append_assoc]
  -- ids facts
  have hAids : ∀ m ∈ expandAll R none U, m.id ≠ s.id := by
    apply expandAll_ids_ne
    · exact hU
    · intro n _ r hr
      obtain ⟨hrR, _⟩ := findRepl_mem_sid R n.id r hr
      constructor
      · exact Nat.ne_of_gt (Nat.lt_of_lt_of_le hsid_lt (hwf.cid_ge r hrR))
      · exact Nat.ne_of_gt (Nat.lt_of_lt_of_le hsid_lt (hwf.lid_ge r hrR))
  have hBids : ∀ m ∈ expandAll R none V, m.id ≠ s.id := by
    apply expandAll_ids_ne
    · exact hV
    · intro n _ r hr
      obtain ⟨hrR, _⟩ := findRepl_mem_sid R n.id r hr
      constructor
      · exact Nat.ne_of_gt (Nat.lt_of_lt_of_le hsid_lt (hwf.cid_ge r hrR))
      · exact Nat.ne_of_gt (Nat.lt_of_lt_of_le hsid_lt (hwf.lid_ge r hrR))
  have hpfxids : ∀ m ∈ pfx, m.id ≠ s.id := by
    intro m hm
    cases first with
    | true =>
      rw [hpfx] at hm
      simp only [if_pos rfl] at hm
      rcases List.mem_singleton.mp hm with rfl
      show cid ≠ s.id
      exact Nat.ne_of_gt (Nat.lt_of_lt_of_le hsid_lt hcid1)
    | false =>
      rw [hpfx] at hm
      simp at hm
  -- step 1: insertion lands immediately before the (substituted) seed
  have hins : insertBeforeR (expandAll R pend G0) s.id
        ⟨f, .callFunction, .lookupSeed, [.node cid, .lit idx], []⟩ =
      expandAll R none U ++ pfx ++
        (⟨f, .callFunction, .lookupSeed, [.node cid, .lit idx], []⟩ ::
          substN R s :: expandAll R none V) := by
    rw [hGx, List.append_assoc, insertBeforeR_append_no _ _ _ _ hAids,
      List.append_assoc, insertBeforeR_append_no _ _ _ _ hpfxids,
      List.singleton_append,
      insertBeforeR_cons_hit _ _ _ _ (by show ((substN R s).id == s.id) = true; simp [substN])]
    simp [List.append_assoc]
  -- step 2: rewiring distributes into the expansion
  have hlidne : ∀ r ∈ R, r.lid ≠ ρ.sid := by
    intro r hr
    show r.lid ≠ s.id
    exact Nat.ne_of_gt (Nat.lt_of_lt_of_le hsid_lt (hwf.lid_ge r hr))
  have hcnfix : replFn s.id f (combinedNodeOf ρ) = combinedNodeOf ρ := by
    have hd : replaceArgR s.id f dv = dv := by
      cases hdd : dv with
      | node k => exact absurd hdd (hdv k)
      | lit m => rfl
      | dev d => rfl
    show (⟨cid, ROp.callFunction, RTarget.seeds,
      [replaceArgR s.id f (RArg.lit gs), replaceArgR s.id f dv],
      [("val", seedVal gs dv)]⟩ : RNode) = combinedNodeOf ρ
    rw [hd]
    rfl
  have h2map : pfx.map (replFn s.id f) = pfx := by
    cases first with
    | true =>
      rw [hpfx]
      simp only [if_pos rfl, if_true, eq_self_iff_true, List.map_cons, List.map_nil]
      rw [hcnfix]
    | false =>
      rw [hpfx]
      simp
  have h3map : replFn s.id f
      (⟨f, .callFunction, .lookupSeed, [.node cid, .lit idx], []⟩ : RNode) =
      ⟨f, .callFunction, .lookupSeed, [.node cid, .lit idx], []⟩ := by
    have hd : replaceArgR s.id f (RArg.node cid) = RArg.node cid := by
      rw [replaceArgR]
      have hb : (cid == s.id) = false := by
        simp [Nat.ne_of_gt (Nat.lt_of_lt_of_le hsid_lt hcid1)]
      rw [hb]
      simp
    show (⟨f, ROp.callFunction, RTarget.lookupSeed,
      [replaceArgR s.id f (RArg.node cid), replaceArgR s.id f (RArg.lit idx)],
      []⟩ : RNode) = _
    rw [hd]
    rfl
  have hrepl : replaceAllUsesR
      (expandAll R none U ++ pfx ++
        (⟨f, .callFunction, .lookupSeed, [.node cid, .lit idx], []⟩ ::
          substN R s :: expandAll R none V)) s.id f =
      expandAll (R ++ [ρ]) none U ++ pfx ++
        (⟨f, .callFunction, .lookupSeed, [.node cid, .lit idx], []⟩ ::
          substN (R ++ [ρ]) s :: expandAll (R ++ [ρ]) none V) := by
    rw [replaceAllUsesR_eq_map, List.map_append, List.map_append,
      List.map_cons, List.map_cons]
    rw [replFn_expandAll fresh0 R ρ U hsid_lt hwf.cid_ge hwf.lid_ge hwf.dev_ok hU]
    rw [replFn_expandAll fresh0 R ρ V hsid_lt hwf.cid_ge hwf.lid_ge hwf.dev_ok hV]
    rw [h2map, h3map]
    rw [← substN_snoc R ρ hlidne s]
  -- id facts about the substituted expansions
  have hA'f : ∀ m ∈ expandAll (R ++ [ρ]) none U, m.id ≠ f := by
    apply expandAll_ids_ne
    · intro n hn
      exact Nat.ne_of_lt (Nat.lt_of_lt_of_le (hUbase n hn) hwf.le_f)
    · intro n hn r hr
      obtain ⟨hrR, hrs⟩ := findRepl_mem_sid (R ++ [ρ]) n.id r hr
      rcases List.mem_append.mp hrR with hrR | hrρ
      · exact ⟨Nat.ne_of_lt (hwf.cid_lt r hrR), Nat.ne_of_lt (hwf.lid_lt r hrR)⟩
      · rcases List.mem_singleton.mp hrρ with rfl
        exact absurd hrs.symm (hU n hn)
  have hB'f : ∀ m ∈ expandAll (R ++ [ρ]) none V, m.id ≠ f := by
    apply expandAll_ids_ne
    · intro n hn
      exact Nat.ne_of_lt (Nat.lt_of_lt_of_le (hVbase n hn) hwf.le_f)
    · intro n hn r hr
      obtain ⟨hrR, hrs⟩ := findRepl_mem_sid (R ++ [ρ]) n.id r hr
      rcases List.mem_append.mp hrR with hrR | hrρ
      · exact ⟨Nat.ne_of_lt (hwf.cid_lt r hrR), Nat.ne_of_lt (hwf.lid_lt r hrR)⟩
      · rcases List.mem_singleton.mp hrρ with rfl
        exact absurd hrs.symm (hV n hn)
  have hA'sid : ∀ m ∈ expandAll (R ++ [ρ]) none U, m.id ≠ s.id := by
    apply expandAll_ids_ne
    · exact hU
    · intro n _ r hr
      obtain ⟨hrR, _⟩ := findRepl_mem_sid (R ++ [ρ]) n.id r hr
      rcases List.mem_append.mp hrR with hrR | hrρ
      · exact ⟨Nat.ne_of_gt (Nat.lt_of_lt_of_le hsid_lt (hwf.cid_ge r hrR)),
          Nat.ne_of_gt (Nat.lt_of_lt_of_le hsid_lt (hwf.lid_ge r hrR))⟩
      · rcases List.mem_singleton.mp hrρ with rfl
        exact ⟨Nat.ne_of_gt (Nat.lt_of_lt_of_le hsid_lt hcid1),
          Nat.ne_of_gt (Nat.lt_of_lt_of_le hsid_lt hwf.le_f)⟩
  have hB'sid : ∀ m ∈ expandAll (R ++ [ρ]) none V, m.id ≠ s.id := by
    apply expandAll_ids_ne
    · exact hV
    · intro n _ r hr
      obtain ⟨hrR, _⟩ := findRepl_mem_sid (R ++ [ρ]) n.id r hr
      rcases List.mem_append.mp hrR with hrR | hrρ
      · exact ⟨Nat.ne_of_gt (Nat.lt_of_lt_of_le hsid_lt (hwf.cid_ge r hrR)),
          Nat.ne_of_gt (Nat.lt_of_lt_of_le hsid_lt (hwf.lid_ge r hrR))⟩
      · rcases List.mem_singleton.mp hrρ with rfl
        exact ⟨Nat.ne_of_gt (Nat.lt_of_lt_of_le hsid_lt hcid1),
          Nat.ne_of_gt (Nat.lt_of_lt_of_le hsid_lt hwf.le_f)⟩
  -- step 3: metadata copy hits exactly the fresh lookup node
  have hmap : mapNodeR
      (expandAll (R ++ [ρ]) none U ++ pfx ++
        (⟨f, .callFunction, .lookupSeed, [.node cid, .lit idx], []⟩ ::
          substN (R ++ [ρ]) s :: expandAll (R ++ [ρ]) none V)) f
      (fun n => ⟨n.id, n.op, n.target, n.args, updateMeta n.meta s.meta⟩) =
      expandAll (R ++ [ρ]) none U ++ pfx ++
        (lookupNodeOf ρ :: substN (R ++ [ρ]) s :: expandAll (R ++ [ρ]) none V) := by
    rw [mapNodeR, List.map_append, List.map_append, List.map_cons, List.map_cons]
    have e1 : (expandAll (R ++ [ρ]) none U).map
        (fun n => if n.id == f then
          (⟨n.id, n.op, n.target, n.args, updateMeta n.meta s.meta⟩ : RNode) else n) =
        expandAll (R ++ [ρ]) none U := by
      have : ∀ m ∈ expandAll (R ++ [ρ]) none U,
          (fun n => if n.id == f then
            (⟨n.id, n.op, n.target, n.args, updateMeta n.meta s.meta⟩ : RNode) else n) m = id m := by
        intro m hm
        show (if m.id == f then
          (⟨m.id, m.op, m.target, m.args, updateMeta m.meta s.meta⟩ : RNode) else m) = m
        have hb : (m.id == f) = false := by simp [hA'f m hm]
        rw [hb]
        simp
      rw [List.map_congr_left this, List.map_id]
    have e2 : pfx.map
        (fun n => if n.id == f then
          (⟨n.id, n.op, n.target, n.args, updateMeta n.meta s.meta⟩ : RNode) else n) = pfx := by
      have : ∀ m ∈ pfx,
          (fun n => if n.id == f then
            (⟨n.id, n.op, n.target, n.args, updateMeta n.meta s.meta⟩ : RNode) else n) m = id m := by
        intro m hm
        cases first with
        | true =>
          rw [hpfx] at hm
          simp only [if_pos rfl] at hm
          rcases List.mem_singleton.mp hm with rfl
          show (if cid == f then _ else _) = _
          have hb : (cid == f) = false := by simp [Nat.ne_of_lt hcid2]
          rw [hb]
          simp
        | false =>
          rw [hpfx] at hm
          simp at hm
      rw [List.map_congr_left this, List.map_id]
    have e5 : (expandAll (R ++ [ρ]) none V).map
        (fun n => if n.id == f then
          (⟨n.id, n.op, n.target, n.args, updateMeta n.meta s.meta⟩ : RNode) else n) =
        expandAll (R ++ [ρ]) none V := by
      have : ∀ m ∈ expandAll (R ++ [ρ]) none V,
          (fun n => if n.id == f then
            (⟨n.id, n.op, n.target, n.args, updateMeta n.meta s.meta⟩ : RNode) else n) m = id m := by
        intro m hm
        show (if m.id == f then
          (⟨m.id, m.op, m.target, m.args, updateMeta m.meta s.meta⟩ : RNode) else m) = m
        have hb : (m.id == f) = false := by simp [hB'f m hm]
        rw [hb]
        simp
      rw [List.map_congr_left this, List.map_id]
    rw [e1, e2, e5]
    congr 1
    congr 1
    · simp [lookupNodeOf, hρ, updateMeta]
    congr 1
    have hb : ((substN (R ++ [ρ]) s).id == f) = false := by
      show ((s.id : Nat) == f) = false
      simp [Nat.ne_of_lt (Nat.lt_of_lt_of_le hsid_lt hwf.le_f)]
    simp [hb]
  -- step 4: erasing the original seed
  have herase : eraseNodeR
      (expandAll (R ++ [ρ]) none U ++ pfx ++
        (lookupNodeOf ρ :: substN (R ++ [ρ]) s :: expandAll (R ++ [ρ]) none V)) s.id =
      expandAll (R ++ [ρ]) none U ++ pfx ++
        (lookupNodeOf ρ :: expandAll (R ++ [ρ]) none V) := by
    rw [eraseNodeR, List.filter_append, List.filter_append]
    have e1 : (expandAll (R ++ [ρ]) none U).filter (fun n => n.id != s.id) =
        expandAll (R ++ [ρ]) none U := by
      apply List.filter_eq_self.mpr
      intro m hm
      simp [hA'sid m hm]
    have e2 : pfx.filter (fun n => n.id != s.id) = pfx := by
      apply List.filter_eq_self.mpr
      intro m hm
      simp [hpfxids m hm]
    have e5 : (expandAll (R ++ [ρ]) none V).filter (fun n => n.id != s.id) =
        expandAll (R ++ [ρ]) none V := by
      apply List.filter_eq_self.mpr
      intro m hm
      simp [hB'sid m hm]
    have hkeep : ((lookupNodeOf ρ).id != s.id) = true := by
      show ((f : Nat) != s.id) = true
      simp [Nat.ne_of_gt (Nat.lt_of_lt_of_le hsid_lt hwf.le_f)]
    have hdrop : ¬ (((substN (R ++ [ρ]) s).id != s.id) = true) := by
      show ¬ (((s.id : Nat) != s.id) = true)
      simp
    rw [e1, e2, List.filter_cons, List.filter_cons, if_pos hkeep, if_neg hdrop, e5]
  -- final assembly
  have hfind : findRepl (R ++ [ρ]) s.id = some ρ := by
    rw [findRepl_append, hsR]
    show findRepl [ρ] s.id = some ρ
    rw [findRepl]
    exact List.find?_cons_of_pos _ (by show ((s.id : Nat) == s.id) = true; simp)
  have hexpS : expandRP (R ++ [ρ]) none s = pfx ++ [lookupNodeOf ρ] := by
    simp only [expandRP, hfind]
  have hfinal : expandAll (R ++ [ρ]) none G0 =
      expandAll (R ++ [ρ]) none U ++ (pfx ++ [lookupNodeOf ρ]) ++
        expandAll (R ++ [ρ]) none V := by
    rw [hG]
    rw [expandAll_append]
    rw [show (s :: V : RGraph) = [s] ++ V from rfl]
    rw [expandAll_append]
    rw [show expandAll (R ++ [ρ]) none [s] =
      expandRP (R ++ [ρ]) none s ++ expandAll (R ++ [ρ]) none [] from rfl]
    rw [show expandAll (R ++ [ρ]) none ([] : RGraph) = [] from rfl]
    rw [List.append_nil, hexpS]
    simp [List.append_assoc]
  show (⟨eraseNodeR
      (mapNodeR
        (replaceAllUsesR
          (insertBeforeR (expandAll R pend G0) s.id
            ⟨f, .callFunction, .lookupSeed, [.node cid, .lit idx], []⟩)
          s.id f)
        f (fun n => ⟨n.id, n.op, n.target, n.args, updateMeta n.meta s.meta⟩))
      s.id, f + 1⟩ : FuseState) = ⟨expandAll (R ++ [ρ]) none G0, f + 1⟩
  rw [hins, hrepl, hmap, herase, hfinal]
  congr 1
  simp [List.append_assoc]

end RRand

namespace RRand

/-- Replacements generated by the remaining (index, seed) pairs of a group
fold, with lookup ids counting up from `lid`. -/
def pairsRepls (cid : Nat) (dv : RArg) (gs : Nat) :
    Nat → List (Nat × RNode) → List SeedRepl
  | _, [] => []
  | lid, p :: rest =>
    ⟨p.2.id, lid, cid, p.1, false, dv, gs, p.2.meta⟩ ::
      pairsRepls cid dv gs (lid + 1) rest

theorem foldl_processSeed (G0 : RGraph) (fresh0 : Nat) (cid : Nat) (dv : RArg)
    (gs : Nat)
    (hbase : ∀ n ∈ G0, n.id < fresh0)
    (hnodup : (G0.map RNode.id).Nodup)
    (hdv : ∀ k, dv ≠ RArg.node k)
    (hcid1 : fresh0 ≤ cid) :
    ∀ (pairs : List (Nat × RNode)) (R : List SeedRepl) (f : Nat),
    ReplWF fresh0 f R →
    cid < f →
    (∀ p ∈ pairs, p.2 ∈ G0 ∧ findRepl R p.2.id = none) →
    ((pairs.map (fun p => p.2.id)).Nodup) →
    List.foldl (processSeed cid) ⟨expandAll R none G0, f⟩ pairs =
      ⟨expandAll (R ++ pairsRepls cid dv gs f pairs) none G0, f + pairs.length⟩ := by
  intro pairs
  induction pairs with
  | nil =>
    intro R f hwf hcidf hmem hnd
    simp [pairsRepls]
  | cons p rest ih =>
    obtain ⟨i, s⟩ := p
    intro R f hwf hcidf hmem hnd
    rw [List.foldl_cons]
    have hsmem : s ∈ G0 := (hmem (i, s) (List.mem_cons_self _ _)).1
    have hsR : findRepl R s.id = none := (hmem (i, s) (List.mem_cons_self _ _)).2
    have hstep := processSeed_step G0 fresh0 R cid f i dv gs s false
      hbase hnodup hwf hcid1 hcidf hsmem hsR hdv
    have hpend0 : (if false = true then
        some (s.id, combinedNodeOf ⟨s.id, f, cid, i, false, dv, gs, s.meta⟩)
        else (none : Option (Nat × RNode))) = none := rfl
    rw [hpend0] at hstep
    rw [hstep]
    have hwf' : ReplWF fresh0 (f + 1)
        (R ++ [⟨s.id, f, cid, i, false, dv, gs, s.meta⟩]) := by
      constructor
      · intro r hr
        rcases List.mem_append.mp hr with hr | hr
        · exact hwf.sid_lt r hr
        · rcases List.mem_singleton.mp hr with rfl
          exact hbase s hsmem
      · intro r hr
        rcases List.mem_append.mp hr with hr | hr
        · exact hwf.cid_ge r hr
        · rcases List.mem_singleton.mp hr with rfl
          exact hcid1
      · intro r hr
        rcases List.mem_append.mp hr with hr | hr
        · exact Nat.lt_succ_of_lt (hwf.cid_lt r hr)
        · rcases List.mem_singleton.mp hr with rfl
          exact Nat.lt_succ_of_lt hcidf
      · intro r hr
        rcases List.mem_append.mp hr with hr | hr
        · exact hwf.lid_ge r hr
        · rcases List.mem_singleton.mp hr with rfl
          exact hwf.le_f
      · intro r hr
        rcases List.mem_append.mp hr with hr | hr
        · exact Nat.lt_succ_of_lt (hwf.lid_lt r hr)
        · rcases List.mem_singleton.mp hr with rfl
          exact Nat.lt_succ_self f
      · intro r hr
        rcases List.mem_append.mp hr with hr | hr
        · exact hwf.dev_ok r hr
        · rcases List.mem_singleton.mp hr with rfl
          exact hdv
      · exact Nat.le_succ_of_le hwf.le_f
    have hmem' : ∀ q ∈ rest, q.2 ∈ G0 ∧
        findRepl (R ++ [⟨s.id, f, cid, i, false, dv, gs, s.meta⟩]) q.2.id = none := by
      intro q hq
      refine ⟨(hmem q (List.mem_cons_of_mem _ hq)).1, ?_⟩
      rw [findRepl_append, (hmem q (List.mem_cons_of_mem _ hq)).2]
      show findRepl [⟨s.id, f, cid, i, false, dv, gs, s.meta⟩] q.2.id = none
      rw [findRepl, List.find?]
      have hb : ((s.id : Nat) == q.2.id) = false := by
        have hne : s.id ≠ q.2.id := by
          rw [List.map_cons, List.nodup_cons] at hnd
          intro hc
          exact hnd.1 (by rw [hc]; exact List.mem_map.mpr ⟨q, hq, rfl⟩)
        simp [hne]
      rw [hb]
      rfl
    have hnd' : (rest.map (fun p => p.2.id)).Nodup := by
      rw [List.map_cons, List.nodup_cons] at hnd
      exact hnd.2
    refine (ih (R ++ [⟨s.id, f, cid, i, false, dv, gs, s.meta⟩]) (f + 1)
      hwf' (Nat.lt_succ_of_lt hcidf) hmem' hnd').trans ?_
    have hunf : pairsRepls cid dv gs f ((i, s) :: rest) =
        ⟨s.id, f, cid, i, false, dv, gs, s.meta⟩ ::
          pairsRepls cid dv gs (f + 1) rest := rfl
    rw [hunf]
    have hglist : R ++ [⟨s.id, f, cid, i, false, dv, gs, s.meta⟩] ++
        pairsRepls cid dv gs (f + 1) rest =
        R ++ (⟨s.id, f, cid, i, false, dv, gs, s.meta⟩ ::
          pairsRepls cid dv gs (f + 1) rest) := by
      rw [List.append_assoc]
      rfl
    rw [hglist]
    congr 1
    rw [List.length_cons]
    omega

end RRand

namespace RRand

/-- Replacements generated by one device group whose batched-seed node gets
id `f`. -/
def groupRepls (f : Nat) (dv : RArg) (seeds : List RNode) : List SeedRepl :=
  match seeds with
  | [] => []
  | s0 :: rest =>
    ⟨s0.id, f + 1, f, 0, true, dv, rest.length + 1, s0.meta⟩ ::
      pairsRepls f dv (rest.length + 1) (f + 2) (enumFromR 1 rest)

theorem ReplWF.mono (fresh0 f f' : Nat) (R : List SeedRepl)
    (h : ReplWF fresh0 f R) (hff : f ≤ f') : ReplWF fresh0 f' R :=
  ⟨h.sid_lt, h.cid_ge, fun r hr => Nat.lt_of_lt_of_le (h.cid_lt r hr) hff,
    h.lid_ge, fun r hr => Nat.lt_of_lt_of_le (h.lid_lt r hr) hff,
    h.dev_ok, Nat.le_trans h.le_f hff⟩

theorem mem_enumFromR {α : Type} (n : Nat) (xs : List α) (p : Nat × α)
    (h : p ∈ enumFromR n xs) : p.2 ∈ xs := by
  induction xs generalizing n with
  | nil => cases h
  | cons x rest ih =>
    rw [enumFromR] at h
    rcases List.mem_cons.mp h with rfl | h
    · exact List.mem_cons_self _ _
    · exact List.mem_cons_of_mem _ (ih (n + 1) h)

theorem enumFromR_map_snd {α : Type} (n : Nat) (xs : List α) :
    (enumFromR n xs).map Prod.snd = xs := by
  induction xs generalizing n with
  | nil => rfl
  | cons x rest ih =>
    rw [enumFromR, List.map_cons, ih (n + 1)]

theorem length_enumFromR {α : Type} (n : Nat) (xs : List α) :
    (enumFromR n xs).length = xs.length := by
  induction xs generalizing n with
  | nil => rfl
  | cons x rest ih =>
    rw [enumFromR, List.length_cons, List.length_cons, ih (n + 1)]

theorem insert_combined (G0 : RGraph) (fresh0 : Nat) (R : List SeedRepl)
    (s : RNode) (cn : RNode)
    (hbase : ∀ n ∈ G0, n.id < fresh0)
    (hnodup : (G0.map RNode.id).Nodup)
    (hwfc : ∀ r ∈ R, fresh0 ≤ r.cid)
    (hwfl : ∀ r ∈ R, fresh0 ≤ r.lid)
    (hs : s ∈ G0) (hsR : findRepl R s.id = none) :
    insertBeforeR (expandAll R none G0) s.id cn =
      expandAll R (some (s.id, cn)) G0 := by
  obtain ⟨U, V, hG, hU, hV⟩ := mem_nodup_decomp G0 s hs hnodup
  have hsid_lt : s.id < fresh0 := hbase s hs
  have hAids : ∀ m ∈ expandAll R none U, m.id ≠ s.id := by
    apply expandAll_ids_ne
    · exact hU
    · intro n _ r hr
      obtain ⟨hrR, _⟩ := findRepl_mem_sid R n.id r hr
      exact ⟨Nat.ne_of_gt (Nat.lt_of_lt_of_le hsid_lt (hwfc r hrR)),
        Nat.ne_of_gt (Nat.lt_of_lt_of_le hsid_lt (hwfl r hrR))⟩
  have hUp : expandAll R (some (s.id, cn)) U = expandAll R none U :=
    expandAll_pend_irrel R _ U (fun n hn => hU n hn)
  have hVp : expandAll R (some (s.id, cn)) V = expandAll R none V :=
    expandAll_pend_irrel R _ V (fun n hn => hV n hn)
  have hSp : expandRP R (some (s.id, cn)) s = cn :: [substN R s] := by
    simp only [expandRP, hsR]
    rw [if_pos (by simp)]
  have hLGx : expandAll R none G0 =
      expandAll R none U ++ [substN R s] ++ expandAll R none V := by
    rw [hG]
    rw [expandAll_append]
    rw [show (s :: V : RGraph) = [s] ++ V from rfl]
    rw [expandAll_append]
    rw [show expandAll R none [s] = expandRP R none s ++ expandAll R none [] from rfl]
    rw [show expandAll R none ([] : RGraph) = [] from rfl]
    rw [List.append_nil]
    rw [show expandRP R none s = [substN R s] from by simp only [expandRP, hsR]]
    simp [List.append_assoc]
  have hRGx : expandAll R (some (s.id, cn)) G0 =
      expandAll R none U ++ (cn :: [substN R s]) ++ expandAll R none V := by
    rw [hG]
    rw [expandAll_append]
    rw [show (s :: V : RGraph) = [s] ++ V from rfl]
    rw [expandAll_append]
    rw [show expandAll R (some (s.id, cn)) [s] =
      expandRP R (some (s.id, cn)) s ++ expandAll R (some (s.id, cn)) [] from rfl]
    rw [show expandAll R (some (s.id, cn)) ([] : RGraph) = [] from rfl]
    rw [List.append_nil, hSp, hUp, hVp]
    simp [List.append_assoc]
  rw [hLGx, hRGx, List.append_assoc, insertBeforeR_append_no _ _ _ _ hAids,
    List.singleton_append,
    insertBeforeR_cons_hit _ _ _ _ (by show ((substN R s).id == s.id) = true; simp [substN])]
  simp [List.append_assoc]

theorem processGroup_step (G0 : RGraph) (fresh0 : Nat) (R : List SeedRepl)
    (f : Nat) (dv : RArg) (s0 : RNode) (rest : List RNode)
    (hbase : ∀ n ∈ G0, n.id < fresh0)
    (hnodup : (G0.map RNode.id).Nodup)
    (hwf : ReplWF fresh0 f R)
    (hmem : ∀ s ∈ s0 :: rest, s ∈ G0 ∧ findRepl R s.id = none)
    (hnd : ((s0 :: rest).map RNode.id).Nodup)
    (hdv : ∀ k, dv ≠ RArg.node k) :
    processGroup ⟨expandAll R none G0, f⟩ (dv, s0 :: rest) =
      ⟨expandAll (R ++ groupRepls f dv (s0 :: rest)) none G0,
        f + 1 + (rest.length + 1)⟩ := by
  have hs0 : s0 ∈ G0 := (hmem s0 (List.mem_cons_self _ _)).1
  have hs0R : findRepl R s0.id = none := (hmem s0 (List.mem_cons_self _ _)).2
  have hsid_lt : s0.id < fresh0 := hbase s0 hs0
  set ρ0 : SeedRepl :=
    ⟨s0.id, f + 1, f, 0, true, dv, rest.length + 1, s0.meta⟩ with hρ0
  have hcn : combinedNodeOf ρ0 =
      ⟨f, .callFunction, .seeds, [.lit (rest.length + 1), dv],
        [("val", seedVal (rest.length + 1) dv)]⟩ := rfl
  -- the inserted batched-seed node becomes a pending expansion marker
  have hins := insert_combined G0 fresh0 R s0 (combinedNodeOf ρ0)
    hbase hnodup hwf.cid_ge hwf.lid_ge hs0 hs0R
  -- first seed of the group: consumes the pending marker
  have hwf1 : ReplWF fresh0 (f + 1) R :=
    ReplWF.mono fresh0 f (f + 1) R hwf (Nat.le_succ f)
  have hstep0 := processSeed_step G0 fresh0 R f (f + 1) 0 dv (rest.length + 1)
    s0 true hbase hnodup hwf1 hwf.le_f (Nat.lt_succ_self f) hs0 hs0R hdv
  have hpend1 : (if true = true then
      some (s0.id, combinedNodeOf ⟨s0.id, f + 1, f, 0, true, dv, rest.length + 1, s0.meta⟩)
      else (none : Option (Nat × RNode))) = some (s0.id, combinedNodeOf ρ0) := rfl
  rw [hpend1] at hstep0
  -- remaining seeds of the group
  have hwf2 : ReplWF fresh0 (f + 2) (R ++ [ρ0]) := by
    constructor
    · intro r hr
      rcases List.mem_append.mp hr with hr | hr
      · exact hwf.sid_lt r hr
      · rcases List.mem_singleton.mp hr with rfl
        exact hsid_lt
    · intro r hr
      rcases List.mem_append.mp hr with hr | hr
      · exact hwf.cid_ge r hr
      · rcases List.mem_singleton.mp hr with rfl
        exact hwf.le_f
    · intro r hr
      rcases List.mem_append.mp hr with hr | hr
      · exact Nat.lt_of_lt_of_le (hwf.cid_lt r hr) (Nat.le_add_right f 2)
      · rcases List.mem_singleton.mp hr with rfl
        show f < f + 2
        omega
    · intro r hr
      rcases List.mem_append.mp hr with hr | hr
      · exact hwf.lid_ge r hr
      · rcases List.mem_singleton.mp hr with rfl
        show fresh0 ≤ f + 1
        exact Nat.le_succ_of_le hwf.le_f
    · intro r hr
      rcases List.mem_append.mp hr with hr | hr
      · exact Nat.lt_of_lt_of_le (hwf.lid_lt r hr) (Nat.le_add_right f 2)
      · rcases List.mem_singleton.mp hr with rfl
        show f + 1 < f + 2
        omega
    · intro r hr
      rcases List.mem_append.mp hr with hr | hr
      · exact hwf.dev_ok r hr
      · rcases List.mem_singleton.mp hr with rfl
        exact hdv
    · exact Nat.le_trans hwf.le_f (by omega)
  have hnd0 : s0.id ∉ rest.map RNode.id := by
    rw [List.map_cons, List.nodup_cons] at hnd
    exact hnd.1
  have hmem2 : ∀ p ∈ enumFromR 1 rest, p.2 ∈ G0 ∧
      findRepl (R ++ [ρ0]) p.2.id = none := by
    intro p hp
    have hp2 : p.2 ∈ rest := mem_enumFromR 1 rest p hp
    refine ⟨(hmem p.2 (List.mem_cons_of_mem _ hp2)).1, ?_⟩
    rw [findRepl_append, (hmem p.2 (List.mem_cons_of_mem _ hp2)).2]
    show findRepl [ρ0] p.2.id = none
    rw [findRepl, List.find?]
    have hb : ((s0.id : Nat) == p.2.id) = false := by
      have hne : s0.id ≠ p.2.id := by
        intro hc
        exact hnd0 (by rw [hc]; exact List.mem_map.mpr ⟨p.2, hp2, rfl⟩)
      simp [hne]
    rw [hb]
    rfl
  have hnd2 : ((enumFromR 1 rest).map (fun p => p.2.id)).Nodup := by
    have he : (enumFromR 1 rest).map (fun p => p.2.id) = rest.map RNode.id := by
      rw [show (fun (p : Nat × RNode) => p.2.id) =
        RNode.id ∘ Prod.snd from rfl, ← List.map_map, enumFromR_map_snd]
    rw [he]
    rw [List.map_cons, List.nodup_cons] at hnd
    exact hnd.2
  have hfold := foldl_processSeed G0 fresh0 f dv (rest.length + 1)
    hbase hnodup hdv hwf.le_f (enumFromR 1 rest) (R ++ [ρ0]) (f + 2)
    hwf2 (by omega) hmem2 hnd2
  -- assemble
  show (enumFromR 0 (s0 :: rest)).foldl (processSeed f)
      ⟨insertBeforeR (expandAll R none G0) s0.id
        ⟨f, .callFunction, .seeds, [.lit (s0 :: rest).length, dv],
          [("val", seedVal (s0 :: rest).length dv)]⟩, f + 1⟩ =
    ⟨expandAll (R ++ groupRepls f dv (s0 :: rest)) none G0, f + 1 + (rest.length + 1)⟩
  rw [show (⟨f, .callFunction, .seeds, [.lit (s0 :: rest).length, dv],
      [("val", seedVal (s0 :: rest).length dv)]⟩ : RNode) = combinedNodeOf ρ0 from rfl]
  rw [hins]
  rw [show enumFromR 0 (s0 :: rest) = (0, s0) :: enumFromR 1 rest from rfl]
  rw [List.foldl_cons]
  rw [show processSeed f ⟨expandAll R (some (s0.id, combinedNodeOf ρ0)) G0, f + 1⟩ (0, s0) =
    processSeed f ⟨expandAll R (some (s0.id, combinedNodeOf ρ0)) G0, f + 1⟩ (0, s0) from rfl]
  rw [hstep0]
  rw [show f + 1 + 1 = f + 2 from rfl]
  rw [hfold]
  have hunf : groupRepls f dv (s0 :: rest) =
      ρ0 :: pairsRepls f dv (rest.length + 1) (f + 2) (enumFromR 1 rest) := rfl
  rw [hunf]
  have hglist : R ++ [ρ0] ++ pairsRepls f dv (rest.length + 1) (f + 2) (enumFromR 1 rest) =
      R ++ (ρ0 :: pairsRepls f dv (rest.length + 1) (f + 2) (enumFromR 1 rest)) := by
    rw [List.append_assoc]
    rfl
  rw [hglist]
  congr 1
  rw [length_enumFromR]
  omega

end RRand

namespace RRand

/-- Fresh ids consumed by processing one group. -/
def groupCost (grp : RArg × List RNode) : Nat :=
  match grp.2 with
  | [] => 0
  | _ :: rest => 1 + (rest.length + 1)

/-- All replacements generated by a list of groups, threading the fresh id. -/
def buildReplsGo : Nat → List (RArg × List RNode) → List SeedRepl
  | _, [] => []
  | f, grp :: rest => groupRepls f grp.1 grp.2 ++ buildReplsGo (f + groupCost grp) rest

/-- Total fresh ids consumed by a list of groups. -/
def totalCost : List (RArg × List RNode) → Nat
  | [] => 0
  | grp :: rest => groupCost grp + totalCost rest

/-- Ids of all seed nodes of a group list, in order. -/
def allSeedIds : List (RArg × List RNode) → List Nat
  | [] => []
  | grp :: rest => grp.2.map RNode.id ++ allSeedIds rest

theorem findRepl_eq_none_iff (R : List SeedRepl) (nid : Nat) :
    findRepl R nid = none ↔ ∀ r ∈ R, r.sid ≠ nid := by
  rw [findRepl, List.find?_eq_none]
  constructor
  · intro h r hr hc
    have := h r hr
    simp [hc] at this
  · intro h r hr
    simp [h r hr]

theorem findRepl_append_none (R1 R2 : List SeedRepl) (nid : Nat)
    (h1 : findRepl R1 nid = none) (h2 : findRepl R2 nid = none) :
    findRepl (R1 ++ R2) nid = none := by
  rw [findRepl_append, h1]
  exact h2

theorem pairsRepls_mem (cid : Nat) (dv : RArg) (gs : Nat) :
    ∀ (lid : Nat) (pairs : List (Nat × RNode)) (r : SeedRepl),
    r ∈ pairsRepls cid dv gs lid pairs →
    ∃ p ∈ pairs, r = ⟨p.2.id, r.lid, cid, p.1, false, dv, gs, p.2.meta⟩ ∧
      lid ≤ r.lid ∧ r.lid < lid + pairs.length := by
  intro lid pairs
  induction pairs generalizing lid with
  | nil =>
    intro r hr
    cases hr
  | cons p rest ih =>
    intro r hr
    have hunf : pairsRepls cid dv gs lid (p :: rest) =
        ⟨p.2.id, lid, cid, p.1, false, dv, gs, p.2.meta⟩ ::
          pairsRepls cid dv gs (lid + 1) rest := rfl
    rw [hunf] at hr
    rcases List.mem_cons.mp hr with rfl | hr
    · refine ⟨p, List.mem_cons_self _ _, rfl, Nat.le_refl _, ?_⟩
      show lid < lid + (rest.length + 1)
      omega
    · obtain ⟨q, hq, he, h1, h2⟩ := ih (lid + 1) r hr
      refine ⟨q, List.mem_cons_of_mem _ hq, he, by omega, ?_⟩
      rw [List.length_cons]
      omega

theorem groupRepls_mem (f : Nat) (dv : RArg) (s0 : RNode) (rest : List RNode)
    (r : SeedRepl) (hr : r ∈ groupRepls f dv (s0 :: rest)) :
    r = ⟨s0.id, f + 1, f, 0, true, dv, rest.length + 1, s0.meta⟩ ∨
    ∃ p ∈ enumFromR 1 rest,
      r = ⟨p.2.id, r.lid, f, p.1, false, dv, rest.length + 1, p.2.meta⟩ ∧
      f + 2 ≤ r.lid ∧ r.lid < f + 2 + rest.length := by
  have hunf : groupRepls f dv (s0 :: rest) =
      ⟨s0.id, f + 1, f, 0, true, dv, rest.length + 1, s0.meta⟩ ::
        pairsRepls f dv (rest.length + 1) (f + 2) (enumFromR 1 rest) := rfl
  rw [hunf] at hr
  rcases List.mem_cons.mp hr with rfl | hr
  · exact Or.inl rfl
  · right
    obtain ⟨p, hp, he, h1, h2⟩ :=
      pairsRepls_mem f dv (rest.length + 1) (f + 2) (enumFromR 1 rest) r hr
    rw [length_enumFromR] at h2
    exact ⟨p, hp, he, h1, h2⟩

theorem groupRepls_sid_mem (f : Nat) (dv : RArg) (seeds : List RNode)
    (r : SeedRepl) (hr : r ∈ groupRepls f dv seeds) :
    r.sid ∈ seeds.map RNode.id := by
  cases seeds with
  | nil => cases hr
  | cons s0 rest =>
    rcases groupRepls_mem f dv s0 rest r hr with rfl | ⟨p, hp, he, _, _⟩
    · rw [List.map_cons]
      exact List.mem_cons_self _ _
    · rw [List.map_cons]
      apply List.mem_cons_of_mem
      have : r.sid = p.2.id := by rw [he]
      rw [this]
      exact List.mem_map.mpr ⟨p.2, mem_enumFromR 1 rest p hp, rfl⟩

theorem mem_allSeedIds (g : RArg × List RNode) (grps : List (RArg × List RNode))
    (hg : g ∈ grps) (a : Nat) (ha : a ∈ g.2.map RNode.id) :
    a ∈ allSeedIds grps := by
  induction grps with
  | nil => cases hg
  | cons g2 r2 ih =>
    rw [show allSeedIds (g2 :: r2) = g2.2.map RNode.id ++ allSeedIds r2 from rfl]
    rcases List.mem_cons.mp hg with rfl | hg2
    · exact List.mem_append_left _ ha
    · exact List.mem_append_right _ (ih hg2)

theorem foldl_processGroup (G0 : RGraph) (fresh0 : Nat)
    (hbase : ∀ n ∈ G0, n.id < fresh0)
    (hnodup : (G0.map RNode.id).Nodup) :
    ∀ (grps : List (RArg × List RNode)) (R : List SeedRepl) (f : Nat),
    ReplWF fresh0 f R →
    (∀ grp ∈ grps, (∀ s ∈ grp.2, s ∈ G0 ∧ findRepl R s.id = none) ∧
      ∀ k, grp.1 ≠ RArg.node k) →
    (allSeedIds grps).Nodup →
    List.foldl processGroup ⟨expandAll R none G0, f⟩ grps =
      ⟨expandAll (R ++ buildReplsGo f grps) none G0, f + totalCost grps⟩ := by
  intro grps
  induction grps with
  | nil =>
    intro R f hwf hmem hnd
    simp [buildReplsGo, totalCost]
  | cons grp rest' ih =>
    obtain ⟨dv, seeds⟩ := grp
    intro R f hwf hmem hnd
    have hseeds : ∀ s ∈ seeds, s ∈ G0 ∧ findRepl R s.id = none :=
      (hmem (dv, seeds) (List.mem_cons_self _ _)).1
    have hdv : ∀ k, dv ≠ RArg.node k :=
      (hmem (dv, seeds) (List.mem_cons_self _ _)).2
    have hndseeds : (seeds.map RNode.id).Nodup := by
      have : allSeedIds ((dv, seeds) :: rest') =
          seeds.map RNode.id ++ allSeedIds rest' := rfl
      rw [this] at hnd
      exact (List.nodup_append.mp hnd).1
    have hnddisj : ∀ a ∈ seeds.map RNode.id, a ∉ allSeedIds rest' := by
      have : allSeedIds ((dv, seeds) :: rest') =
          seeds.map RNode.id ++ allSeedIds rest' := rfl
      rw [this] at hnd
      exact fun a ha hb => (List.nodup_append.mp hnd).2.2 ha hb
    have hndrest : (allSeedIds rest').Nodup := by
      have : allSeedIds ((dv, seeds) :: rest') =
          seeds.map RNode.id ++ allSeedIds rest' := rfl
      rw [this] at hnd
      exact (List.nodup_append.mp hnd).2.1
    cases seeds with
    | nil =>
      rw [List.foldl_cons]
      rw [show processGroup ⟨expandAll R none G0, f⟩ (dv, []) =
        ⟨expandAll R none G0, f⟩ from rfl]
      rw [ih R f hwf (fun g hg => hmem g (List.mem_cons_of_mem _ hg)) hndrest]
      have h1 : R ++ buildReplsGo f ((dv, []) :: rest') = R ++ buildReplsGo f rest' := by
        rw [show buildReplsGo f ((dv, []) :: rest') =
          groupRepls f dv [] ++ buildReplsGo (f + groupCost (dv, [])) rest' from rfl]
        rw [show groupRepls f dv [] = [] from rfl]
        rw [show groupCost ((dv, []) : RArg × List RNode) = 0 from rfl]
        rfl
      rw [h1]
      have h2 : totalCost ((dv, []) :: rest') = totalCost rest' := by
        rw [show totalCost ((dv, []) :: rest') =
          groupCost (dv, []) + totalCost rest' from rfl]
        rw [show groupCost ((dv, []) : RArg × List RNode) = 0 from rfl]
        rw [Nat.zero_add]
      rw [h2]
    | cons s0 rest2 =>
      rw [List.foldl_cons]
      rw [processGroup_step G0 fresh0 R f dv s0 rest2 hbase hnodup hwf hseeds
        hndseeds hdv]
      -- invariants for the remaining groups
      have hGR : ∀ r ∈ groupRepls f dv (s0 :: rest2),
          r.sid < fresh0 ∧ fresh0 ≤ r.cid ∧ r.cid < f + 1 + (rest2.length + 1) ∧
          fresh0 ≤ r.lid ∧ r.lid < f + 1 + (rest2.length + 1) ∧
          (∀ k, r.dev ≠ RArg.node k) := by
        intro r hr
        have hsid : r.sid < fresh0 := by
          have hm := groupRepls_sid_mem f dv (s0 :: rest2) r hr
          obtain ⟨s, hsmem, hse⟩ := List.mem_map.mp hm
          rw [← hse]
          exact hbase s (hseeds s hsmem).1
        have hle : fresh0 ≤ f := hwf.le_f
        rcases groupRepls_mem f dv s0 rest2 r hr with rfl | ⟨p, _, he, h1, h2⟩
        · refine ⟨hsid, hwf.le_f,
            by show f < f + 1 + (rest2.length + 1); omega, ?_,
            by show f + 1 < f + 1 + (rest2.length + 1); omega, ?_⟩
          · show fresh0 ≤ f + 1
            exact Nat.le_succ_of_le hwf.le_f
          · exact hdv
        · have hcid : r.cid = f := by rw [he]
          have hdev : r.dev = dv := by rw [he]
          refine ⟨hsid, by rw [hcid]; exact hwf.le_f, by rw [hcid]; omega,
            by omega, by omega, by rw [hdev]; exact hdv⟩
      have hwf' : ReplWF fresh0 (f + 1 + (rest2.length + 1))
          (R ++ groupRepls f dv (s0 :: rest2)) := by
        have hlift : ReplWF fresh0 (f + 1 + (rest2.length + 1)) R :=
          ReplWF.mono fresh0 f _ R hwf (by omega)
        constructor
        · intro r hr
          rcases List.mem_append.mp hr with hr | hr
          · exact hlift.sid_lt r hr
          · exact (hGR r hr).1
        · intro r hr
          rcases List.mem_append.mp hr with hr | hr
          · exact hlift.cid_ge r hr
          · exact (hGR r hr).2.1
        · intro r hr
          rcases List.mem_append.mp hr with hr | hr
          · exact hlift.cid_lt r hr
          · exact (hGR r hr).2.2.1
        · intro r hr
          rcases List.mem_append.mp hr with hr | hr
          · exact hlift.lid_ge r hr
          · exact (hGR r hr).2.2.2.1
        · intro r hr
          rcases List.mem_append.mp hr with hr | hr
          · exact hlift.lid_lt r hr
          · exact (hGR r hr).2.2.2.2.1
        · intro r hr
          rcases List.mem_append.mp hr with hr | hr
          · exact hlift.dev_ok r hr
          · exact (hGR r hr).2.2.2.2.2
        · exact Nat.le_trans hwf.le_f (by omega)
      have hmem' : ∀ g ∈ rest',
          (∀ s ∈ g.2, s ∈ G0 ∧
            findRepl (R ++ groupRepls f dv (s0 :: rest2)) s.id = none) ∧
          ∀ k, g.1 ≠ RArg.node k := by
        intro g hg
        refine ⟨?_, (hmem g (List.mem_cons_of_mem _ hg)).2⟩
        intro s hsg
        refine ⟨((hmem g (List.mem_cons_of_mem _ hg)).1 s hsg).1, ?_⟩
        apply findRepl_append_none
        · exact ((hmem g (List.mem_cons_of_mem _ hg)).1 s hsg).2
        · apply (findRepl_eq_none_iff _ _).mpr
          intro r hr hc
          have hm := groupRepls_sid_mem f dv (s0 :: rest2) r hr
          rw [hc] at hm
          apply hnddisj s.id hm
          exact mem_allSeedIds g rest' hg s.id (List.mem_map.mpr ⟨s, hsg, rfl⟩)
      have hrec := ih (R ++ groupRepls f dv (s0 :: rest2))
        (f + 1 + (rest2.length + 1)) hwf' hmem' hndrest
      rw [hrec]
      have hbuild : R ++ groupRepls f dv (s0 :: rest2) ++
          buildReplsGo (f + 1 + (rest2.length + 1)) rest' =
          R ++ buildReplsGo f ((dv, s0 :: rest2) :: rest') := by
        rw [show buildReplsGo f ((dv, s0 :: rest2) :: rest') =
          groupRepls f dv (s0 :: rest2) ++
            buildReplsGo (f + groupCost (dv, s0 :: rest2)) rest' from rfl]
        rw [show groupCost ((dv, s0 :: rest2) : RArg × List RNode) =
          1 + (rest2.length + 1) from rfl]
        rw [List.append_assoc]
        have h3 : f + (1 + (rest2.length + 1)) = f + 1 + (rest2.length + 1) := by
          omega
        rw [h3]
      rw [hbuild]
      have h2 : f + 1 + (rest2.length + 1) + totalCost rest' =
          f + totalCost ((dv, s0 :: rest2) :: rest') := by
        rw [show totalCost ((dv, s0 :: rest2) :: rest') =
          groupCost (dv, s0 :: rest2) + totalCost rest' from rfl]
        rw [show groupCost ((dv, s0 :: rest2) : RArg × List RNode) =
          1 + (rest2.length + 1) from rfl]
        omega
      rw [h2]

end RRand

namespace RRand

/-- Whether an argument is a node reference. -/
def isNodeArg : RArg → Bool
  | .node _ => true
  | _ => false

theorem isNodeArg_false (a : RArg) (h : isNodeArg a = false) :
    ∀ k, a ≠ RArg.node k := by
  intro k hc
  rw [hc] at h
  exact absurd h (by simp [isNodeArg])

theorem addToGroup_inv (Q : RArg → RNode → Prop)
    (acc : List (RArg × List RNode)) (k : RArg) (n : RNode)
    (hacc : ∀ grp ∈ acc, ∀ s ∈ grp.2, Q grp.1 s) (hn : Q k n) :
    ∀ grp ∈ addToGroup acc k n, ∀ s ∈ grp.2, Q grp.1 s := by
  induction acc with
  | nil =>
    intro grp hg s hsg
    rw [addToGroup] at hg
    rcases List.mem_singleton.mp hg with rfl
    rcases List.mem_singleton.mp hsg with rfl
    exact hn
  | cons e rest ih =>
    obtain ⟨k', ns⟩ := e
    intro grp hg s hsg
    rw [addToGroup] at hg
    by_cases hk : k' = k
    · rw [if_pos hk] at hg
      rcases List.mem_cons.mp hg with rfl | hg
      · rcases List.mem_append.mp hsg with hsg | hsg
        · exact hacc (k', ns) (List.mem_cons_self _ _) s hsg
        · rcases List.mem_singleton.mp hsg with rfl
          show Q k' s
          rw [hk]
          exact hn
      · exact hacc grp (List.mem_cons_of_mem _ hg) s hsg
    · rw [if_neg hk] at hg
      rcases List.mem_cons.mp hg with rfl | hg
      · exact hacc (k', ns) (List.mem_cons_self _ _) s hsg
      · exact ih (fun g2 hg2 => hacc g2 (List.mem_cons_of_mem _ hg2)) grp hg s hsg

theorem collect_fold_inv (Q : RArg → RNode → Prop) (g' : List RNode) :
    ∀ acc : List (RArg × List RNode),
    (∀ grp ∈ acc, ∀ s ∈ grp.2, Q grp.1 s) →
    (∀ n ∈ g', matchSeed n = true → Q (n.args.headD (.lit 0)) n) →
    ∀ grp ∈ g'.foldl
      (fun acc n => if matchSeed n then addToGroup acc (n.args.headD (.lit 0)) n else acc)
      acc,
    ∀ s ∈ grp.2, Q grp.1 s := by
  induction g' with
  | nil =>
    intro acc hacc _ grp hg s hsg
    exact hacc grp hg s hsg
  | cons n rest ih =>
    intro acc hacc hg' grp hg s hsg
    rw [List.foldl_cons] at hg
    by_cases hm : matchSeed n
    · rw [if_pos hm] at hg
      exact ih (addToGroup acc (n.args.headD (.lit 0)) n)
        (addToGroup_inv Q acc _ n hacc
          (hg' n (List.mem_cons_self _ _) hm))
        (fun x hx hmx => hg' x (List.mem_cons_of_mem _ hx) hmx) grp hg s hsg
    · rw [if_neg hm] at hg
      exact ih acc hacc (fun x hx hmx => hg' x (List.mem_cons_of_mem _ hx) hmx)
        grp hg s hsg

theorem collectSeedGroups_sub (g : RGraph) :
    ∀ grp ∈ collectSeedGroups g, ∀ s ∈ grp.2,
    s ∈ g ∧ matchSeed s = true ∧ s.args.headD (.lit 0) = grp.1 := by
  apply collect_fold_inv
    (fun k s => s ∈ g ∧ matchSeed s = true ∧ s.args.headD (.lit 0) = k) g
  · intro grp hg
    cases hg
  · intro n hn hm
    exact ⟨hn, hm, rfl⟩

theorem addToGroup_ne (acc : List (RArg × List RNode)) (k : RArg) (n : RNode)
    (hacc : ∀ grp ∈ acc, grp.2 ≠ []) :
    ∀ grp ∈ addToGroup acc k n, grp.2 ≠ [] := by
  induction acc with
  | nil =>
    intro grp hg
    rw [addToGroup] at hg
    rcases List.mem_singleton.mp hg with rfl
    simp
  | cons e rest ih =>
    obtain ⟨k', ns⟩ := e
    intro grp hg
    rw [addToGroup] at hg
    by_cases hk : k' = k
    · rw [if_pos hk] at hg
      rcases List.mem_cons.mp hg with rfl | hg
      · simp
      · exact hacc grp (List.mem_cons_of_mem _ hg)
    · rw [if_neg hk] at hg
      rcases List.mem_cons.mp hg with rfl | hg
      · exact hacc (k', ns) (List.mem_cons_self _ _)
      · exact ih (fun g2 hg2 => hacc g2 (List.mem_cons_of_mem _ hg2)) grp hg

theorem collect_ne (g : RGraph) :
    ∀ grp ∈ collectSeedGroups g, grp.2 ≠ [] := by
  rw [collectSeedGroups]
  generalize hacc : ([] : List (RArg × List RNode)) = acc
  have h0 : ∀ grp ∈ acc, grp.2 ≠ [] := by
    rw [← hacc]
    intro grp hg
    cases hg
  clear hacc
  induction g generalizing acc with
  | nil => exact h0
  | cons n rest ih =>
    rw [List.foldl_cons]
    by_cases hm : matchSeed n
    · rw [if_pos hm]
      exact ih (addToGroup acc _ n) (addToGroup_ne acc _ n h0)
    · rw [if_neg hm]
      exact ih acc h0

theorem allSeedIds_addToGroup (acc : List (RArg × List RNode)) (k : RArg)
    (n : RNode) :
    (allSeedIds (addToGroup acc k n)).Perm (allSeedIds acc ++ [n.id]) := by
  induction acc with
  | nil =>
    rw [addToGroup]
    rw [show allSeedIds [(k, [n])] = [n].map RNode.id ++ allSeedIds [] from rfl]
    rw [show allSeedIds ([] : List (RArg × List RNode)) = [] from rfl]
    simp
  | cons e rest ih =>
    obtain ⟨k', ns⟩ := e
    rw [addToGroup]
    by_cases hk : k' = k
    · rw [if_pos hk]
      rw [show allSeedIds ((k', ns ++ [n]) :: rest) =
        (ns ++ [n]).map RNode.id ++ allSeedIds rest from rfl]
      rw [show allSeedIds ((k', ns) :: rest) =
        ns.map RNode.id ++ allSeedIds rest from rfl]
      rw [List.map_append, List.map_singleton, List.append_assoc,
        List.append_assoc]
      apply List.Perm.append_left
      exact List.perm_append_comm
    · rw [if_neg hk]
      rw [show allSeedIds ((k', ns) :: addToGroup rest k n) =
        ns.map RNode.id ++ allSeedIds (addToGroup rest k n) from rfl]
      rw [show allSeedIds ((k', ns) :: rest) =
        ns.map RNode.id ++ allSeedIds rest from rfl]
      rw [List.append_assoc]
      exact List.Perm.append_left _ ih

theorem allSeedIds_fold (g' : RGraph) :
    ∀ acc : List (RArg × List RNode),
    (allSeedIds (g'.foldl
      (fun acc n => if matchSeed n then addToGroup acc (n.args.headD (.lit 0)) n else acc)
      acc)).Perm (allSeedIds acc ++ (g'.filter matchSeed).map RNode.id) := by
  induction g' with
  | nil =>
    intro acc
    simp
  | cons n rest ih =>
    intro acc
    rw [List.foldl_cons, List.filter_cons]
    by_cases hm : matchSeed n
    · rw [if_pos hm, if_pos hm]
      refine (ih (addToGroup acc (n.args.headD (.lit 0)) n)).trans ?_
      rw [List.map_cons]
      refine List.Perm.trans
        (List.Perm.append_right _ (allSeedIds_addToGroup acc _ n)) ?_
      rw [List.append_assoc, List.singleton_append]
    · rw [if_neg hm, if_neg (by simp [hm])]
      exact ih acc

theorem allSeedIds_collect (g : RGraph) :
    (allSeedIds (collectSeedGroups g)).Perm ((g.filter matchSeed).map RNode.id) := by
  have h := allSeedIds_fold g []
  rw [show allSeedIds ([] : List (RArg × List RNode)) = [] from rfl,
    List.nil_append] at h
  exact h

theorem le_foldr_max (l : List Nat) (a : Nat) (h : a ∈ l) :
    a ≤ l.foldr max 0 := by
  induction l with
  | nil => cases h
  | cons x xs ih =>
    rw [List.foldr_cons]
    rcases List.mem_cons.mp h with rfl | h
    · exact Nat.le_max_left _ _
    · exact Nat.le_trans (ih h) (Nat.le_max_right _ _)

theorem lt_freshIdR (g : RGraph) : ∀ n ∈ g, n.id < freshIdR g := by
  intro n hn
  rw [freshIdR]
  have : n.id ≤ (g.map (fun n => n.id)).foldr max 0 :=
    le_foldr_max _ _ (List.mem_map.mpr ⟨n, hn, rfl⟩)
  omega

end RRand

namespace RRand

/-- The complete replacement list implied by a graph. -/
def buildRepls (g : RGraph) : List SeedRepl :=
  buildReplsGo (freshIdR g) (collectSeedGroups g)

theorem pairsRepls_map_sid (cid : Nat) (dv : RArg) (gs : Nat) :
    ∀ (lid : Nat) (pairs : List (Nat × RNode)),
    (pairsRepls cid dv gs lid pairs).map SeedRepl.sid =
      pairs.map (fun p => p.2.id) := by
  intro lid pairs
  induction pairs generalizing lid with
  | nil => rfl
  | cons p rest ih =>
    rw [show pairsRepls cid dv gs lid (p :: rest) =
      ⟨p.2.id, lid, cid, p.1, false, dv, gs, p.2.meta⟩ ::
        pairsRepls cid dv gs (lid + 1) rest from rfl]
    rw [List.map_cons, List.map_cons, ih (lid + 1)]

theorem enumFromR_map_snd_id (n : Nat) (xs : List RNode) :
    (enumFromR n xs).map (fun p => p.2.id) = xs.map RNode.id := by
  rw [show (fun (p : Nat × RNode) => p.2.id) = RNode.id ∘ Prod.snd from rfl,
    ← List.map_map, enumFromR_map_snd]

theorem groupRepls_map_sid (f : Nat) (dv : RArg) (seeds : List RNode) :
    (groupRepls f dv seeds).map SeedRepl.sid = seeds.map RNode.id := by
  cases seeds with
  | nil => rfl
  | cons s0 rest =>
    rw [show groupRepls f dv (s0 :: rest) =
      ⟨s0.id, f + 1, f, 0, true, dv, rest.length + 1, s0.meta⟩ ::
        pairsRepls f dv (rest.length + 1) (f + 2) (enumFromR 1 rest) from rfl]
    rw [List.map_cons, pairsRepls_map_sid, enumFromR_map_snd_id, List.map_cons]

theorem buildReplsGo_map_sid :
    ∀ (grps : List (RArg × List RNode)) (f : Nat),
    (buildReplsGo f grps).map SeedRepl.sid = allSeedIds grps := by
  intro grps
  induction grps with
  | nil => intro f; rfl
  | cons grp rest ih =>
    intro f
    rw [show buildReplsGo f (grp :: rest) =
      groupRepls f grp.1 grp.2 ++ buildReplsGo (f + groupCost grp) rest from rfl]
    rw [List.map_append, groupRepls_map_sid, ih (f + groupCost grp)]
    rfl

theorem buildReplsGo_bounds :
    ∀ (grps : List (RArg × List RNode)) (f : Nat),
    ∀ r ∈ buildReplsGo f grps, f ≤ r.cid ∧ f ≤ r.lid := by
  intro grps
  induction grps with
  | nil =>
    intro f r hr
    cases hr
  | cons grp rest ih =>
    intro f r hr
    rw [show buildReplsGo f (grp :: rest) =
      groupRepls f grp.1 grp.2 ++ buildReplsGo (f + groupCost grp) rest from rfl] at hr
    rcases List.mem_append.mp hr with hr | hr
    · obtain ⟨dv, seeds⟩ := grp
      cases seeds with
      | nil => cases hr
      | cons s0 rest2 =>
        rcases groupRepls_mem f dv s0 rest2 r hr with rfl | ⟨p, _, he, h1, h2⟩
        · exact ⟨Nat.le_refl f, by show f ≤ f + 1; omega⟩
        · have hcid : r.cid = f := by rw [he]
          exact ⟨by rw [hcid], by omega⟩
    · have := ih (f + groupCost grp) r hr
      exact ⟨by omega, by omega⟩

theorem pairsRepls_not_first (cid : Nat) (dv : RArg) (gs : Nat)
    (lid : Nat) (pairs : List (Nat × RNode)) (r : SeedRepl)
    (hr : r ∈ pairsRepls cid dv gs lid pairs) : r.isFirst = false := by
  obtain ⟨p, _, he, _, _⟩ := pairsRepls_mem cid dv gs lid pairs r hr
  rw [he]

theorem buildReplsGo_first_count :
    ∀ (grps : List (RArg × List RNode)) (f : Nat),
    (∀ grp ∈ grps, grp.2 ≠ []) →
    ((buildReplsGo f grps).filter SeedRepl.isFirst).length = grps.length := by
  intro grps
  induction grps with
  | nil =>
    intro f _
    rfl
  | cons grp rest ih =>
    intro f hne
    rw [show buildReplsGo f (grp :: rest) =
      groupRepls f grp.1 grp.2 ++ buildReplsGo (f + groupCost grp) rest from rfl]
    rw [List.filter_append, List.length_append,
      ih (f + groupCost grp) (fun g2 hg2 => hne g2 (List.mem_cons_of_mem _ hg2))]
    obtain ⟨dv, seeds⟩ := grp
    cases seeds with
    | nil => exact absurd rfl (hne (dv, []) (List.mem_cons_self _ _))
    | cons s0 rest2 =>
      rw [show groupRepls f dv (s0 :: rest2) =
        ⟨s0.id, f + 1, f, 0, true, dv, rest2.length + 1, s0.meta⟩ ::
          pairsRepls f dv (rest2.length + 1) (f + 2) (enumFromR 1 rest2) from rfl]
      rw [List.filter_cons]
      rw [if_pos (by rfl)]
      have hz : (pairsRepls f dv (rest2.length + 1) (f + 2)
          (enumFromR 1 rest2)).filter SeedRepl.isFirst = [] := by
        apply List.filter_eq_nil.mpr
        intro r hr
        simp [pairsRepls_not_first f dv (rest2.length + 1) (f + 2) _ r hr]
      rw [hz]
      rw [List.length_cons, List.length_nil, List.length_cons]
      omega

theorem findRepl_of_nodup (R : List SeedRepl)
    (hnd : (R.map SeedRepl.sid).Nodup) (r : SeedRepl) (hr : r ∈ R) :
    findRepl R r.sid = some r := by
  induction R with
  | nil => cases hr
  | cons x xs ih =>
    rw [List.map_cons, List.nodup_cons] at hnd
    rcases List.mem_cons.mp hr with rfl | hr
    · rw [findRepl, List.find?]
      rw [show (r.sid == r.sid) = true from by simp]
    · rw [findRepl, List.find?]
      have hb : (x.sid == r.sid) = false := by
        have : x.sid ≠ r.sid := by
          intro hc
          exact hnd.1 (by rw [hc]; exact List.mem_map.mpr ⟨r, hr, rfl⟩)
        simp [this]
      rw [hb]
      exact ih hnd.2 hr

theorem buildReplsGo_first :
    ∀ (grps : List (RArg × List RNode)) (f : Nat),
    ∀ grp ∈ grps, ∀ s0 rest, grp.2 = s0 :: rest →
    ∃ r ∈ buildReplsGo f grps,
      r = ⟨s0.id, r.lid, r.cid, 0, true, grp.1, rest.length + 1, s0.meta⟩ := by
  intro grps
  induction grps with
  | nil =>
    intro f grp hg
    cases hg
  | cons g2 rest' ih =>
    intro f grp hg s0 rest he
    rw [show buildReplsGo f (g2 :: rest') =
      groupRepls f g2.1 g2.2 ++ buildReplsGo (f + groupCost g2) rest' from rfl]
    rcases List.mem_cons.mp hg with rfl | hg
    · refine ⟨⟨s0.id, f + 1, f, 0, true, grp.1, rest.length + 1, s0.meta⟩, ?_, rfl⟩
      apply List.mem_append_left
      rw [he]
      rw [show groupRepls f grp.1 (s0 :: rest) =
        ⟨s0.id, f + 1, f, 0, true, grp.1, rest.length + 1, s0.meta⟩ ::
          pairsRepls f grp.1 (rest.length + 1) (f + 2) (enumFromR 1 rest) from rfl]
      exact List.mem_cons_self _ _
    · obtain ⟨r, hr, hre⟩ := ih (f + groupCost g2) grp hg s0 rest he
      exact ⟨r, List.mem_append_right _ hr, hre⟩

end RRand

namespace RRand

theorem pairsRepls_get (cid : Nat) (dv : RArg) (gs : Nat) :
    ∀ (pairs : List (Nat × RNode)) (lid : Nat) (j : Nat) (hj : j < pairs.length),
    (⟨(pairs.get ⟨j, hj⟩).2.id, lid + j, cid, (pairs.get ⟨j, hj⟩).1, false, dv, gs,
      (pairs.get ⟨j, hj⟩).2.meta⟩ : SeedRepl) ∈ pairsRepls cid dv gs lid pairs := by
  intro pairs
  induction pairs with
  | nil =>
    intro lid j hj
    exact absurd hj (Nat.not_lt_zero j)
  | cons p rest ih =>
    intro lid j hj
    rw [show pairsRepls cid dv gs lid (p :: rest) =
      ⟨p.2.id, lid, cid, p.1, false, dv, gs, p.2.meta⟩ ::
        pairsRepls cid dv gs (lid + 1) rest from rfl]
    cases j with
    | zero => exact List.mem_cons_self _ _
    | succ j' =>
      have hj' : j' < rest.length := Nat.lt_of_succ_lt_succ hj
      have hmem := ih (lid + 1) j' hj'
      rw [show lid + (j' + 1) = lid + 1 + j' from by omega]
      exact List.mem_cons_of_mem _ hmem

theorem enumFromR_get {α : Type} :
    ∀ (xs : List α) (n : Nat) (j : Nat) (hj : j < xs.length)
      (hj2 : j < (enumFromR n xs).length),
    (enumFromR n xs).get ⟨j, hj2⟩ = (n + j, xs.get ⟨j, hj⟩) := by
  intro xs
  induction xs with
  | nil =>
    intro n j hj hj2
    exact absurd hj (Nat.not_lt_zero j)
  | cons x rest ih =>
    intro n j hj hj2
    cases j with
    | zero => rfl
    | succ j' =>
      have hj' : j' < rest.length := Nat.lt_of_succ_lt_succ hj
      have hj2' : j' < (enumFromR (n + 1) rest).length := by
        rw [length_enumFromR]
        exact hj'
      have hstep := ih (n + 1) j' hj' hj2'
      rw [show (enumFromR n (x :: rest)).get ⟨j' + 1, hj2⟩ =
        (enumFromR (n + 1) rest).get ⟨j', hj2'⟩ from rfl]
      rw [hstep]
      rw [show n + 1 + j' = n + (j' + 1) from by omega]
      rfl

theorem buildReplsGo_all :
    ∀ (grps : List (RArg × List RNode)) (f : Nat),
    ∀ grp ∈ grps, ∀ k, ∀ hk : k < grp.2.length,
    ∃ r ∈ buildReplsGo f grps,
      r.sid = (grp.2.get ⟨k, hk⟩).id ∧ r.idx = k ∧
      r.smeta = (grp.2.get ⟨k, hk⟩).meta ∧ (r.isFirst = true ↔ k = 0) := by
  intro grps
  induction grps with
  | nil =>
    intro f grp hg
    cases hg
  | cons g2 rest' ih =>
    intro f grp hg k hk
    rcases List.mem_cons.mp hg with rfl | hg
    · obtain ⟨dv, seeds⟩ := grp
      cases seeds with
      | nil => exact absurd hk (Nat.not_lt_zero k)
      | cons s0 rest2 =>
        cases k with
        | zero =>
          refine ⟨⟨s0.id, f + 1, f, 0, true, dv, rest2.length + 1, s0.meta⟩, ?_,
            rfl, rfl, rfl, by simp⟩
          apply List.mem_append_left
          rw [show groupRepls f (dv, s0 :: rest2).1 (dv, s0 :: rest2).2 =
            ⟨s0.id, f + 1, f, 0, true, dv, rest2.length + 1, s0.meta⟩ ::
              pairsRepls f dv (rest2.length + 1) (f + 2) (enumFromR 1 rest2) from rfl]
          exact List.mem_cons_self _ _
        | succ j =>
          have hj : j < rest2.length := Nat.lt_of_succ_lt_succ hk
          have hj2 : j < (enumFromR 1 rest2).length := by
            rw [length_enumFromR]
            exact hj
          have hmem := pairsRepls_get f dv (rest2.length + 1)
            (enumFromR 1 rest2) (f + 2) j hj2
          have hget := enumFromR_get rest2 1 j hj hj2
          refine ⟨⟨((enumFromR 1 rest2).get ⟨j, hj2⟩).2.id, f + 2 + j, f,
            ((enumFromR 1 rest2).get ⟨j, hj2⟩).1, false, dv, rest2.length + 1,
            ((enumFromR 1 rest2).get ⟨j, hj2⟩).2.meta⟩, ?_, ?_, ?_, ?_, by simp⟩
          · apply List.mem_append_left
            rw [show groupRepls f (dv, s0 :: rest2).1 (dv, s0 :: rest2).2 =
              ⟨s0.id, f + 1, f, 0, true, dv, rest2.length + 1, s0.meta⟩ ::
                pairsRepls f dv (rest2.length + 1) (f + 2) (enumFromR 1 rest2) from rfl]
            exact List.mem_cons_of_mem _ hmem
          · show ((enumFromR 1 rest2).get ⟨j, hj2⟩).2.id =
              ((s0 :: rest2).get ⟨j + 1, hk⟩).id
            rw [hget]
            rfl
          · show ((enumFromR 1 rest2).get ⟨j, hj2⟩).1 = j + 1
            rw [hget]
            omega
          · show ((enumFromR 1 rest2).get ⟨j, hj2⟩).2.meta =
              ((s0 :: rest2).get ⟨j + 1, hk⟩).meta
            rw [hget]
            rfl
    · obtain ⟨r, hr, h1, h2, h3, h4⟩ := ih (f + groupCost g2) grp hg k hk
      refine ⟨r, ?_, h1, h2, h3, h4⟩
      rw [show buildReplsGo f (g2 :: rest') =
        groupRepls f g2.1 g2.2 ++ buildReplsGo (f + groupCost g2) rest' from rfl]
      exact List.mem_append_right _ hr

theorem mem_expandAll_of (R : List SeedRepl) (pend : Option (Nat × RNode)) :
    ∀ (g' : RGraph) (n : RNode), n ∈ g' →
    ∀ x ∈ expandRP R pend n, x ∈ expandAll R pend g' := by
  intro g'
  induction g' with
  | nil =>
    intro n hn
    cases hn
  | cons m rest ih =>
    intro n hn x hx
    rw [expandAll]
    rcases List.mem_cons.mp hn with rfl | hn
    · exact List.mem_append_left _ hx
    · exact List.mem_append_right _ (ih n hn x hx)

theorem expandAll_no_replaced_id (R : List SeedRepl) (t : Nat) :
    ∀ g' : RGraph,
    (∀ x ∈ g', x.id = t → (findRepl R x.id).isSome) →
    (∀ x ∈ g', ∀ r, findRepl R x.id = some r → r.cid ≠ t ∧ r.lid ≠ t) →
    ∀ m ∈ expandAll R none g', m.id ≠ t := by
  intro g'
  induction g' with
  | nil =>
    intro _ _ m hm
    cases hm
  | cons n rest ih =>
    intro hsome hR m hm
    rw [expandAll] at hm
    rcases List.mem_append.mp hm with hm | hm
    · cases hf : findRepl R n.id with
      | some r =>
        simp only [expandRP, hf] at hm
        obtain ⟨hc, hl⟩ := hR n (List.mem_cons_self _ _) r hf
        rcases List.mem_append.mp hm with hma | hmb
        · cases hfl : r.isFirst with
          | true =>
            rw [hfl] at hma
            simp only [if_pos rfl] at hma
            rcases List.mem_singleton.mp hma with rfl
            exact hc
          | false =>
            rw [hfl] at hma
            simp at hma
        · rcases List.mem_singleton.mp hmb with rfl
          exact hl
      | none =>
        simp only [expandRP, hf] at hm
        rcases List.mem_singleton.mp hm with rfl
        intro hc
        have hx := hsome n (List.mem_cons_self _ _) hc
        rw [hf] at hx
        simp at hx
    · exact ih (fun x hx => hsome x (List.mem_cons_of_mem _ hx))
        (fun x hx => hR x (List.mem_cons_of_mem _ hx)) m hm

theorem count_expandAll (p : RNode → Bool) (q : RNode → Bool) (R : List SeedRepl) :
    ∀ g' : RGraph,
    (∀ n ∈ g', ((expandRP R none n).filter p).length = if q n then 1 else 0) →
    ((expandAll R none g').filter p).length = (g'.filter q).length := by
  intro g'
  induction g' with
  | nil =>
    intro _
    rfl
  | cons n rest ih =>
    intro h
    rw [expandAll, List.filter_append, List.length_append,
      h n (List.mem_cons_self _ _),
      ih (fun x hx => h x (List.mem_cons_of_mem _ hx)),
      List.filter_cons]
    by_cases hq : q n = true
    · rw [if_pos hq, if_pos hq, List.length_cons]
      omega
    · rw [if_neg hq, if_neg hq]
      omega

theorem filter_map_length {α β : Type} (f : α → β) (p : β → Bool) :
    ∀ l : List α, ((l.map f).filter p).length = (l.filter (fun x => p (f x))).length := by
  intro l
  induction l with
  | nil => rfl
  | cons x xs ih =>
    rw [List.map_cons, List.filter_cons, List.filter_cons]
    by_cases h : p (f x) = true
    · rw [if_pos h, if_pos h, List.length_cons, List.length_cons, ih]
    · rw [if_neg h, if_neg h, ih]

theorem countP_mem_ids (g : RGraph) (S : List Nat) (hS : S.Nodup)
    (hsub : ∀ a ∈ S, a ∈ g.map RNode.id) (hg : (g.map RNode.id).Nodup) :
    (g.filter (fun n => decide (n.id ∈ S))).length = S.length := by
  have h1 : (g.filter (fun n => decide (n.id ∈ S))).length =
      ((g.map RNode.id).filter (fun a => decide (a ∈ S))).length := by
    rw [filter_map_length]
  rw [h1]
  have hperm : ((g.map RNode.id).filter (fun a => decide (a ∈ S))).Perm S := by
    apply (List.perm_ext_iff_of_nodup (hg.filter _) hS).mpr
    intro a
    constructor
    · intro ha
      have := List.mem_filter.mp ha
      simpa using this.2
    · intro ha
      exact List.mem_filter.mpr ⟨hsub a ha, by simpa⟩
  exact hperm.length_eq

end RRand

namespace RRand

theorem fuse_master (g : RGraph)
    (hnodup : (g.map RNode.id).Nodup)
    (hheads : ∀ n ∈ g, matchSeed n = true →
      isNodeArg (n.args.headD (.lit 0)) = false) :
    fuse_seed_creation_pass g = expandAll (buildRepls g) none g := by
  rw [fuse_seed_creation_pass]
  have hbase := lt_freshIdR g
  have hwf0 : ReplWF (freshIdR g) (freshIdR g) [] :=
    ⟨fun r hr => absurd hr (List.not_mem_nil r),
     fun r hr => absurd hr (List.not_mem_nil r),
     fun r hr => absurd hr (List.not_mem_nil r),
     fun r hr => absurd hr (List.not_mem_nil r),
     fun r hr => absurd hr (List.not_mem_nil r),
     fun r hr => absurd hr (List.not_mem_nil r),
     Nat.le_refl _⟩
  have hmem : ∀ grp ∈ collectSeedGroups g,
      (∀ s ∈ grp.2, s ∈ g ∧ findRepl [] s.id = none) ∧
      ∀ k, grp.1 ≠ RArg.node k := by
    intro grp hg
    constructor
    · intro s hs
      exact ⟨(collectSeedGroups_sub g grp hg s hs).1, rfl⟩
    · have hne := collect_ne g grp hg
      cases he : grp.2 with
      | nil => exact absurd he hne
      | cons s0 r2 =>
        have hs0 := collectSeedGroups_sub g grp hg s0
          (by rw [he]; exact List.mem_cons_self _ _)
        have hh := hheads s0 hs0.1 hs0.2.1
        intro k
        rw [← hs0.2.2]
        exact isNodeArg_false _ hh k
  have hndall : (allSeedIds (collectSeedGroups g)).Nodup := by
    have hperm := allSeedIds_collect g
    have hnd2 : ((g.filter matchSeed).map RNode.id).Nodup :=
      hnodup.sublist (List.Sublist.map _ (List.filter_sublist g))
    exact (hperm.nodup_iff).mpr hnd2
  have hfold := foldl_processGroup g (freshIdR g) hbase hnodup
    (collectSeedGroups g) [] (freshIdR g) hwf0 hmem hndall
  rw [show (⟨g, freshIdR g⟩ : FuseState) =
    ⟨expandAll [] none g, freshIdR g⟩ from by rw [expandAll_nil_repl]]
  rw [hfold]
  rw [buildRepls]
  rfl

theorem buildRepls_sid_nodup (g : RGraph)
    (hnodup : (g.map RNode.id).Nodup) :
    ((buildRepls g).map SeedRepl.sid).Nodup := by
  rw [buildRepls, buildReplsGo_map_sid]
  have hperm := allSeedIds_collect g
  have hnd2 : ((g.filter matchSeed).map RNode.id).Nodup :=
    hnodup.sublist (List.Sublist.map _ (List.filter_sublist g))
  exact (hperm.nodup_iff).mpr hnd2

theorem buildRepls_bounds (g : RGraph) :
    ∀ r ∈ buildRepls g, freshIdR g ≤ r.cid ∧ freshIdR g ≤ r.lid := by
  rw [buildRepls]
  exact buildReplsGo_bounds (collectSeedGroups g) (freshIdR g)

theorem buildRepls_sid_seed_ids (g : RGraph) :
    ∀ a, (a ∈ (buildRepls g).map SeedRepl.sid ↔
      a ∈ (g.filter matchSeed).map RNode.id) := by
  intro a
  rw [buildRepls, buildReplsGo_map_sid]
  exact (allSeedIds_collect g).mem_iff

end RRand

namespace RRand

/-- The full behaviour of `fuse_seed_creation_pass` asserted by the seed
fusion claim: the pass equals the expansion under the computed replacement
list; each device group gets exactly one batched-seed node (1-D int64 value
of the group size, placed immediately before the group's first lookup
node); each original seed gets a lookup node indexed by its first-seen
position in its device group with the seed's metadata copied onto it;
surviving nodes are rewired through the lookup ids; original seed ids are
gone; and the inserted node counts are exactly one per device group and one
per original seed. -/
def C2Spec (g : RGraph) : Prop :=
  fuse_seed_creation_pass g = expandAll (buildRepls g) none g ∧
  (∀ grp ∈ collectSeedGroups g, ∀ s0 rest, grp.2 = s0 :: rest →
    ∃ r ∈ buildRepls g, r.sid = s0.id ∧ r.isFirst = true ∧ r.idx = 0 ∧
      r.dev = grp.1 ∧ r.gsize = rest.length + 1 ∧ r.smeta = s0.meta ∧
      (combinedNodeOf r).args = [.lit (rest.length + 1), grp.1] ∧
      (combinedNodeOf r).meta = [("val", seedVal (rest.length + 1) grp.1)] ∧
      ∃ pre post, fuse_seed_creation_pass g =
        pre ++ combinedNodeOf r :: lookupNodeOf r :: post) ∧
  (∀ grp ∈ collectSeedGroups g, ∀ k, ∀ hk : k < grp.2.length,
    ∃ r ∈ buildRepls g, r.sid = (grp.2.get ⟨k, hk⟩).id ∧ r.idx = k ∧
      r.smeta = (grp.2.get ⟨k, hk⟩).meta ∧ (r.isFirst = true ↔ k = 0) ∧
      lookupNodeOf r ∈ fuse_seed_creation_pass g ∧
      (lookupNodeOf r).args = [.node r.cid, .lit k] ∧
      (lookupNodeOf r).meta = updateMeta [] (grp.2.get ⟨k, hk⟩).meta) ∧
  (∀ n ∈ g, findRepl (buildRepls g) n.id = none →
    substN (buildRepls g) n ∈ fuse_seed_creation_pass g) ∧
  (∀ n ∈ g, matchSeed n = true →
    ∀ m ∈ fuse_seed_creation_pass g, m.id ≠ n.id) ∧
  ((fuse_seed_creation_pass g).filter
      (fun m => m.target == RTarget.seeds && decide (freshIdR g ≤ m.id))).length =
    (collectSeedGroups g).length ∧
  ((fuse_seed_creation_pass g).filter
      (fun m => m.target == RTarget.lookupSeed && decide (freshIdR g ≤ m.id))).length =
    (g.filter matchSeed).length

end RRand

namespace RRand

/-- C2: For every graph containing seed-producing nodes spread over distinct
devices (with distinct node ids and non-node device arguments), the seed
fusion pass inserts exactly one batched-seed node per device — its abstract
value a 1-D int64 tensor of length equal to that device's group size,
placed immediately before the group's first lookup node — inserts one
lookup node per original seed whose index equals the seed's first-seen
position within its device group, rewires every use of each original seed
node to its lookup node, copies the original seed's metadata onto the
lookup node, and erases every original seed node. -/
theorem claim_C2 (g : RGraph)
    (hnodup : (g.map RNode.id).Nodup)
    (hheads : ∀ n ∈ g, matchSeed n = true →
      isNodeArg (n.args.headD (.lit 0)) = false) :
    C2Spec g := by
  have hmaster := fuse_master g hnodup hheads
  have hsidnd := buildRepls_sid_nodup g hnodup
  have hbounds := buildRepls_bounds g
  have hbase := lt_freshIdR g
  refine ⟨hmaster, ?_, ?_, ?_, ?_, ?_, ?_⟩
  · -- one batched-seed node per group, before the first lookup
    intro grp hg s0 rest he
    obtain ⟨r, hrR, hre⟩ :=
      buildReplsGo_first (collectSeedGroups g) (freshIdR g) grp hg s0 rest he
    have hrR' : r ∈ buildRepls g := hrR
    have hsid : r.sid = s0.id := by rw [hre]
    have hidx : r.idx = 0 := by rw [hre]
    have hfirst : r.isFirst = true := by rw [hre]
    have hdev : r.dev = grp.1 := by rw [hre]
    have hgs : r.gsize = rest.length + 1 := by rw [hre]
    have hsm : r.smeta = s0.meta := by rw [hre]
    refine ⟨r, hrR', hsid, hfirst, hidx, hdev, hgs, hsm, ?_, ?_, ?_⟩
    · show [RArg.lit r.gsize, r.dev] = [RArg.lit (rest.length + 1), grp.1]
      rw [hgs, hdev]
    · show [("val", seedVal r.gsize r.dev)] =
        [("val", seedVal (rest.length + 1) grp.1)]
      rw [hgs, hdev]
    · have hs0g : s0 ∈ g := (collectSeedGroups_sub g grp hg s0
        (by rw [he]; exact List.mem_cons_self _ _)).1
      obtain ⟨U, V, hG, hU, hV⟩ := mem_nodup_decomp g s0 hs0g hnodup
      have hfind : findRepl (buildRepls g) s0.id = some r := by
        have hx := findRepl_of_nodup (buildRepls g) hsidnd r hrR'
        rw [hsid] at hx
        exact hx
      have key : ∀ R : List SeedRepl, findRepl R s0.id = some r →
          expandAll R none g = expandAll R none U ++
            combinedNodeOf r :: lookupNodeOf r :: expandAll R none V := by
        intro R hfindR
        rw [hG]
        rw [expandAll_append]
        rw [show (s0 :: V : RGraph) = [s0] ++ V from rfl]
        rw [expandAll_append]
        rw [show expandAll R none [s0] =
          expandRP R none s0 ++ expandAll R none [] from rfl]
        rw [show expandAll R none ([] : RGraph) = [] from rfl,
          List.append_nil]
        rw [show expandRP R none s0 =
          [combinedNodeOf r, lookupNodeOf r] from by
            simp only [expandRP, hfindR, hfirst]
            simp]
        simp [List.append_assoc]
      refine ⟨expandAll (buildRepls g) none U, expandAll (buildRepls g) none V, ?_⟩
      rw [hmaster]
      exact key (buildRepls g) hfind
  · -- one lookup node per seed, indexed by first-seen position
    intro grp hg k hk
    obtain ⟨r, hrR, h1, h2, h3, h4⟩ :=
      buildReplsGo_all (collectSeedGroups g) (freshIdR g) grp hg k hk
    have hrR' : r ∈ buildRepls g := hrR
    have hsg : grp.2.get ⟨k, hk⟩ ∈ g :=
      (collectSeedGroups_sub g grp hg _ (List.get_mem _ _ hk)).1
    have hfind : findRepl (buildRepls g) (grp.2.get ⟨k, hk⟩).id = some r := by
      have hx := findRepl_of_nodup (buildRepls g) hsidnd r hrR'
      rw [h1] at hx
      exact hx
    refine ⟨r, hrR', h1, h2, h3, h4, ?_, ?_, ?_⟩
    · rw [hmaster]
      apply mem_expandAll_of (buildRepls g) none g _ hsg
      simp only [expandRP, hfind]
      exact List.mem_append_right _ (List.mem_singleton.mpr rfl)
    · show [RArg.node r.cid, RArg.lit r.idx] = [RArg.node r.cid, RArg.lit k]
      rw [h2]
    · show updateMeta [] r.smeta = updateMeta [] (grp.2.get ⟨k, hk⟩).meta
      rw [h3]
  · -- surviving nodes are kept in substituted form
    intro n hn hnone
    rw [hmaster]
    apply mem_expandAll_of (buildRepls g) none g n hn
    simp only [expandRP, hnone]
    exact List.mem_singleton.mpr rfl
  · -- every original seed node is erased
    intro n hn hseed m hm
    rw [hmaster] at hm
    have hnid : n.id ∈ (buildRepls g).map SeedRepl.sid := by
      apply (buildRepls_sid_seed_ids g n.id).mpr
      exact List.mem_map.mpr ⟨n, List.mem_filter.mpr ⟨hn, hseed⟩, rfl⟩
    refine expandAll_no_replaced_id (buildRepls g) n.id g ?_ ?_ m hm
    · intro x hx hxid
      cases hfr : findRepl (buildRepls g) x.id with
      | some r => rfl
      | none =>
        exfalso
        obtain ⟨r, hrR, hrsid⟩ := List.mem_map.mp hnid
        exact (findRepl_eq_none_iff _ _).mp hfr r hrR (by rw [hrsid, hxid])
    · intro x hx r hfr
      have hb := hbounds r (findRepl_mem_sid _ _ _ hfr).1
      have hxlt := hbase n hn
      exact ⟨Nat.ne_of_gt (Nat.lt_of_lt_of_le hxlt hb.1),
        Nat.ne_of_gt (Nat.lt_of_lt_of_le hxlt hb.2)⟩
  · -- exactly one fresh batched-seed node per device group
    rw [hmaster]
    have hper : ∀ n ∈ g, ((expandRP (buildRepls g) none n).filter
        (fun m => m.target == RTarget.seeds && decide (freshIdR g ≤ m.id))).length =
        if decide (n.id ∈
          ((buildRepls g).filter SeedRepl.isFirst).map SeedRepl.sid) then 1 else 0 := by
      intro n hn
      cases hfr : findRepl (buildRepls g) n.id with
      | some r =>
        obtain ⟨hrR, hrs⟩ := findRepl_mem_sid _ _ _ hfr
        have hbnd := hbounds r hrR
        have hlk : ((lookupNodeOf r).target == RTarget.seeds &&
            decide (freshIdR g ≤ (lookupNodeOf r).id)) = false := by
          show ((RTarget.lookupSeed == RTarget.seeds) &&
            decide (freshIdR g ≤ r.lid)) = false
          rw [show (RTarget.lookupSeed == RTarget.seeds) = false from rfl,
            Bool.false_and]
        have hcn : ((combinedNodeOf r).target == RTarget.seeds &&
            decide (freshIdR g ≤ (combinedNodeOf r).id)) = true := by
          show ((RTarget.seeds == RTarget.seeds) &&
            decide (freshIdR g ≤ r.cid)) = true
          rw [show (RTarget.seeds == RTarget.seeds) = true from rfl,
            Bool.true_and]
          exact decide_eq_true hbnd.1
        simp only [expandRP, hfr]
        rw [List.filter_append]
        cases hfl : r.isFirst with
        | true =>
          rw [if_pos rfl]
          rw [show ([combinedNodeOf r].filter (fun m =>
            m.target == RTarget.seeds && decide (freshIdR g ≤ m.id))) =
            [combinedNodeOf r] from by
              rw [List.filter_cons, if_pos hcn]
              rfl]
          rw [show ([lookupNodeOf r].filter (fun m =>
            m.target == RTarget.seeds && decide (freshIdR g ≤ m.id))) =
            [] from by
              rw [List.filter_cons, if_neg (by rw [hlk]; simp)]
              rfl]
          rw [if_pos (decide_eq_true (List.mem_map.mpr
            ⟨r, List.mem_filter.mpr ⟨hrR, hfl⟩, hrs⟩))]
          rfl
        | false =>
          rw [if_neg (by simp)]
          rw [show (([] : RGraph).filter (fun m =>
            m.target == RTarget.seeds && decide (freshIdR g ≤ m.id))) = []
            from rfl]
          rw [show ([lookupNodeOf r].filter (fun m =>
            m.target == RTarget.seeds && decide (freshIdR g ≤ m.id))) =
            [] from by
              rw [List.filter_cons, if_neg (by rw [hlk]; simp)]
              rfl]
          rw [if_neg ?_]
          · rfl
          · intro hc
            have hc2 := of_decide_eq_true hc
            obtain ⟨r2, hr2, hr2sid⟩ := List.mem_map.mp hc2
            have hr2R := (List.mem_filter.mp hr2).1
            have hr2f := (List.mem_filter.mp hr2).2
            have hx := findRepl_of_nodup (buildRepls g) hsidnd r2 hr2R
            rw [hr2sid] at hx
            rw [hfr] at hx
            cases hx
            rw [hfl] at hr2f
            exact absurd hr2f (by simp)
      | none =>
        simp only [expandRP, hfr]
        have hps : ((substN (buildRepls g) n).target == RTarget.seeds &&
            decide (freshIdR g ≤ (substN (buildRepls g) n).id)) = false := by
          show ((n.target == RTarget.seeds) && decide (freshIdR g ≤ n.id)) = false
          have h2 : decide (freshIdR g ≤ n.id) = false :=
            decide_eq_false (Nat.not_le.mpr (hbase n hn))
          rw [h2, Bool.and_false]
        rw [show ([substN (buildRepls g) n].filter (fun m =>
          m.target == RTarget.seeds && decide (freshIdR g ≤ m.id))) = [] from by
            rw [List.filter_cons, if_neg (by rw [hps]; simp)]
            rfl]
        rw [if_neg ?_]
        · rfl
        · intro hc
          have hc2 := of_decide_eq_true hc
          obtain ⟨r2, hr2, hr2sid⟩ := List.mem_map.mp hc2
          have hr2R := (List.mem_filter.mp hr2).1
          have hx := findRepl_of_nodup (buildRepls g) hsidnd r2 hr2R
          rw [hr2sid] at hx
          rw [hfr] at hx
          cases hx
    rw [count_expandAll _ _ (buildRepls g) g hper]
    have hS1nd : (((buildRepls g).filter SeedRepl.isFirst).map SeedRepl.sid).Nodup :=
      hsidnd.sublist (List.Sublist.map _ (List.filter_sublist _))
    have hS1sub : ∀ a ∈ ((buildRepls g).filter SeedRepl.isFirst).map SeedRepl.sid,
        a ∈ g.map RNode.id := by
      intro a ha
      obtain ⟨r, hr, hrs⟩ := List.mem_map.mp ha
      have hrR := (List.mem_filter.mp hr).1
      have := (buildRepls_sid_seed_ids g a).mp
        (List.mem_map.mpr ⟨r, hrR, hrs⟩)
      obtain ⟨s, hsf, hse⟩ := List.mem_map.mp this
      exact List.mem_map.mpr ⟨s, (List.mem_filter.mp hsf).1, hse⟩
    rw [countP_mem_ids g _ hS1nd hS1sub hnodup]
    rw [List.length_map]
    rw [buildRepls]
    exact buildReplsGo_first_count (collectSeedGroups g) (freshIdR g) (collect_ne g)
  · -- exactly one lookup node per original seed
    rw [hmaster]
    have hper : ∀ n ∈ g, ((expandRP (buildRepls g) none n).filter
        (fun m => m.target == RTarget.lookupSeed && decide (freshIdR g ≤ m.id))).length =
        if decide (n.id ∈ (buildRepls g).map SeedRepl.sid) then 1 else 0 := by
      intro n hn
      cases hfr : findRepl (buildRepls g) n.id with
      | some r =>
        obtain ⟨hrR, hrs⟩ := findRepl_mem_sid _ _ _ hfr
        have hbnd := hbounds r hrR
        have hlk : ((lookupNodeOf r).target == RTarget.lookupSeed &&
            decide (freshIdR g ≤ (lookupNodeOf r).id)) = true := by
          show ((RTarget.lookupSeed == RTarget.lookupSeed) &&
            decide (freshIdR g ≤ r.lid)) = true
          rw [show (RTarget.lookupSeed == RTarget.lookupSeed) = true from rfl,
            Bool.true_and]
          exact decide_eq_true hbnd.2
        have hcn : ((combinedNodeOf r).target == RTarget.lookupSeed &&
            decide (freshIdR g ≤ (combinedNodeOf r).id)) = false := by
          show ((RTarget.seeds == RTarget.lookupSeed) &&
            decide (freshIdR g ≤ r.cid)) = false
          rw [show (RTarget.seeds == RTarget.lookupSeed) = false from rfl,
            Bool.false_and]
        simp only [expandRP, hfr]
        rw [List.filter_append]
        have hlk1 : ([lookupNodeOf r].filter (fun m =>
            m.target == RTarget.lookupSeed && decide (freshIdR g ≤ m.id))) =
            [lookupNodeOf r] := by
          rw [List.filter_cons, if_pos hlk]
          rfl
        have hmemS : n.id ∈ (buildRepls g).map SeedRepl.sid :=
          List.mem_map.mpr ⟨r, hrR, hrs⟩
        cases hfl : r.isFirst with
        | true =>
          rw [if_pos rfl]
          rw [show ([combinedNodeOf r].filter (fun m =>
            m.target == RTarget.lookupSeed && decide (freshIdR g ≤ m.id))) =
            [] from by
              rw [List.filter_cons, if_neg (by rw [hcn]; simp)]
              rfl]
          rw [hlk1, if_pos (decide_eq_true hmemS)]
          rfl
        | false =>
          rw [if_neg (by simp)]
          rw [show (([] : RGraph).filter (fun m =>
            m.target == RTarget.lookupSeed && decide (freshIdR g ≤ m.id))) = []
            from rfl]
          rw [hlk1, if_pos (decide_eq_true hmemS)]
          rfl
      | none =>
        simp only [expandRP, hfr]
        have hps : ((substN (buildRepls g) n).target == RTarget.lookupSeed &&
            decide (freshIdR g ≤ (substN (buildRepls g) n).id)) = false := by
          show ((n.target == RTarget.lookupSeed) && decide (freshIdR g ≤ n.id)) = false
          have h2 : decide (freshIdR g ≤ n.id) = false :=
            decide_eq_false (Nat.not_le.mpr (hbase n hn))
          rw [h2, Bool.and_false]
        rw [show ([substN (buildRepls g) n].filter (fun m =>
          m.target == RTarget.lookupSeed && decide (freshIdR g ≤ m.id))) = [] from by
            rw [List.filter_cons, if_neg (by rw [hps]; simp)]
            rfl]
        rw [if_neg ?_]
        · rfl
        · intro hc
          have hc2 := of_decide_eq_true hc
          obtain ⟨r2, hr2R, hr2sid⟩ := List.mem_map.mp hc2
          have hx := findRepl_of_nodup (buildRepls g) hsidnd r2 hr2R
          rw [hr2sid] at hx
          rw [hfr] at hx
          cases hx
    rw [count_expandAll _ _ (buildRepls g) g hper]
    have hS2nd : ((buildRepls g).map SeedRepl.sid).Nodup := hsidnd
    have hS2sub : ∀ a ∈ (buildRepls g).map SeedRepl.sid, a ∈ g.map RNode.id := by
      intro a ha
      have := (buildRepls_sid_seed_ids g a).mp ha
      obtain ⟨s, hsf, hse⟩ := List.mem_map.mp this
      exact List.mem_map.mpr ⟨s, (List.mem_filter.mp hsf).1, hse⟩
    rw [countP_mem_ids g _ hS2nd hS2sub hnodup]
    rw [show ((buildRepls g).map SeedRepl.sid).length =
      (allSeedIds (collectSeedGroups g)).length from by
        rw [buildRepls, buildReplsGo_map_sid]]
    rw [(allSeedIds_collect g).length_eq]
    rw [List.length_map]

end RRand

namespace RRand

/-- Concrete program for the seed fusion claim: three seed nodes on device
0, two seed nodes on device 1, and a consumer of two of the seeds. -/
def wC2g : RGraph :=
  [⟨0, .callFunction, .seed, [.dev 0], [("val", .plain 7)]⟩,
   ⟨1, .callFunction, .seed, [.dev 0], []⟩,
   ⟨2, .callFunction, .seed, [.dev 1], []⟩,
   ⟨3, .callFunction, .seed, [.dev 0], []⟩,
   ⟨4, .callFunction, .seed, [.dev 1], []⟩,
   ⟨5, .callFunction, .otherT 0, [.node 0, .node 4], []⟩]

theorem claim_C2_witness :
    ((wC2g.map RNode.id).Nodup ∧
     ∀ n ∈ wC2g, matchSeed n = true →
       isNodeArg (n.args.headD (.lit 0)) = false) ∧ C2Spec wC2g :=
  ⟨⟨by decide, by decide⟩, claim_C2 wC2g (by decide) (by decide)⟩

end RRand
